import Mathlib

/-!
# Verification of the vpc-router reconciliation core

A shallow embedding, in Lean 4, of the route-reconciliation core of the
vpc-router repository:

* `src/vpc/__init__.py` — `find_instance_and_emi_by_ip`,
  `get_instance_private_ip_from_route` and `process_route_spec_config`
  (the reconciliation pass);
* `src/vpcrouter/watcher/__init__.py` — `_read_last_msg_from_queue`,
  `_update_health_monitor_with_new_ips` and the body of one iteration of
  `_event_monitor_loop` (the coordinator tick).

Modelling conventions:

* Python dictionaries that map strings are modelled as association lists;
  iteration order is list order, `dict.get` is `List.find?` on the key.
* Python `Queue.Queue` objects are modelled as lists, oldest message first;
  `put` appends, `get_nowait` pops the head.
* Calls on the boto connection object (`con.create_route`,
  `con.replace_route`, `con.delete_route`) are modelled as an `Action` value
  appended to an output list, in call order.
* Messages accumulated in the Python `msg` list are modelled as values of an
  inductive `Msg` type (the spec declares the string format a reporting
  convenience, not a contract).
* Uncaught Python exceptions (`KeyError` on `instance_by_id`, `NameError` on
  a local variable that was never assigned, `IndexError` on `hosts[0]`) abort
  the pass; the pass is therefore `Except String`-valued.  The
  `VpcRouteSetError` raised by `find_instance_and_emi_by_ip` is caught inside
  the pass, so that function is merely `Option`-valued.
* Python truthiness of a possibly-`None` list or dict (`if failed_ips:`,
  `if new_route_spec:`, `if hosts:`) is `true` exactly for `some` of a
  non-empty list.
-/

namespace VpcRouter

/-- An elastic network interface, as read from the cloud snapshot
(`eni.id`, `eni.private_ip_address`). -/
structure ENI where
  id : String
  private_ip_address : String
deriving DecidableEq

/-- An EC2 instance with its interfaces (`instance.id`,
`instance.interfaces`). -/
structure Instance where
  id : String
  interfaces : List ENI
deriving DecidableEq

/-- One route of a route table: destination CIDR, the instance the route is
attached to (`None` for routes not attached to any tracked instance), and the
interface it points at. -/
structure Route where
  destination_cidr_block : String
  instance_id : Option String
  interface_id : String
deriving DecidableEq

/-- A route table (`rt.id`, `rt.routes`). -/
structure RouteTable where
  id : String
  routes : List Route
deriving DecidableEq

/-- The part of the `vpc_info` dict built by `get_vpc_overview` that
`process_route_spec_config` reads: `vpc_info['route_tables']` and
`vpc_info['instances']`.  The derived lookup dict `vpc_info['instance_by_id']`
is modelled by `instanceById` below. -/
structure VpcInfo where
  route_tables : List RouteTable
  instances : List Instance
deriving DecidableEq

/-- A route spec: Python dict from destination CIDR to the ordered list of
candidate router IPs, modelled as an association list (keys unique in any
spec produced by a Python dict). -/
abbrev RouteSpec := List (String × List String)

/-- `route_spec.get(dcidr)`. -/
def specGet (spec : RouteSpec) (cidr : String) : Option (List String) :=
  (spec.find? (fun p => p.1 == cidr)).map Prod.snd

/-- `vpc_info['instance_by_id'][iid]` as an `Option`.  The dict is built by
`get_vpc_overview` with `instance_by_id[i.id] = i` over all instances, so a
duplicated id keeps the last instance; lookup is therefore the last match. -/
def instanceById (vpc : VpcInfo) (iid : String) : Option Instance :=
  vpc.instances.reverse.find? (fun i => i.id == iid)

/-- The instance scan of `find_instance_and_emi_by_ip`. -/
def findInstEniAux : List Instance → String → Option (Instance × ENI)
  | [], _ => none
  | inst :: rest, ip =>
    match inst.interfaces.find? (fun e => e.private_ip_address == ip) with
    | some e => some (inst, e)
    | none => findInstEniAux rest ip

/-- `find_instance_and_emi_by_ip(vpc_info, ip)`: first instance and first of
its interfaces whose private IP equals `ip`.  The Python raises
`VpcRouteSetError` when nothing matches; that exception is caught by the
caller inside the pass, so the function is modelled as `Option`-valued. -/
def find_instance_and_emi_by_ip (vpc : VpcInfo) (ip : String) :
    Option (Instance × ENI) :=
  findInstEniAux vpc.instances ip

/-- `get_instance_private_ip_from_route(instance, route)`: scan the
instance's interfaces for the one named by `route.interface_id`; return its
private IP (else `None`) together with the loop variable `eni`, which after
the loop is the matched interface, else the last interface scanned.  With no
interfaces at all the Python `return ipaddr, eni` raises `NameError`, which
aborts the pass. -/
def get_instance_private_ip_from_route (inst : Instance) (r : Route) :
    Except String (Option String × ENI) :=
  match inst.interfaces.find? (fun e => e.id == r.interface_id) with
  | some e => .ok (some e.private_ip_address, e)
  | none =>
    match inst.interfaces.getLast? with
    | some e => .ok (none, e)
    | none => .error "NameError: eni"

/-- One reconciliation-pass report line (the Python `msg` list entries of
`process_route_spec_config`, with the format strings abstracted away). -/
inductive Msg where
  /-- "route exists already in RT ..." (first loop, current target in spec). -/
  | routeExists (rtId cidr : String) (ip : Option String) (instId eniId : String)
  /-- "route exists already ... with different destination: updating ...". -/
  | routeUpdated (rtId cidr newIp instId eniId : String)
  /-- "*** failed to update route ..." (first loop, catch branch). -/
  | updateFailed (rtId cidr ip : String)
  /-- "route not in spec, deleting ...". -/
  | routeDeleted (rtId cidr instId eniId : String)
  /-- "--- adding route ..." (second loop; the Python interpolates the stale
  first-loop variable `rt.id` here, not `rt_id`). -/
  | routeAdded (msgRtId cidr ip instId eniId : String)
  /-- "*** failed to add route ..." (second loop, catch branch). -/
  | addFailed (msgRtId cidr ip : String)
deriving DecidableEq

/-- A mutation issued on the cloud connector, in call order. -/
inductive Action where
  | createRoute (rtId cidr instId eniId : String)
  | replaceRoute (rtId cidr instId eniId : String)
  | deleteRoute (rtId cidr : String)
deriving DecidableEq

instance exceptDecEq {ε α : Type} [DecidableEq ε] [DecidableEq α] :
    DecidableEq (Except ε α) := fun x y =>
  match x, y with
  | .error a, .error b =>
    if h : a = b then isTrue (by rw [h])
    else isFalse (by intro hh; cases hh; exact h rfl)
  | .ok a, .ok b =>
    if h : a = b then isTrue (by rw [h])
    else isFalse (by intro hh; cases hh; exact h rfl)
  | .error _, .ok _ => isFalse (by intro hh; cases hh)
  | .ok _, .error _ => isFalse (by intro hh; cases hh)

/-- `ipaddr in hosts` where `ipaddr` may be `None`. -/
def optMem (ip : Option String) (hosts : List String) : Bool :=
  match ip with
  | some i => hosts.contains i
  | none => false

/-- The body of the first loop of `process_route_spec_config` for a single
route `r` of route table `rtId` (everything after
`route_dict[rt.id].append(dcidr)`).  Routes not attached to an instance are
skipped; a missing `instance_by_id` entry is an uncaught `KeyError`. -/
def processRoute (spec : RouteSpec) (vpc : VpcInfo) (rtId : String) (r : Route) :
    Except String (List Msg × List Action) :=
  match r.instance_id with
  | none => .ok ([], [])
  | some iid =>
    match instanceById vpc iid with
    | none => .error "KeyError: instance_by_id"
    | some inst =>
      match get_instance_private_ip_from_route inst r with
      | .error e => .error e
      | .ok (ipaddr, eni) =>
        match specGet spec r.destination_cidr_block with
        | some (h0 :: hs) =>
          if optMem ipaddr (h0 :: hs) then
            .ok ([.routeExists rtId r.destination_cidr_block ipaddr inst.id eni.id], [])
          else
            match find_instance_and_emi_by_ip vpc h0 with
            | some (ni, ne) =>
              .ok ([.routeUpdated rtId r.destination_cidr_block h0 ni.id ne.id],
                   [.replaceRoute rtId r.destination_cidr_block ni.id ne.id])
            | none =>
              .ok ([.updateFailed rtId r.destination_cidr_block h0], [])
        | _ =>
          -- `route_spec.get(dcidr)` returned `None` or an empty (falsy) list.
          .ok ([.routeDeleted rtId r.destination_cidr_block inst.id eni.id],
               [.deleteRoute rtId r.destination_cidr_block])

/-- The first loop over the routes of one route table.  The returned third
component is `route_dict[rt.id]`: every destination CIDR seen, in order,
recorded before the attached-instance check. -/
def processRoutes (spec : RouteSpec) (vpc : VpcInfo) (rtId : String) :
    List Route → Except String (List Msg × List Action × List String)
  | [] => .ok ([], [], [])
  | r :: rs =>
    match processRoute spec vpc rtId r with
    | .error e => .error e
    | .ok (m1, a1) =>
      match processRoutes spec vpc rtId rs with
      | .error e => .error e
      | .ok (ms, as2, seen) =>
        .ok (m1 ++ ms, a1 ++ as2, r.destination_cidr_block :: seen)

/-- `route_dict[k] = v` on an association-list model of the Python dict:
replace the value of an existing key in place, else append a new entry. -/
def dictInsert (d : List (String × List String)) (k : String) (v : List String) :
    List (String × List String) :=
  if d.any (fun p => p.1 == k) then
    d.map (fun p => if p.1 == k then (k, v) else p)
  else
    d ++ [(k, v)]

/-- The first loop over all route tables, accumulating `route_dict`. -/
def processTables (spec : RouteSpec) (vpc : VpcInfo) :
    List RouteTable → List (String × List String) →
    Except String (List Msg × List Action × List (String × List String))
  | [], d => .ok ([], [], d)
  | rt :: rts, d =>
    match processRoutes spec vpc rt.id rt.routes with
    | .error e => .error e
    | .ok (m1, a1, seen) =>
      match processTables spec vpc rts (dictInsert d rt.id seen) with
      | .error e => .error e
      | .ok (ms, as2, d2) => .ok (m1 ++ ms, a1 ++ as2, d2)

/-- The body of the second (`add`) loop of `process_route_spec_config` for
one route-spec entry `(dcidr, hosts)` and one `route_dict` entry
`(rtId, rd)`.  `hosts[0]` on an empty candidate list is an uncaught
`IndexError`; the messages interpolate the stale first-loop variable `rt.id`
(`lastRtId`), while the actual `create_route` call uses the dict key
`rt_id`. -/
def createStep (vpc : VpcInfo) (dcidr : String) (hosts : List String)
    (lastRtId rtId : String) (rd : List String) :
    Except String (List Msg × List Action) :=
  if rd.contains dcidr then .ok ([], [])
  else
    match hosts with
    | [] => .error "IndexError: hosts"
    | h0 :: _ =>
      match find_instance_and_emi_by_ip vpc h0 with
      | some (inst, eni) =>
        .ok ([Msg.routeAdded lastRtId dcidr h0 inst.id eni.id],
             [Action.createRoute rtId dcidr inst.id eni.id])
      | none => .ok ([Msg.addFailed lastRtId dcidr h0], [])

/-- The inner loop of the second (`add`) loop: one route-spec entry against
every `route_dict` entry. -/
def processSpecEntryTables (vpc : VpcInfo) (dcidr : String) (hosts : List String)
    (lastRtId : String) :
    List (String × List String) → Except String (List Msg × List Action)
  | [] => .ok ([], [])
  | (rtId, rd) :: rest =>
    match createStep vpc dcidr hosts lastRtId rtId rd with
    | .error e => .error e
    | .ok (m1, a1) =>
      match processSpecEntryTables vpc dcidr hosts lastRtId rest with
      | .error e => .error e
      | .ok (ms, as2) => .ok (m1 ++ ms, a1 ++ as2)

/-- The second loop over all route-spec entries. -/
def processSpecEntries (vpc : VpcInfo) (lastRtId : String)
    (d : List (String × List String)) :
    RouteSpec → Except String (List Msg × List Action)
  | [] => .ok ([], [])
  | (dcidr, hosts) :: rest =>
    match processSpecEntryTables vpc dcidr hosts lastRtId d with
    | .error e => .error e
    | .ok (m1, a1) =>
      match processSpecEntries vpc lastRtId d rest with
      | .error e => .error e
      | .ok (ms, as2) => .ok (m1 ++ ms, a1 ++ as2)

/-- The stale loop variable `rt` of the first loop, as read by the second
loop's messages: the last route table iterated.  It is only ever read when
`route_dict` is non-empty, so the fallback value is unreachable. -/
def lastRtIdOf (vpc : VpcInfo) : String :=
  ((vpc.route_tables.getLast?).map RouteTable.id).getD "undefined"

/-- `process_route_spec_config(con, vpc_info, route_spec, daemon)`.

The `daemon` parameter is never read in the Python body; in daemon mode the
call chain `_event_monitor_loop` → `handle_spec` passes the drained list of
failed IPs in this positional slot, so the reconciliation pass receives the
failed-IP set here and ignores it.  Returns the accumulated messages and the
cloud mutations issued, in order. -/
def process_route_spec_config (vpc : VpcInfo) (route_spec : RouteSpec)
    (daemon : List String) : Except String (List Msg × List Action) :=
  match processTables route_spec vpc vpc.route_tables [] with
  | .error e => .error e
  | .ok (m1, a1, d) =>
    match processSpecEntries vpc (lastRtIdOf vpc) d route_spec with
    | .error e => .error e
    | .ok (m2, a2) => .ok (m1 ++ m2, a1 ++ a2)

/-! ## The watcher / coordinator (`src/vpcrouter/watcher/__init__.py`) -/

/-- The accumulator loop inside `_read_last_msg_from_queue`: `msg` holds the
message read so far, the queue is popped until `Queue.Empty`. -/
def readLastAux {α : Type} : Option α → List α → Option α × List α
  | msg, [] => (msg, [])
  | _, x :: xs => readLastAux (some x) xs

/-- `_read_last_msg_from_queue(q)`: read all pending messages, return the
last one (or `None` on an empty queue) together with the drained queue. -/
def read_last_msg_from_queue {α : Type} (q : List α) : Option α × List α :=
  readLastAux none q

/-- Lexicographic string comparison, byte-for-byte on ASCII data: the order
Python's `sorted` uses on the IP-address strings. -/
def strLe (a b : String) : Prop := a.data ≤ b.data

instance : DecidableRel strLe := fun a b =>
  (inferInstance : Decidable (a.data ≤ b.data))

instance : IsTrans String strLe := ⟨fun _ _ _ h1 h2 => le_trans h1 h2⟩

instance : IsTotal String strLe := ⟨fun a b => le_total a.data b.data⟩

instance : IsAntisymm String strLe :=
  ⟨fun _ _ h1 h2 => String.ext (le_antisymm h1 h2)⟩

/-- `sorted(set(itertools.chain.from_iterable(route_spec.values())))`: every
IP address mentioned in any candidate list of the spec, deduplicated and
sorted ascending. -/
def allIpsOf (spec : RouteSpec) : List String :=
  List.insertionSort strLe (spec.flatMap Prod.snd).dedup

/-- `_update_health_monitor_with_new_ips(route_spec, all_ips, q_monitor_ips)`:
recompute the IP list from the spec; if it differs from the cached `all_ips`,
adopt it and put it on the monitor queue.  Returns the (possibly new) cached
list and the monitor queue. -/
def update_health_monitor_with_new_ips (route_spec : RouteSpec)
    (all_ips : List String) (q_monitor_ips : List (List String)) :
    List String × List (List String) :=
  let new_all_ips := allIpsOf route_spec
  if new_all_ips ≠ all_ips then
    (new_all_ips, q_monitor_ips ++ [new_all_ips])
  else
    (all_ips, q_monitor_ips)

/-- Python truthiness of a drained message that is `None` or a list
(`if failed_ips:`, `if new_route_spec:`): true exactly for a non-empty
list. -/
def listTruthy {α : Type} : Option (List α) → Bool
  | some (_ :: _) => true
  | _ => false

/-- The state the coordinator loop carries across ticks: the two
`CURRENT_STATE` slots written by `_event_monitor_loop`, plus its local
variables `current_route_spec` and `all_ips`. -/
structure CoordState where
  failed_ips : List String
  route_spec : RouteSpec
  current_route_spec : RouteSpec
  all_ips : List String
deriving DecidableEq

/-- Everything one tick of `_event_monitor_loop` produces: the updated
coordinator state, the monitor-IPs queue after any push, and the argument
pair of the `vpc.handle_spec` call if one was made (the route spec passed,
and the `failed_ips if failed_ips else []` value passed in the `daemon`
slot). -/
structure TickResult where
  state : CoordState
  q_monitor_ips : List (List String)
  reconcile : Option (RouteSpec × List String)
deriving DecidableEq

/-- One iteration of the `while True:` body of `_event_monitor_loop` (the
queue drains, the two conditional state updates, and the decision to call
`vpc.handle_spec`).  Both inbound queues are fully drained, so they are left
empty and are not returned. -/
def eventMonitorTick (s : CoordState) (q_failed_ips : List (List String))
    (q_route_spec : List RouteSpec) (q_monitor_ips : List (List String)) :
    TickResult :=
  let failed_ips := (read_last_msg_from_queue q_failed_ips).1
  let new_route_spec := (read_last_msg_from_queue q_route_spec).1
  let s1 :=
    if listTruthy failed_ips then
      { s with failed_ips := failed_ips.getD [] }
    else s
  let (s2, qMon) :=
    if listTruthy new_route_spec then
      let spec := new_route_spec.getD []
      let (allIps, qMon) :=
        update_health_monitor_with_new_ips spec s1.all_ips q_monitor_ips
      ({ s1 with route_spec := spec, current_route_spec := spec,
                 all_ips := allIps }, qMon)
    else (s1, q_monitor_ips)
  let reconcile :=
    if listTruthy new_route_spec || listTruthy failed_ips then
      some (s2.current_route_spec, if listTruthy failed_ips then failed_ips.getD [] else [])
    else none
  ⟨s2, qMon, reconcile⟩

/-! ## Spec-modelled external collaborators

The cloud connector itself (boto) is outside the repository; its route
mutations are modelled from the spec, §6 "External interfaces". -/

/-- Modelled from the spec: the effect of one cloud-connector route mutation
(`createRoute`, `replaceRoute`, `deleteRoute` of §6, each acting on the route
with the given destination CIDR in the named route table) on the cloud
route-table snapshot.  The connector is not part of the repository source. -/
def applyAction (vpc : VpcInfo) : Action → VpcInfo
  | .createRoute t c i e =>
    { vpc with route_tables := vpc.route_tables.map (fun rt =>
        if rt.id = t then { rt with routes := rt.routes ++ [⟨c, some i, e⟩] }
        else rt) }
  | .replaceRoute t c i e =>
    { vpc with route_tables := vpc.route_tables.map (fun rt =>
        if rt.id = t then
          { rt with routes := rt.routes.map (fun r =>
              if r.destination_cidr_block = c then ⟨c, some i, e⟩ else r) }
        else rt) }
  | .deleteRoute t c =>
    { vpc with route_tables := vpc.route_tables.map (fun rt =>
        if rt.id = t then
          { rt with routes :=
              rt.routes.filter (fun r => r.destination_cidr_block ≠ c) }
        else rt) }

/-- Apply a list of mutations to the cloud snapshot, in call order. -/
def applyActions (vpc : VpcInfo) (acts : List Action) : VpcInfo :=
  acts.foldl applyAction vpc

/-- Modelled from the spec, §4.3: the candidate the spec says a CIDR should
be routed to — "the first candidate IP in `candidates` that is not in
`failedIPs`; if every candidate is failed, fall back to the first
candidate".  Used only to state claims; the source never computes this. -/
def specChosenCandidate (hosts failed : List String) : Option String :=
  match hosts.find? (fun h => !(failed.contains h)) with
  | some h => some h
  | none => hosts.head?

/-! ## Inversion lemmas for the loop recursions -/

theorem processRoutes_nil_ok {spec : RouteSpec} {vpc : VpcInfo} {rtId : String}
    {out} :
    processRoutes spec vpc rtId [] = .ok out ↔ out = ([], [], []) := by
  unfold processRoutes
  exact ⟨fun h => (Except.ok.inj h).symm, fun h => by rw [h]⟩

theorem processRoutes_cons_ok {spec : RouteSpec} {vpc : VpcInfo} {rtId : String}
    {r : Route} {rs : List Route} {out} :
    processRoutes spec vpc rtId (r :: rs) = .ok out ↔
    ∃ m1 a1 ms as2 seen,
      processRoute spec vpc rtId r = .ok (m1, a1) ∧
      processRoutes spec vpc rtId rs = .ok (ms, as2, seen) ∧
      out = (m1 ++ ms, a1 ++ as2, r.destination_cidr_block :: seen) := by
  constructor
  · intro h
    unfold processRoutes at h
    cases h1 : processRoute spec vpc rtId r with
    | error e => rw [h1] at h; exact absurd h (by simp)
    | ok p =>
      obtain ⟨m1, a1⟩ := p
      rw [h1] at h
      cases h2 : processRoutes spec vpc rtId rs with
      | error e => rw [h2] at h; exact absurd h (by simp)
      | ok q =>
        obtain ⟨ms, as2, seen⟩ := q
        rw [h2] at h
        exact ⟨m1, a1, ms, as2, seen, rfl, rfl, (Except.ok.inj h).symm⟩
  · rintro ⟨m1, a1, ms, as2, seen, h1, h2, rfl⟩
    unfold processRoutes
    rw [h1, h2]

theorem processTables_nil_ok {spec : RouteSpec} {vpc : VpcInfo}
    {d : List (String × List String)} {out} :
    processTables spec vpc [] d = .ok out ↔ out = ([], [], d) := by
  unfold processTables
  exact ⟨fun h => (Except.ok.inj h).symm, fun h => by rw [h]⟩

theorem processTables_cons_ok {spec : RouteSpec} {vpc : VpcInfo}
    {rt : RouteTable} {rts : List RouteTable}
    {d : List (String × List String)} {out} :
    processTables spec vpc (rt :: rts) d = .ok out ↔
    ∃ m1 a1 seen ms as2 d2,
      processRoutes spec vpc rt.id rt.routes = .ok (m1, a1, seen) ∧
      processTables spec vpc rts (dictInsert d rt.id seen) = .ok (ms, as2, d2) ∧
      out = (m1 ++ ms, a1 ++ as2, d2) := by
  constructor
  · intro h
    unfold processTables at h
    cases h1 : processRoutes spec vpc rt.id rt.routes with
    | error e => rw [h1] at h; exact absurd h (by simp)
    | ok p =>
      obtain ⟨m1, a1, seen⟩ := p
      rw [h1] at h
      cases h2 : processTables spec vpc rts (dictInsert d rt.id seen) with
      | error e => simp [h2] at h
      | ok q =>
        obtain ⟨ms, as2, d2⟩ := q
        simp only [h2] at h
        exact ⟨m1, a1, seen, ms, as2, d2, rfl, h2, (Except.ok.inj h).symm⟩
  · rintro ⟨m1, a1, seen, ms, as2, d2, h1, h2, rfl⟩
    unfold processTables
    rw [h1]
    simp only [h2]

theorem processSpecEntryTables_nil_ok {vpc : VpcInfo} {dcidr : String}
    {hosts : List String} {lastRtId : String} {out} :
    processSpecEntryTables vpc dcidr hosts lastRtId [] = .ok out ↔
    out = ([], []) := by
  unfold processSpecEntryTables
  exact ⟨fun h => (Except.ok.inj h).symm, fun h => by rw [h]⟩

theorem processSpecEntryTables_cons_ok {vpc : VpcInfo} {dcidr : String}
    {hosts : List String} {lastRtId rtId : String} {rd : List String}
    {rest : List (String × List String)} {out} :
    processSpecEntryTables vpc dcidr hosts lastRtId ((rtId, rd) :: rest) = .ok out ↔
    ∃ m1 a1 ms as2,
      createStep vpc dcidr hosts lastRtId rtId rd = .ok (m1, a1) ∧
      processSpecEntryTables vpc dcidr hosts lastRtId rest = .ok (ms, as2) ∧
      out = (m1 ++ ms, a1 ++ as2) := by
  constructor
  · intro h
    unfold processSpecEntryTables at h
    cases h1 : createStep vpc dcidr hosts lastRtId rtId rd with
    | error e => rw [h1] at h; exact absurd h (by simp)
    | ok p =>
      obtain ⟨m1, a1⟩ := p
      rw [h1] at h
      cases h2 : processSpecEntryTables vpc dcidr hosts lastRtId rest with
      | error e => rw [h2] at h; exact absurd h (by simp)
      | ok q =>
        obtain ⟨ms, as2⟩ := q
        rw [h2] at h
        exact ⟨m1, a1, ms, as2, rfl, rfl, (Except.ok.inj h).symm⟩
  · rintro ⟨m1, a1, ms, as2, h1, h2, rfl⟩
    unfold processSpecEntryTables
    rw [h1, h2]

theorem processSpecEntries_nil_ok {vpc : VpcInfo} {lastRtId : String}
    {d : List (String × List String)} {out} :
    processSpecEntries vpc lastRtId d [] = .ok out ↔ out = ([], []) := by
  unfold processSpecEntries
  exact ⟨fun h => (Except.ok.inj h).symm, fun h => by rw [h]⟩

theorem processSpecEntries_cons_ok {vpc : VpcInfo} {lastRtId : String}
    {d : List (String × List String)} {dcidr : String} {hosts : List String}
    {rest : RouteSpec} {out} :
    processSpecEntries vpc lastRtId d ((dcidr, hosts) :: rest) = .ok out ↔
    ∃ m1 a1 ms as2,
      processSpecEntryTables vpc dcidr hosts lastRtId d = .ok (m1, a1) ∧
      processSpecEntries vpc lastRtId d rest = .ok (ms, as2) ∧
      out = (m1 ++ ms, a1 ++ as2) := by
  constructor
  · intro h
    unfold processSpecEntries at h
    cases h1 : processSpecEntryTables vpc dcidr hosts lastRtId d with
    | error e => rw [h1] at h; exact absurd h (by simp)
    | ok p =>
      obtain ⟨m1, a1⟩ := p
      rw [h1] at h
      cases h2 : processSpecEntries vpc lastRtId d rest with
      | error e => rw [h2] at h; exact absurd h (by simp)
      | ok q =>
        obtain ⟨ms, as2⟩ := q
        rw [h2] at h
        exact ⟨m1, a1, ms, as2, rfl, rfl, (Except.ok.inj h).symm⟩
  · rintro ⟨m1, a1, ms, as2, h1, h2, rfl⟩
    unfold processSpecEntries
    rw [h1, h2]

theorem process_ok_iff {vpc : VpcInfo} {spec : RouteSpec} {daemon : List String}
    {out} :
    process_route_spec_config vpc spec daemon = .ok out ↔
    ∃ m1 a1 d m2 a2,
      processTables spec vpc vpc.route_tables [] = .ok (m1, a1, d) ∧
      processSpecEntries vpc (lastRtIdOf vpc) d spec = .ok (m2, a2) ∧
      out = (m1 ++ m2, a1 ++ a2) := by
  constructor
  · intro h
    unfold process_route_spec_config at h
    cases h1 : processTables spec vpc vpc.route_tables [] with
    | error e => rw [h1] at h; exact absurd h (by simp)
    | ok p =>
      obtain ⟨m1, a1, d⟩ := p
      rw [h1] at h
      cases h2 : processSpecEntries vpc (lastRtIdOf vpc) d spec with
      | error e => simp [h2] at h
      | ok q =>
        obtain ⟨m2, a2⟩ := q
        simp only [h2] at h
        exact ⟨m1, a1, d, m2, a2, rfl, h2, (Except.ok.inj h).symm⟩
  · rintro ⟨m1, a1, d, m2, a2, h1, h2, rfl⟩
    unfold process_route_spec_config
    rw [h1]
    simp only [h2]


/-- The route table an action addresses. -/
def actTable : Action → String
  | .createRoute t _ _ _ => t
  | .replaceRoute t _ _ _ => t
  | .deleteRoute t _ => t

/-- The destination CIDR an action addresses. -/
def actCidr : Action → String
  | .createRoute _ c _ _ => c
  | .replaceRoute _ c _ _ => c
  | .deleteRoute _ c => c

/-- The actions among `acts` that address CIDR `c` in route table `t`. -/
def actsFor (acts : List Action) (t c : String) : List Action :=
  acts.filter (fun a => actTable a == t && actCidr a == c)

/-! ### Branch equations for `processRoute` and `createStep` -/

theorem processRoute_eq_untracked {spec : RouteSpec} {vpc : VpcInfo}
    {rtId : String} {r : Route} (hins : r.instance_id = none) :
    processRoute spec vpc rtId r = .ok ([], []) := by
  unfold processRoute
  simp only [hins]

theorem processRoute_eq_exists {spec : RouteSpec} {vpc : VpcInfo}
    {rtId : String} {r : Route} {iid : String} {inst : Instance}
    {ip : Option String} {eni : ENI} {h0 : String} {hs : List String}
    (hins : r.instance_id = some iid)
    (hib : instanceById vpc iid = some inst)
    (hgi : get_instance_private_ip_from_route inst r = .ok (ip, eni))
    (hsg : specGet spec r.destination_cidr_block = some (h0 :: hs))
    (hm : optMem ip (h0 :: hs) = true) :
    processRoute spec vpc rtId r =
      .ok ([.routeExists rtId r.destination_cidr_block ip inst.id eni.id], []) := by
  unfold processRoute
  simp only [hins, hib, hgi, hsg, hm, if_true]

theorem processRoute_eq_replace {spec : RouteSpec} {vpc : VpcInfo}
    {rtId : String} {r : Route} {iid : String} {inst : Instance}
    {ip : Option String} {eni : ENI} {h0 : String} {hs : List String}
    {ni : Instance} {ne : ENI}
    (hins : r.instance_id = some iid)
    (hib : instanceById vpc iid = some inst)
    (hgi : get_instance_private_ip_from_route inst r = .ok (ip, eni))
    (hsg : specGet spec r.destination_cidr_block = some (h0 :: hs))
    (hm : optMem ip (h0 :: hs) = false)
    (hfi : find_instance_and_emi_by_ip vpc h0 = some (ni, ne)) :
    processRoute spec vpc rtId r =
      .ok ([.routeUpdated rtId r.destination_cidr_block h0 ni.id ne.id],
           [.replaceRoute rtId r.destination_cidr_block ni.id ne.id]) := by
  unfold processRoute
  simp only [hins, hib, hgi, hsg, hm, Bool.false_eq_true, if_false, hfi]

theorem processRoute_eq_updateFailed {spec : RouteSpec} {vpc : VpcInfo}
    {rtId : String} {r : Route} {iid : String} {inst : Instance}
    {ip : Option String} {eni : ENI} {h0 : String} {hs : List String}
    (hins : r.instance_id = some iid)
    (hib : instanceById vpc iid = some inst)
    (hgi : get_instance_private_ip_from_route inst r = .ok (ip, eni))
    (hsg : specGet spec r.destination_cidr_block = some (h0 :: hs))
    (hm : optMem ip (h0 :: hs) = false)
    (hfi : find_instance_and_emi_by_ip vpc h0 = none) :
    processRoute spec vpc rtId r =
      .ok ([.updateFailed rtId r.destination_cidr_block h0], []) := by
  unfold processRoute
  simp only [hins, hib, hgi, hsg, hm, Bool.false_eq_true, if_false, hfi]

theorem processRoute_eq_delete {spec : RouteSpec} {vpc : VpcInfo}
    {rtId : String} {r : Route} {iid : String} {inst : Instance}
    {ip : Option String} {eni : ENI}
    (hins : r.instance_id = some iid)
    (hib : instanceById vpc iid = some inst)
    (hgi : get_instance_private_ip_from_route inst r = .ok (ip, eni))
    (hsg : specGet spec r.destination_cidr_block = none ∨
           specGet spec r.destination_cidr_block = some []) :
    processRoute spec vpc rtId r =
      .ok ([.routeDeleted rtId r.destination_cidr_block inst.id eni.id],
           [.deleteRoute rtId r.destination_cidr_block]) := by
  unfold processRoute
  cases hsg with
  | inl hsg => simp only [hins, hib, hgi, hsg]
  | inr hsg => simp only [hins, hib, hgi, hsg]

/-- Exhaustive inversion of a successful `processRoute`: exactly one of the
five Python branches ran. -/
theorem processRoute_cases {spec : RouteSpec} {vpc : VpcInfo}
    {rtId : String} {r : Route} {m : List Msg} {a : List Action}
    (h : processRoute spec vpc rtId r = .ok (m, a)) :
    (r.instance_id = none ∧ m = [] ∧ a = []) ∨
    (∃ iid inst ip eni,
      r.instance_id = some iid ∧ instanceById vpc iid = some inst ∧
      get_instance_private_ip_from_route inst r = .ok (ip, eni) ∧
      ((∃ h0 hs, specGet spec r.destination_cidr_block = some (h0 :: hs) ∧
        ((optMem ip (h0 :: hs) = true ∧
          m = [.routeExists rtId r.destination_cidr_block ip inst.id eni.id] ∧
          a = []) ∨
         (optMem ip (h0 :: hs) = false ∧
          ((∃ ni ne, find_instance_and_emi_by_ip vpc h0 = some (ni, ne) ∧
            m = [.routeUpdated rtId r.destination_cidr_block h0 ni.id ne.id] ∧
            a = [.replaceRoute rtId r.destination_cidr_block ni.id ne.id]) ∨
           (find_instance_and_emi_by_ip vpc h0 = none ∧
            m = [.updateFailed rtId r.destination_cidr_block h0] ∧
            a = []))))) ∨
       ((specGet spec r.destination_cidr_block = none ∨
         specGet spec r.destination_cidr_block = some []) ∧
        m = [.routeDeleted rtId r.destination_cidr_block inst.id eni.id] ∧
        a = [.deleteRoute rtId r.destination_cidr_block]))) := by
  cases hins : r.instance_id with
  | none =>
    rw [processRoute_eq_untracked hins] at h
    obtain ⟨hm2, ha⟩ := Prod.mk.inj (Except.ok.inj h)
    exact Or.inl ⟨rfl, hm2.symm, ha.symm⟩
  | some iid =>
    unfold processRoute at h
    simp only [hins] at h
    cases hib : instanceById vpc iid with
    | none => simp only [hib] at h; exact absurd h (by simp)
    | some inst =>
      simp only [hib] at h
      cases hgi : get_instance_private_ip_from_route inst r with
      | error e => simp only [hgi] at h; exact absurd h (by simp)
      | ok p =>
        obtain ⟨ip, eni⟩ := p
        simp only [hgi] at h
        refine Or.inr ⟨iid, inst, ip, eni, rfl, hib, hgi, ?_⟩
        cases hsg : specGet spec r.destination_cidr_block with
        | none =>
          simp only [hsg] at h
          obtain ⟨hm2, ha⟩ := Prod.mk.inj (Except.ok.inj h)
          exact Or.inr ⟨Or.inl rfl, hm2.symm, ha.symm⟩
        | some hosts =>
          cases hosts with
          | nil =>
            simp only [hsg] at h
            obtain ⟨hm2, ha⟩ := Prod.mk.inj (Except.ok.inj h)
            exact Or.inr ⟨Or.inr rfl, hm2.symm, ha.symm⟩
          | cons h0 hs =>
            simp only [hsg] at h
            refine Or.inl ⟨h0, hs, rfl, ?_⟩
            by_cases hm : optMem ip (h0 :: hs) = true
            · simp only [hm, if_true] at h
              obtain ⟨hm2, ha⟩ := Prod.mk.inj (Except.ok.inj h)
              exact Or.inl ⟨hm, hm2.symm, ha.symm⟩
            · simp only [Bool.not_eq_true] at hm
              simp only [hm, Bool.false_eq_true, if_false] at h
              cases hfi : find_instance_and_emi_by_ip vpc h0 with
              | none =>
                simp only [hfi] at h
                obtain ⟨hm2, ha⟩ := Prod.mk.inj (Except.ok.inj h)
                exact Or.inr ⟨hm, Or.inr ⟨rfl, hm2.symm, ha.symm⟩⟩
              | some p =>
                obtain ⟨ni, ne⟩ := p
                simp only [hfi] at h
                obtain ⟨hm2, ha⟩ := Prod.mk.inj (Except.ok.inj h)
                exact Or.inr ⟨hm, Or.inl ⟨ni, ne, rfl, hm2.symm, ha.symm⟩⟩

/-- Each route of the first loop contributes at most one action: a replace
or a delete addressing its own table and CIDR. -/
theorem processRoute_acts_shape {spec : RouteSpec} {vpc : VpcInfo}
    {rtId : String} {r : Route} {m : List Msg} {a : List Action}
    (h : processRoute spec vpc rtId r = .ok (m, a)) :
    ∀ x ∈ a, (∃ i e, x = Action.replaceRoute rtId r.destination_cidr_block i e) ∨
      x = Action.deleteRoute rtId r.destination_cidr_block := by
  intro x hx
  rcases processRoute_cases h with ⟨-, -, rfl⟩ | ⟨iid, inst, ip, eni, -, -, -, hbr⟩
  · cases hx
  · rcases hbr with ⟨h0, hs, -, ⟨-, -, rfl⟩ | ⟨-, ⟨ni, ne, -, -, rfl⟩ | ⟨-, -, rfl⟩⟩⟩ | ⟨-, -, rfl⟩
    · cases hx
    · cases hx with
      | head => exact Or.inl ⟨ni.id, ne.id, rfl⟩
      | tail _ hx => cases hx
    · cases hx
    · cases hx with
      | head => exact Or.inr rfl
      | tail _ hx => cases hx

/-! ### Branch equations and inversion for `createStep` -/

theorem createStep_eq_skip {vpc : VpcInfo} {dcidr : String}
    {hosts : List String} {lastRtId rtId : String} {rd : List String}
    (hmem : rd.contains dcidr = true) :
    createStep vpc dcidr hosts lastRtId rtId rd = .ok ([], []) := by
  unfold createStep
  simp only [hmem, if_true]

theorem createStep_eq_create {vpc : VpcInfo} {dcidr : String} {h0 : String}
    {hs : List String} {lastRtId rtId : String} {rd : List String}
    {inst : Instance} {eni : ENI}
    (hmem : rd.contains dcidr = false)
    (hfi : find_instance_and_emi_by_ip vpc h0 = some (inst, eni)) :
    createStep vpc dcidr (h0 :: hs) lastRtId rtId rd =
      .ok ([.routeAdded lastRtId dcidr h0 inst.id eni.id],
           [.createRoute rtId dcidr inst.id eni.id]) := by
  unfold createStep
  simp only [hmem, Bool.false_eq_true, if_false, hfi]

theorem createStep_eq_fail {vpc : VpcInfo} {dcidr : String} {h0 : String}
    {hs : List String} {lastRtId rtId : String} {rd : List String}
    (hmem : rd.contains dcidr = false)
    (hfi : find_instance_and_emi_by_ip vpc h0 = none) :
    createStep vpc dcidr (h0 :: hs) lastRtId rtId rd =
      .ok ([.addFailed lastRtId dcidr h0], []) := by
  unfold createStep
  simp only [hmem, Bool.false_eq_true, if_false, hfi]

/-- Exhaustive inversion of a successful `createStep`. -/
theorem createStep_cases {vpc : VpcInfo} {dcidr : String} {hosts : List String}
    {lastRtId rtId : String} {rd : List String} {m : List Msg} {a : List Action}
    (h : createStep vpc dcidr hosts lastRtId rtId rd = .ok (m, a)) :
    (rd.contains dcidr = true ∧ m = [] ∧ a = []) ∨
    (rd.contains dcidr = false ∧
     ∃ h0 hs, hosts = h0 :: hs ∧
      ((∃ inst eni, find_instance_and_emi_by_ip vpc h0 = some (inst, eni) ∧
        m = [.routeAdded lastRtId dcidr h0 inst.id eni.id] ∧
        a = [.createRoute rtId dcidr inst.id eni.id]) ∨
       (find_instance_and_emi_by_ip vpc h0 = none ∧
        m = [.addFailed lastRtId dcidr h0] ∧ a = []))) := by
  unfold createStep at h
  by_cases hmem : rd.contains dcidr = true
  · simp only [hmem, if_true] at h
    obtain ⟨hm2, ha⟩ := Prod.mk.inj (Except.ok.inj h)
    exact Or.inl ⟨hmem, hm2.symm, ha.symm⟩
  · simp only [Bool.not_eq_true] at hmem
    simp only [hmem, Bool.false_eq_true, if_false] at h
    cases hosts with
    | nil => exact absurd h (by simp)
    | cons h0 hs =>
      refine Or.inr ⟨hmem, h0, hs, rfl, ?_⟩
      cases hfi : find_instance_and_emi_by_ip vpc h0 with
      | none =>
        simp only [hfi] at h
        obtain ⟨hm2, ha⟩ := Prod.mk.inj (Except.ok.inj h)
        exact Or.inr ⟨rfl, hm2.symm, ha.symm⟩
      | some p =>
        obtain ⟨inst, eni⟩ := p
        simp only [hfi] at h
        obtain ⟨hm2, ha⟩ := Prod.mk.inj (Except.ok.inj h)
        exact Or.inl ⟨inst, eni, rfl, hm2.symm, ha.symm⟩


/-! ### Aggregation over the loops -/

theorem processRoutes_seen {spec : RouteSpec} {vpc : VpcInfo} {rtId : String}
    {rs : List Route} {m : List Msg} {a : List Action} {seen : List String}
    (h : processRoutes spec vpc rtId rs = .ok (m, a, seen)) :
    seen = rs.map Route.destination_cidr_block := by
  induction rs generalizing m a seen with
  | nil =>
    have h2 := processRoutes_nil_ok.mp h
    simp only [Prod.mk.injEq] at h2
    obtain ⟨-, -, rfl⟩ := h2
    rfl
  | cons r rs ih =>
    obtain ⟨m1, a1, ms, as2, seen2, h1, h2, hout⟩ := processRoutes_cons_ok.mp h
    simp only [Prod.mk.injEq] at hout
    obtain ⟨-, -, rfl⟩ := hout
    simp [ih h2]

/-- Every action of the first loop over one table comes from `processRoute`
on one of its routes. -/
theorem processRoutes_acts_mem {spec : RouteSpec} {vpc : VpcInfo}
    {rtId : String} {rs : List Route} {m : List Msg} {a : List Action}
    {seen : List String}
    (h : processRoutes spec vpc rtId rs = .ok (m, a, seen)) :
    ∀ x ∈ a, ∃ r ∈ rs, ∃ m1 a1,
      processRoute spec vpc rtId r = .ok (m1, a1) ∧ x ∈ a1 := by
  induction rs generalizing m a seen with
  | nil =>
    have h2 := processRoutes_nil_ok.mp h
    simp only [Prod.mk.injEq] at h2
    obtain ⟨-, rfl, -⟩ := h2
    intro x hx
    cases hx
  | cons r rs ih =>
    obtain ⟨m1, a1, ms, as2, seen2, h1, h2, hout⟩ := processRoutes_cons_ok.mp h
    simp only [Prod.mk.injEq] at hout
    obtain ⟨-, rfl, -⟩ := hout
    intro x hx
    rcases List.mem_append.mp hx with hx1 | hx2
    · exact ⟨r, List.mem_cons_self r rs, m1, a1, h1, hx1⟩
    · obtain ⟨r2, hr2, m2, a2, hh, hxx⟩ := ih h2 x hx2
      exact ⟨r2, List.mem_cons_of_mem r hr2, m2, a2, hh, hxx⟩

/-- The output of `processRoute` on any route of the table is contained in
the table's first-loop output. -/
theorem processRoutes_mem {spec : RouteSpec} {vpc : VpcInfo} {rtId : String}
    {rs : List Route} {m : List Msg} {a : List Action} {seen : List String}
    (h : processRoutes spec vpc rtId rs = .ok (m, a, seen))
    {r : Route} (hr : r ∈ rs) {m1 : List Msg} {a1 : List Action}
    (h1 : processRoute spec vpc rtId r = .ok (m1, a1)) :
    (∀ x ∈ m1, x ∈ m) ∧ (∀ x ∈ a1, x ∈ a) := by
  induction rs generalizing m a seen with
  | nil => cases hr
  | cons r0 rs ih =>
    obtain ⟨m0, a0, ms, as2, seen2, h0, h2, hout⟩ := processRoutes_cons_ok.mp h
    simp only [Prod.mk.injEq] at hout
    obtain ⟨rfl, rfl, -⟩ := hout
    rcases List.mem_cons.mp hr with rfl | hr2
    · rw [h0] at h1
      obtain ⟨hm, ha⟩ := Prod.mk.inj (Except.ok.inj h1)
      subst hm; subst ha
      constructor
      · intro x hx; exact List.mem_append.mpr (Or.inl hx)
      · intro x hx; exact List.mem_append.mpr (Or.inl hx)
    · obtain ⟨hm, ha⟩ := ih h2 hr2
      constructor
      · intro x hx; exact List.mem_append.mpr (Or.inr (hm x hx))
      · intro x hx; exact List.mem_append.mpr (Or.inr (ha x hx))

/-- `dictInsert` on a fresh key appends. -/
theorem dictInsert_fresh {d : List (String × List String)} {k : String}
    {v : List String} (hk : ∀ p ∈ d, p.1 ≠ k) :
    dictInsert d k v = d ++ [(k, v)] := by
  unfold dictInsert
  rw [if_neg]
  simp only [List.any_eq_true, beq_iff_eq, not_exists]
  exact fun p hp => hk p hp.1 hp.2

/-- With pairwise-distinct table ids (fresh against the accumulator), the
first loop's `route_dict` maps each table id to the CIDRs of its routes, in
table order. -/
theorem processTables_dict {spec : RouteSpec} {vpc : VpcInfo}
    {rts : List RouteTable} {d : List (String × List String)}
    {m : List Msg} {a : List Action} {d2 : List (String × List String)}
    (h : processTables spec vpc rts d = .ok (m, a, d2))
    (hnd : (rts.map RouteTable.id).Nodup)
    (hfresh : ∀ p ∈ d, ∀ rt ∈ rts, p.1 ≠ rt.id) :
    d2 = d ++ rts.map
      (fun rt => (rt.id, rt.routes.map Route.destination_cidr_block)) := by
  induction rts generalizing d m a d2 with
  | nil =>
    have h2 := processTables_nil_ok.mp h
    simp only [Prod.mk.injEq] at h2
    obtain ⟨-, -, rfl⟩ := h2
    simp
  | cons rt rts ih =>
    obtain ⟨m1, a1, seen, ms, as2, dd, h1, h2, hout⟩ := processTables_cons_ok.mp h
    simp only [Prod.mk.injEq] at hout
    obtain ⟨-, -, rfl⟩ := hout
    have hseen := processRoutes_seen h1
    subst hseen
    have hins : dictInsert d rt.id (rt.routes.map Route.destination_cidr_block) =
        d ++ [(rt.id, rt.routes.map Route.destination_cidr_block)] :=
      dictInsert_fresh (fun p hp => hfresh p hp rt (List.mem_cons_self rt rts))
    rw [hins] at h2
    simp only [List.map_cons, List.nodup_cons] at hnd
    have hrec := ih h2 hnd.2 ?_
    · rw [hrec]
      simp
    · intro p hp rt2 hrt2
      rcases List.mem_append.mp hp with hpd | hpe
      · exact hfresh p hpd rt2 (List.mem_cons_of_mem rt hrt2)
      · have : p = (rt.id, rt.routes.map Route.destination_cidr_block) := by
          simpa using hpe
        subst this
        intro hcon
        have hcon2 : rt.id = rt2.id := hcon
        exact hnd.1 (by rw [hcon2]; exact List.mem_map_of_mem RouteTable.id hrt2)

/-- Every action of the first loop comes from `processRoute` on some route
of some table. -/
theorem processTables_acts_mem {spec : RouteSpec} {vpc : VpcInfo}
    {rts : List RouteTable} {d : List (String × List String)}
    {m : List Msg} {a : List Action} {d2 : List (String × List String)}
    (h : processTables spec vpc rts d = .ok (m, a, d2)) :
    ∀ x ∈ a, ∃ rt ∈ rts, ∃ r ∈ rt.routes, ∃ m1 a1,
      processRoute spec vpc rt.id r = .ok (m1, a1) ∧ x ∈ a1 := by
  induction rts generalizing d m a d2 with
  | nil =>
    have h2 := processTables_nil_ok.mp h
    simp only [Prod.mk.injEq] at h2
    obtain ⟨-, rfl, -⟩ := h2
    intro x hx
    cases hx
  | cons rt rts ih =>
    obtain ⟨m1, a1, seen, ms, as2, dd, h1, h2, hout⟩ := processTables_cons_ok.mp h
    simp only [Prod.mk.injEq] at hout
    obtain ⟨-, rfl, -⟩ := hout
    intro x hx
    rcases List.mem_append.mp hx with hx1 | hx2
    · obtain ⟨r, hr, mm, aa, hh, hxx⟩ := processRoutes_acts_mem h1 x hx1
      exact ⟨rt, List.mem_cons_self rt rts, r, hr, mm, aa, hh, hxx⟩
    · obtain ⟨rt2, hrt2, rest⟩ := ih h2 x hx2
      exact ⟨rt2, List.mem_cons_of_mem rt hrt2, rest⟩

/-- The first-loop output of any one table is contained in the full
first-loop output. -/
theorem processTables_mem {spec : RouteSpec} {vpc : VpcInfo}
    {rts : List RouteTable} {d : List (String × List String)}
    {m : List Msg} {a : List Action} {d2 : List (String × List String)}
    (h : processTables spec vpc rts d = .ok (m, a, d2))
    {rt : RouteTable} (hrt : rt ∈ rts) {m1 : List Msg} {a1 : List Action}
    {seen : List String}
    (h1 : processRoutes spec vpc rt.id rt.routes = .ok (m1, a1, seen)) :
    (∀ x ∈ m1, x ∈ m) ∧ (∀ x ∈ a1, x ∈ a) := by
  induction rts generalizing d m a d2 with
  | nil => cases hrt
  | cons rt0 rts ih =>
    obtain ⟨m0, a0, seen0, ms, as2, dd, h0, h2, hout⟩ := processTables_cons_ok.mp h
    simp only [Prod.mk.injEq] at hout
    obtain ⟨rfl, rfl, -⟩ := hout
    rcases List.mem_cons.mp hrt with rfl | hrt2
    · rw [h0] at h1
      have h1' := Except.ok.inj h1
      simp only [Prod.mk.injEq] at h1'
      obtain ⟨rfl, rfl, -⟩ := h1'
      constructor
      · intro x hx; exact List.mem_append.mpr (Or.inl hx)
      · intro x hx; exact List.mem_append.mpr (Or.inl hx)
    · obtain ⟨hm, ha⟩ := ih h2 hrt2
      constructor
      · intro x hx; exact List.mem_append.mpr (Or.inr (hm x hx))
      · intro x hx; exact List.mem_append.mpr (Or.inr (ha x hx))

/-- Every action of the inner create loop comes from `createStep` on one of
the `route_dict` entries. -/
theorem processSpecEntryTables_acts_mem {vpc : VpcInfo} {dcidr : String}
    {hosts : List String} {lastRtId : String}
    {d : List (String × List String)} {m : List Msg} {a : List Action}
    (h : processSpecEntryTables vpc dcidr hosts lastRtId d = .ok (m, a)) :
    ∀ x ∈ a, ∃ p ∈ d, ∃ m1 a1,
      createStep vpc dcidr hosts lastRtId p.1 p.2 = .ok (m1, a1) ∧ x ∈ a1 := by
  induction d generalizing m a with
  | nil =>
    have h2 := processSpecEntryTables_nil_ok.mp h
    simp only [Prod.mk.injEq] at h2
    obtain ⟨-, rfl⟩ := h2
    intro x hx
    cases hx
  | cons p d ih =>
    obtain ⟨pa, pb⟩ := p
    obtain ⟨m1, a1, ms, as2, h1, h2, hout⟩ := processSpecEntryTables_cons_ok.mp h
    simp only [Prod.mk.injEq] at hout
    obtain ⟨-, rfl⟩ := hout
    intro x hx
    rcases List.mem_append.mp hx with hx1 | hx2
    · exact ⟨(pa, pb), List.mem_cons_self _ _, m1, a1, h1, hx1⟩
    · obtain ⟨p2, hp2, rest⟩ := ih h2 x hx2
      exact ⟨p2, List.mem_cons_of_mem _ hp2, rest⟩

/-- The `createStep` output of any one `route_dict` entry is contained in the
inner create loop's output. -/
theorem processSpecEntryTables_mem {vpc : VpcInfo} {dcidr : String}
    {hosts : List String} {lastRtId : String}
    {d : List (String × List String)} {m : List Msg} {a : List Action}
    (h : processSpecEntryTables vpc dcidr hosts lastRtId d = .ok (m, a))
    {p : String × List String} (hp : p ∈ d) {m1 : List Msg} {a1 : List Action}
    (h1 : createStep vpc dcidr hosts lastRtId p.1 p.2 = .ok (m1, a1)) :
    (∀ x ∈ m1, x ∈ m) ∧ (∀ x ∈ a1, x ∈ a) := by
  induction d generalizing m a with
  | nil => cases hp
  | cons p0 d ih =>
    obtain ⟨pa, pb⟩ := p0
    obtain ⟨m0, a0, ms, as2, h0, h2, hout⟩ := processSpecEntryTables_cons_ok.mp h
    simp only [Prod.mk.injEq] at hout
    obtain ⟨rfl, rfl⟩ := hout
    rcases List.mem_cons.mp hp with rfl | hp2
    · rw [h0] at h1
      obtain ⟨hm, ha⟩ := Prod.mk.inj (Except.ok.inj h1)
      subst hm; subst ha
      constructor
      · intro x hx; exact List.mem_append.mpr (Or.inl hx)
      · intro x hx; exact List.mem_append.mpr (Or.inl hx)
    · obtain ⟨hm, ha⟩ := ih h2 hp2
      constructor
      · intro x hx; exact List.mem_append.mpr (Or.inr (hm x hx))
      · intro x hx; exact List.mem_append.mpr (Or.inr (ha x hx))

/-- Every action of the second loop comes from `createStep` on some spec
entry and some `route_dict` entry. -/
theorem processSpecEntries_acts_mem {vpc : VpcInfo} {lastRtId : String}
    {d : List (String × List String)} {spec : RouteSpec}
    {m : List Msg} {a : List Action}
    (h : processSpecEntries vpc lastRtId d spec = .ok (m, a)) :
    ∀ x ∈ a, ∃ q ∈ spec, ∃ p ∈ d, ∃ m1 a1,
      createStep vpc q.1 q.2 lastRtId p.1 p.2 = .ok (m1, a1) ∧ x ∈ a1 := by
  induction spec generalizing m a with
  | nil =>
    have h2 := processSpecEntries_nil_ok.mp h
    simp only [Prod.mk.injEq] at h2
    obtain ⟨-, rfl⟩ := h2
    intro x hx
    cases hx
  | cons q spec ih =>
    obtain ⟨qa, qb⟩ := q
    obtain ⟨m1, a1, ms, as2, h1, h2, hout⟩ := processSpecEntries_cons_ok.mp h
    simp only [Prod.mk.injEq] at hout
    obtain ⟨-, rfl⟩ := hout
    intro x hx
    rcases List.mem_append.mp hx with hx1 | hx2
    · obtain ⟨p, hp, mm, aa, hh, hxx⟩ := processSpecEntryTables_acts_mem h1 x hx1
      exact ⟨(qa, qb), List.mem_cons_self _ _, p, hp, mm, aa, hh, hxx⟩
    · obtain ⟨q2, hq2, rest⟩ := ih h2 x hx2
      exact ⟨q2, List.mem_cons_of_mem _ hq2, rest⟩

/-- The inner create loop's output for any one spec entry is contained in the
second loop's output. -/
theorem processSpecEntries_mem {vpc : VpcInfo} {lastRtId : String}
    {d : List (String × List String)} {spec : RouteSpec}
    {m : List Msg} {a : List Action}
    (h : processSpecEntries vpc lastRtId d spec = .ok (m, a))
    {q : String × List String} (hq : q ∈ spec) {m1 : List Msg} {a1 : List Action}
    (h1 : processSpecEntryTables vpc q.1 q.2 lastRtId d = .ok (m1, a1)) :
    (∀ x ∈ m1, x ∈ m) ∧ (∀ x ∈ a1, x ∈ a) := by
  induction spec generalizing m a with
  | nil => cases hq
  | cons q0 spec ih =>
    obtain ⟨qa, qb⟩ := q0
    obtain ⟨m0, a0, ms, as2, h0, h2, hout⟩ := processSpecEntries_cons_ok.mp h
    simp only [Prod.mk.injEq] at hout
    obtain ⟨rfl, rfl⟩ := hout
    rcases List.mem_cons.mp hq with rfl | hq2
    · rw [h0] at h1
      obtain ⟨hm, ha⟩ := Prod.mk.inj (Except.ok.inj h1)
      subst hm; subst ha
      constructor
      · intro x hx; exact List.mem_append.mpr (Or.inl hx)
      · intro x hx; exact List.mem_append.mpr (Or.inl hx)
    · obtain ⟨hm, ha⟩ := ih h2 hq2
      constructor
      · intro x hx; exact List.mem_append.mpr (Or.inr (hm x hx))
      · intro x hx; exact List.mem_append.mpr (Or.inr (ha x hx))


/-! ### Locating the actions for one (table, CIDR) pair -/

theorem actsFor_append {a b : List Action} {t c : String} :
    actsFor (a ++ b) t c = actsFor a t c ++ actsFor b t c :=
  List.filter_append _ _

theorem actsFor_eq_self {a : List Action} {t c : String}
    (hx : ∀ x ∈ a, actTable x = t ∧ actCidr x = c) : actsFor a t c = a := by
  unfold actsFor
  rw [List.filter_eq_self]
  intro x hxa
  simp [(hx x hxa).1, (hx x hxa).2]

theorem actsFor_eq_nil {a : List Action} {t c : String}
    (hx : ∀ x ∈ a, ¬(actTable x = t ∧ actCidr x = c)) : actsFor a t c = [] := by
  unfold actsFor
  rw [List.filter_eq_nil_iff]
  intro x hxa
  simp only [Bool.and_eq_true, beq_iff_eq]
  exact fun hc => hx x hxa hc

theorem processRoute_acts_tags {spec : RouteSpec} {vpc : VpcInfo}
    {rtId : String} {r : Route} {m : List Msg} {a : List Action}
    (h : processRoute spec vpc rtId r = .ok (m, a)) :
    ∀ x ∈ a, actTable x = rtId ∧ actCidr x = r.destination_cidr_block := by
  intro x hx
  rcases processRoute_acts_shape h x hx with ⟨i, e, rfl⟩ | rfl <;>
    exact ⟨rfl, rfl⟩

theorem processRoute_actsFor_self {spec : RouteSpec} {vpc : VpcInfo}
    {rtId : String} {r : Route} {m : List Msg} {a : List Action}
    (h : processRoute spec vpc rtId r = .ok (m, a)) :
    actsFor a rtId r.destination_cidr_block = a :=
  actsFor_eq_self (processRoute_acts_tags h)

theorem processRoute_actsFor_ne {spec : RouteSpec} {vpc : VpcInfo}
    {rtId : String} {r : Route} {m : List Msg} {a : List Action} {t c : String}
    (h : processRoute spec vpc rtId r = .ok (m, a))
    (hne : t ≠ rtId ∨ c ≠ r.destination_cidr_block) :
    actsFor a t c = [] := by
  apply actsFor_eq_nil
  rintro x hx ⟨ht, hc⟩
  obtain ⟨ht2, hc2⟩ := processRoute_acts_tags h x hx
  rcases hne with hne | hne
  · exact hne (ht.symm.trans ht2)
  · exact hne (hc.symm.trans hc2)

/-- Within one table whose routes have pairwise-distinct CIDRs, the actions
addressing a given route's CIDR are exactly the ones `processRoute` produced
for that route. -/
theorem processRoutes_actsFor {spec : RouteSpec} {vpc : VpcInfo}
    {rtId : String} {rs : List Route} {m : List Msg} {a : List Action}
    {seen : List String}
    (h : processRoutes spec vpc rtId rs = .ok (m, a, seen))
    (hnd : (rs.map Route.destination_cidr_block).Nodup)
    {r : Route} (hr : r ∈ rs) {m1 : List Msg} {a1 : List Action}
    (h1 : processRoute spec vpc rtId r = .ok (m1, a1)) :
    actsFor a rtId r.destination_cidr_block = a1 := by
  induction rs generalizing m a seen with
  | nil => cases hr
  | cons r0 rs ih =>
    obtain ⟨m0, a0, ms, as2, seen2, h0, h2, hout⟩ := processRoutes_cons_ok.mp h
    simp only [Prod.mk.injEq] at hout
    obtain ⟨-, rfl, -⟩ := hout
    simp only [List.map_cons, List.nodup_cons] at hnd
    rw [actsFor_append]
    rcases List.mem_cons.mp hr with rfl | hr2
    · rw [h0] at h1
      obtain ⟨hm, ha⟩ := Prod.mk.inj (Except.ok.inj h1)
      subst hm; subst ha
      rw [processRoute_actsFor_self h0]
      have htail : actsFor as2 rtId r.destination_cidr_block = [] := by
        apply actsFor_eq_nil
        rintro x hx ⟨ht, hc⟩
        obtain ⟨r2, hr2, m2, a2, hh2, hxx⟩ := processRoutes_acts_mem h2 x hx
        obtain ⟨-, hc2⟩ := processRoute_acts_tags hh2 x hxx
        apply hnd.1
        rw [← hc, hc2]
        exact List.mem_map_of_mem Route.destination_cidr_block hr2
      rw [htail, List.append_nil]
    · have hhead : actsFor a0 rtId r.destination_cidr_block = [] := by
        apply processRoute_actsFor_ne h0
        right
        intro hcon
        exact hnd.1 (hcon ▸ List.mem_map_of_mem Route.destination_cidr_block hr2)
      rw [hhead, List.nil_append]
      exact ih h2 hnd.2 hr2

theorem processRoutes_acts_table {spec : RouteSpec} {vpc : VpcInfo}
    {rtId : String} {rs : List Route} {m : List Msg} {a : List Action}
    {seen : List String}
    (h : processRoutes spec vpc rtId rs = .ok (m, a, seen)) :
    ∀ x ∈ a, actTable x = rtId := by
  intro x hx
  obtain ⟨r, hr, m1, a1, h1, hxx⟩ := processRoutes_acts_mem h x hx
  exact (processRoute_acts_tags h1 x hxx).1

/-- With pairwise-distinct table ids, the first-loop actions addressing table
`rt` are exactly the ones the loop over `rt` produced. -/
theorem processTables_actsFor {spec : RouteSpec} {vpc : VpcInfo}
    {rts : List RouteTable} {d : List (String × List String)}
    {m : List Msg} {a : List Action} {d2 : List (String × List String)}
    (h : processTables spec vpc rts d = .ok (m, a, d2))
    (hnd : (rts.map RouteTable.id).Nodup)
    {rt : RouteTable} (hrt : rt ∈ rts) {m1 : List Msg} {a1 : List Action}
    {seen : List String}
    (h1 : processRoutes spec vpc rt.id rt.routes = .ok (m1, a1, seen))
    (c : String) :
    actsFor a rt.id c = actsFor a1 rt.id c := by
  induction rts generalizing d m a d2 with
  | nil => cases hrt
  | cons rt0 rts ih =>
    obtain ⟨m0, a0, seen0, ms, as2, dd, h0, h2, hout⟩ := processTables_cons_ok.mp h
    simp only [Prod.mk.injEq] at hout
    obtain ⟨-, rfl, -⟩ := hout
    simp only [List.map_cons, List.nodup_cons] at hnd
    rw [actsFor_append]
    rcases List.mem_cons.mp hrt with rfl | hrt2
    · rw [h0] at h1
      have h1' := Except.ok.inj h1
      simp only [Prod.mk.injEq] at h1'
      obtain ⟨-, rfl, -⟩ := h1'
      have htail : actsFor as2 rt.id c = [] := by
        apply actsFor_eq_nil
        rintro x hx ⟨ht, -⟩
        obtain ⟨rt2, hrt2, r2, hr2, m2, a2, hh2, hxx⟩ := processTables_acts_mem h2 x hx
        have ht2 := (processRoute_acts_tags hh2 x hxx).1
        apply hnd.1
        rw [← ht, ht2]
        exact List.mem_map_of_mem RouteTable.id hrt2
      rw [htail, List.append_nil]
    · have hhead : actsFor a0 rt.id c = [] := by
        apply actsFor_eq_nil
        rintro x hx ⟨ht, -⟩
        have ht0 := processRoutes_acts_table h0 x hx
        apply hnd.1
        rw [← ht0, ht]
        exact List.mem_map_of_mem RouteTable.id hrt2
      rw [hhead, List.nil_append]
      exact ih h2 hnd.2 hrt2

theorem createStep_acts_tags {vpc : VpcInfo} {dcidr : String}
    {hosts : List String} {lastRtId rtId : String} {rd : List String}
    {m : List Msg} {a : List Action}
    (h : createStep vpc dcidr hosts lastRtId rtId rd = .ok (m, a)) :
    ∀ x ∈ a, actTable x = rtId ∧ actCidr x = dcidr ∧
      ∃ i e, x = Action.createRoute rtId dcidr i e := by
  intro x hx
  rcases createStep_cases h with ⟨-, -, rfl⟩ | ⟨-, h0, hs, -, hbr⟩
  · cases hx
  · rcases hbr with ⟨inst, eni, -, -, rfl⟩ | ⟨-, -, rfl⟩
    · cases hx with
      | head => exact ⟨rfl, rfl, inst.id, eni.id, rfl⟩
      | tail _ hx => cases hx
    · cases hx

/-- With pairwise-distinct `route_dict` keys, the inner create loop's actions
addressing table `rtId` are exactly the ones `createStep` produced for entry
`(rtId, rd)`. -/
theorem processSpecEntryTables_actsFor {vpc : VpcInfo} {dcidr : String}
    {hosts : List String} {lastRtId : String}
    {d : List (String × List String)} {m : List Msg} {a : List Action}
    (h : processSpecEntryTables vpc dcidr hosts lastRtId d = .ok (m, a))
    (hnd : (d.map Prod.fst).Nodup)
    {rtId : String} {rd : List String} (hp : (rtId, rd) ∈ d)
    {m1 : List Msg} {a1 : List Action}
    (h1 : createStep vpc dcidr hosts lastRtId rtId rd = .ok (m1, a1))
    (c : String) :
    actsFor a rtId c = actsFor a1 rtId c := by
  induction d generalizing m a with
  | nil => cases hp
  | cons p0 d ih =>
    obtain ⟨pa, pb⟩ := p0
    obtain ⟨m0, a0, ms, as2, h0, h2, hout⟩ := processSpecEntryTables_cons_ok.mp h
    simp only [Prod.mk.injEq] at hout
    obtain ⟨-, rfl⟩ := hout
    simp only [List.map_cons, List.nodup_cons] at hnd
    rw [actsFor_append]
    rcases List.mem_cons.mp hp with heq | hp2
    · obtain ⟨rfl, rfl⟩ := Prod.mk.inj heq
      rw [h0] at h1
      obtain ⟨hm, ha⟩ := Prod.mk.inj (Except.ok.inj h1)
      subst hm; subst ha
      have htail : actsFor as2 rtId c = [] := by
        apply actsFor_eq_nil
        rintro x hx ⟨ht, -⟩
        obtain ⟨p2, hp2, m2, a2, hh2, hxx⟩ := processSpecEntryTables_acts_mem h2 x hx
        have ht2 := (createStep_acts_tags hh2 x hxx).1
        apply hnd.1
        rw [← ht, ht2]
        exact List.mem_map_of_mem Prod.fst hp2
      rw [htail, List.append_nil]
    · have hhead : actsFor a0 rtId c = [] := by
        apply actsFor_eq_nil
        rintro x hx ⟨ht, -⟩
        have ht0 := (createStep_acts_tags h0 x hx).1
        apply hnd.1
        rw [← ht0, ht]
        exact List.mem_map_of_mem Prod.fst hp2
      rw [hhead, List.nil_append]
      exact ih h2 hnd.2 hp2

theorem processSpecEntryTables_acts_cidr {vpc : VpcInfo} {dcidr : String}
    {hosts : List String} {lastRtId : String}
    {d : List (String × List String)} {m : List Msg} {a : List Action}
    (h : processSpecEntryTables vpc dcidr hosts lastRtId d = .ok (m, a)) :
    ∀ x ∈ a, actCidr x = dcidr := by
  intro x hx
  obtain ⟨p, hp, m1, a1, h1, hxx⟩ := processSpecEntryTables_acts_mem h x hx
  exact (createStep_acts_tags h1 x hxx).2.1

/-- With pairwise-distinct spec keys, the second loop's actions addressing
CIDR `dcidr` are exactly the ones its inner loop produced for entry
`(dcidr, hosts)`. -/
theorem processSpecEntries_actsFor {vpc : VpcInfo} {lastRtId : String}
    {d : List (String × List String)} {spec : RouteSpec}
    {m : List Msg} {a : List Action}
    (h : processSpecEntries vpc lastRtId d spec = .ok (m, a))
    (hnd : (spec.map Prod.fst).Nodup)
    {dcidr : String} {hosts : List String} (hq : (dcidr, hosts) ∈ spec)
    {m1 : List Msg} {a1 : List Action}
    (h1 : processSpecEntryTables vpc dcidr hosts lastRtId d = .ok (m1, a1))
    (t : String) :
    actsFor a t dcidr = actsFor a1 t dcidr := by
  induction spec generalizing m a with
  | nil => cases hq
  | cons q0 spec ih =>
    obtain ⟨qa, qb⟩ := q0
    obtain ⟨m0, a0, ms, as2, h0, h2, hout⟩ := processSpecEntries_cons_ok.mp h
    simp only [Prod.mk.injEq] at hout
    obtain ⟨-, rfl⟩ := hout
    simp only [List.map_cons, List.nodup_cons] at hnd
    rw [actsFor_append]
    rcases List.mem_cons.mp hq with heq | hq2
    · obtain ⟨rfl, rfl⟩ := Prod.mk.inj heq
      rw [h0] at h1
      obtain ⟨hm, ha⟩ := Prod.mk.inj (Except.ok.inj h1)
      subst hm; subst ha
      have htail : actsFor as2 t dcidr = [] := by
        apply actsFor_eq_nil
        rintro x hx ⟨-, hc⟩
        obtain ⟨q2, hq2, p2, hp2, m2, a2, hh2, hxx⟩ := processSpecEntries_acts_mem h2 x hx
        have hc2 := (createStep_acts_tags hh2 x hxx).2.1
        apply hnd.1
        rw [← hc, hc2]
        exact List.mem_map_of_mem Prod.fst hq2
      rw [htail, List.append_nil]
    · have hhead : actsFor a0 t dcidr = [] := by
        apply actsFor_eq_nil
        rintro x hx ⟨-, hc⟩
        have hc0 := processSpecEntryTables_acts_cidr h0 x hx
        apply hnd.1
        rw [← hc0, hc]
        exact List.mem_map_of_mem Prod.fst hq2
      rw [hhead, List.nil_append]
      exact ih h2 hnd.2 hq2

/-- Actions of the second loop whose CIDR is not a spec key: none. -/
theorem processSpecEntries_actsFor_notkey {vpc : VpcInfo} {lastRtId : String}
    {d : List (String × List String)} {spec : RouteSpec}
    {m : List Msg} {a : List Action}
    (h : processSpecEntries vpc lastRtId d spec = .ok (m, a))
    {c : String} (hc : c ∉ spec.map Prod.fst) (t : String) :
    actsFor a t c = [] := by
  apply actsFor_eq_nil
  rintro x hx ⟨-, hcx⟩
  obtain ⟨q, hq, p, hp, m1, a1, h1, hxx⟩ := processSpecEntries_acts_mem h x hx
  have hc2 := (createStep_acts_tags h1 x hxx).2.1
  apply hc
  rw [← hcx, hc2]
  exact List.mem_map_of_mem Prod.fst hq


/-! ### Success propagation and the top-level split -/

theorem processRoutes_ok_of_mem {spec : RouteSpec} {vpc : VpcInfo}
    {rtId : String} {rs : List Route} {m : List Msg} {a : List Action}
    {seen : List String}
    (h : processRoutes spec vpc rtId rs = .ok (m, a, seen))
    {r : Route} (hr : r ∈ rs) :
    ∃ m1 a1, processRoute spec vpc rtId r = .ok (m1, a1) := by
  induction rs generalizing m a seen with
  | nil => cases hr
  | cons r0 rs ih =>
    obtain ⟨m0, a0, ms, as2, seen2, h0, h2, -⟩ := processRoutes_cons_ok.mp h
    rcases List.mem_cons.mp hr with rfl | hr2
    · exact ⟨m0, a0, h0⟩
    · exact ih h2 hr2

theorem processTables_ok_of_mem {spec : RouteSpec} {vpc : VpcInfo}
    {rts : List RouteTable} {d : List (String × List String)}
    {m : List Msg} {a : List Action} {d2 : List (String × List String)}
    (h : processTables spec vpc rts d = .ok (m, a, d2))
    {rt : RouteTable} (hrt : rt ∈ rts) :
    ∃ m1 a1 seen, processRoutes spec vpc rt.id rt.routes = .ok (m1, a1, seen) := by
  induction rts generalizing d m a d2 with
  | nil => cases hrt
  | cons rt0 rts ih =>
    obtain ⟨m0, a0, seen0, ms, as2, dd, h0, h2, -⟩ := processTables_cons_ok.mp h
    rcases List.mem_cons.mp hrt with rfl | hrt2
    · exact ⟨m0, a0, seen0, h0⟩
    · exact ih h2 hrt2

theorem processSpecEntryTables_ok_of_mem {vpc : VpcInfo} {dcidr : String}
    {hosts : List String} {lastRtId : String}
    {d : List (String × List String)} {m : List Msg} {a : List Action}
    (h : processSpecEntryTables vpc dcidr hosts lastRtId d = .ok (m, a))
    {rtId : String} {rd : List String} (hp : (rtId, rd) ∈ d) :
    ∃ m1 a1, createStep vpc dcidr hosts lastRtId rtId rd = .ok (m1, a1) := by
  induction d generalizing m a with
  | nil => cases hp
  | cons p0 d ih =>
    obtain ⟨pa, pb⟩ := p0
    obtain ⟨m0, a0, ms, as2, h0, h2, -⟩ := processSpecEntryTables_cons_ok.mp h
    rcases List.mem_cons.mp hp with heq | hp2
    · obtain ⟨rfl, rfl⟩ := Prod.mk.inj heq
      exact ⟨m0, a0, h0⟩
    · exact ih h2 hp2

theorem processSpecEntries_ok_of_mem {vpc : VpcInfo} {lastRtId : String}
    {d : List (String × List String)} {spec : RouteSpec}
    {m : List Msg} {a : List Action}
    (h : processSpecEntries vpc lastRtId d spec = .ok (m, a))
    {dcidr : String} {hosts : List String} (hq : (dcidr, hosts) ∈ spec) :
    ∃ m1 a1, processSpecEntryTables vpc dcidr hosts lastRtId d = .ok (m1, a1) := by
  induction spec generalizing m a with
  | nil => cases hq
  | cons q0 spec ih =>
    obtain ⟨qa, qb⟩ := q0
    obtain ⟨m0, a0, ms, as2, h0, h2, -⟩ := processSpecEntries_cons_ok.mp h
    rcases List.mem_cons.mp hq with heq | hq2
    · obtain ⟨rfl, rfl⟩ := Prod.mk.inj heq
      exact ⟨m0, a0, h0⟩
    · exact ih h2 hq2

/-- The `route_dict` built by a successful first loop over all tables, when
table ids do not repeat. -/
def routeDictOf (vpc : VpcInfo) : List (String × List String) :=
  vpc.route_tables.map
    (fun rt => (rt.id, rt.routes.map Route.destination_cidr_block))

/-- Split of a successful pass, with the `route_dict` made explicit. -/
theorem process_acts_split {vpc : VpcInfo} {spec : RouteSpec}
    {daemon : List String} {msgs : List Msg} {acts : List Action}
    (h : process_route_spec_config vpc spec daemon = .ok (msgs, acts))
    (hndt : (vpc.route_tables.map RouteTable.id).Nodup) :
    ∃ m1 a1 m2 a2,
      processTables spec vpc vpc.route_tables [] = .ok (m1, a1, routeDictOf vpc) ∧
      processSpecEntries vpc (lastRtIdOf vpc) (routeDictOf vpc) spec = .ok (m2, a2) ∧
      msgs = m1 ++ m2 ∧ acts = a1 ++ a2 := by
  obtain ⟨m1, a1, d, m2, a2, h1, h2, hout⟩ := process_ok_iff.mp h
  have hd : d = routeDictOf vpc := by
    have := processTables_dict h1 hndt (fun p hp => absurd hp (List.not_mem_nil p))
    simpa [routeDictOf] using this
  subst hd
  simp only [Prod.mk.injEq] at hout
  exact ⟨m1, a1, m2, a2, h1, h2, hout.1, hout.2⟩

theorem routeDictOf_keys (vpc : VpcInfo) :
    (routeDictOf vpc).map Prod.fst = vpc.route_tables.map RouteTable.id := by
  unfold routeDictOf
  rw [List.map_map]
  rfl

/-- A `specGet` hit names an entry of the spec. -/
theorem specGet_mem {spec : RouteSpec} {c : String} {v : List String}
    (h : specGet spec c = some v) : (c, v) ∈ spec := by
  unfold specGet at h
  cases hf : spec.find? (fun p => p.1 == c) with
  | none => rw [hf] at h; cases h
  | some p =>
    rw [hf] at h
    have hp := List.mem_of_find?_eq_some hf
    have hc : p.1 = c := by
      have := List.find?_some hf
      simpa using this
    have hv : p.2 = v := Option.some.inj h
    have : (c, v) = p := by
      rw [← hc, ← hv]
    rw [this]
    exact hp

/-- A spec key is `specGet`-visible (the first entry with that key wins). -/
theorem specGet_isSome_of_mem {spec : RouteSpec} {c : String} {v : List String}
    (h : (c, v) ∈ spec) : ∃ w, specGet spec c = some w := by
  unfold specGet
  cases hf : spec.find? (fun p => p.1 == c) with
  | none =>
    have := List.find?_eq_none.mp hf (c, v) h
    simp at this
  | some p => exact ⟨p.2, rfl⟩

/-- With pairwise-distinct spec keys, `specGet` returns exactly the value of
the unique entry with that key. -/
theorem specGet_eq_of_mem_nodup {spec : RouteSpec} {c : String} {v : List String}
    (hnd : (spec.map Prod.fst).Nodup) (h : (c, v) ∈ spec) :
    specGet spec c = some v := by
  induction spec with
  | nil => cases h
  | cons q spec ih =>
    obtain ⟨qa, qb⟩ := q
    simp only [List.map_cons, List.nodup_cons] at hnd
    rcases List.mem_cons.mp h with heq | h2
    · obtain ⟨rfl, rfl⟩ := Prod.mk.inj heq
      unfold specGet
      simp
    · have hne : qa ≠ c := by
        intro hcon
        subst hcon
        exact hnd.1 (List.mem_map_of_mem Prod.fst h2)
      have hbe : (qa == c) = false := by simpa using hne
      unfold specGet
      simp only [List.find?_cons, hbe]
      exact ih hnd.2 h2


/-! ### The pass, restricted to one tracked route -/

theorem actsFor_nil {t c : String} : actsFor [] t c = [] := rfl

/-- In a successful pass over well-formed snapshots (distinct table ids,
distinct CIDRs within the table, distinct spec keys), the actions addressing
a given route's (table, CIDR) pair are exactly what `processRoute` produced
for that route, and its messages all appear in the pass report.  The second
loop contributes nothing for this pair because the CIDR was recorded in
`route_dict` during the first sweep. -/
theorem process_actsFor_route {vpc : VpcInfo} {spec : RouteSpec}
    {daemon : List String} {msgs : List Msg} {acts : List Action}
    (h : process_route_spec_config vpc spec daemon = .ok (msgs, acts))
    (hndt : (vpc.route_tables.map RouteTable.id).Nodup)
    (hndk : (spec.map Prod.fst).Nodup)
    {rt : RouteTable} (hrt : rt ∈ vpc.route_tables)
    (hndc : (rt.routes.map Route.destination_cidr_block).Nodup)
    {r : Route} (hr : r ∈ rt.routes) {m1 : List Msg} {a1 : List Action}
    (h1 : processRoute spec vpc rt.id r = .ok (m1, a1)) :
    (∀ x ∈ m1, x ∈ msgs) ∧
    actsFor acts rt.id r.destination_cidr_block = a1 := by
  obtain ⟨M1, A1, M2, A2, hT, hE, hmsgs, hacts⟩ := process_acts_split h hndt
  obtain ⟨mm, aa, seen, h1t⟩ := processTables_ok_of_mem hT hrt
  subst hmsgs; subst hacts
  constructor
  · intro x hx
    have hx1 := (processRoutes_mem h1t hr h1).1 x hx
    have hx2 := (processTables_mem hT hrt h1t).1 x hx1
    exact List.mem_append.mpr (Or.inl hx2)
  · rw [actsFor_append]
    have hA1 : actsFor A1 rt.id r.destination_cidr_block = a1 := by
      rw [processTables_actsFor hT hndt hrt h1t]
      exact processRoutes_actsFor h1t hndc hr h1
    have hA2 : actsFor A2 rt.id r.destination_cidr_block = [] := by
      by_cases hc : r.destination_cidr_block ∈ spec.map Prod.fst
      · obtain ⟨q, hq, hqc⟩ := List.mem_map.mp hc
        obtain ⟨qa, qb⟩ := q
        simp only at hqc
        subst hqc
        obtain ⟨mi, ai, hIT⟩ := processSpecEntries_ok_of_mem hE hq
        rw [processSpecEntries_actsFor hE hndk hq hIT rt.id]
        have hdictmem :
            (rt.id, rt.routes.map Route.destination_cidr_block) ∈ routeDictOf vpc :=
          List.mem_map_of_mem _ hrt
        have hskip : createStep vpc r.destination_cidr_block qb (lastRtIdOf vpc)
            rt.id (rt.routes.map Route.destination_cidr_block) = .ok ([], []) := by
          apply createStep_eq_skip
          have hmem : r.destination_cidr_block ∈
              rt.routes.map Route.destination_cidr_block :=
            List.mem_map_of_mem Route.destination_cidr_block hr
          simpa using hmem
        rw [processSpecEntryTables_actsFor hIT
              (by rw [routeDictOf_keys]; exact hndt) hdictmem hskip]
        exact actsFor_nil
      · exact processSpecEntries_actsFor_notkey hE hc rt.id
    rw [hA1, hA2, List.append_nil]


/-- No first-loop action of a table addresses a CIDR that none of its routes
carries. -/
theorem processRoutes_actsFor_notin {spec : RouteSpec} {vpc : VpcInfo}
    {rtId : String} {rs : List Route} {m : List Msg} {a : List Action}
    {seen : List String}
    (h : processRoutes spec vpc rtId rs = .ok (m, a, seen))
    {c : String} (hc : c ∉ rs.map Route.destination_cidr_block) (t : String) :
    actsFor a t c = [] := by
  apply actsFor_eq_nil
  rintro x hx ⟨-, hcx⟩
  obtain ⟨r, hr, m1, a1, h1, hxx⟩ := processRoutes_acts_mem h x hx
  obtain ⟨-, hc2⟩ := processRoute_acts_tags h1 x hxx
  apply hc
  rw [← hcx, hc2]
  exact List.mem_map_of_mem Route.destination_cidr_block hr

/-- In a successful pass over well-formed snapshots, for a spec entry whose
CIDR was not observed among a table's routes, the actions addressing that
(table, CIDR) pair are exactly what `createStep` produced for the pair, and
its messages all appear in the pass report. -/
theorem process_actsFor_create {vpc : VpcInfo} {spec : RouteSpec}
    {daemon : List String} {msgs : List Msg} {acts : List Action}
    (h : process_route_spec_config vpc spec daemon = .ok (msgs, acts))
    (hndt : (vpc.route_tables.map RouteTable.id).Nodup)
    (hndk : (spec.map Prod.fst).Nodup)
    {dcidr : String} {hosts : List String} (hq : (dcidr, hosts) ∈ spec)
    {rt : RouteTable} (hrt : rt ∈ vpc.route_tables)
    (hno : dcidr ∉ rt.routes.map Route.destination_cidr_block)
    {m1 : List Msg} {a1 : List Action}
    (h1 : createStep vpc dcidr hosts (lastRtIdOf vpc) rt.id
            (rt.routes.map Route.destination_cidr_block) = .ok (m1, a1)) :
    (∀ x ∈ m1, x ∈ msgs) ∧ actsFor acts rt.id dcidr = a1 := by
  obtain ⟨M1, A1, M2, A2, hT, hE, hmsgs, hacts⟩ := process_acts_split h hndt
  subst hmsgs; subst hacts
  obtain ⟨mi, ai, hIT⟩ := processSpecEntries_ok_of_mem hE hq
  have hdictmem :
      (rt.id, rt.routes.map Route.destination_cidr_block) ∈ routeDictOf vpc :=
    List.mem_map_of_mem _ hrt
  constructor
  · intro x hx
    have hx1 := (processSpecEntryTables_mem hIT hdictmem h1).1 x hx
    have hx2 := (processSpecEntries_mem hE hq hIT).1 x hx1
    exact List.mem_append.mpr (Or.inr hx2)
  · rw [actsFor_append]
    have hA2 : actsFor A2 rt.id dcidr = a1 := by
      rw [processSpecEntries_actsFor hE hndk hq hIT rt.id]
      rw [processSpecEntryTables_actsFor hIT
            (by rw [routeDictOf_keys]; exact hndt) hdictmem h1]
      apply actsFor_eq_self
      intro x hx
      obtain ⟨ht2, hc2, -⟩ := createStep_acts_tags h1 x hx
      exact ⟨ht2, hc2⟩
    have hA1 : actsFor A1 rt.id dcidr = [] := by
      obtain ⟨mm, aa, seen, h1t⟩ := processTables_ok_of_mem hT hrt
      rw [processTables_actsFor hT hndt hrt h1t]
      exact processRoutes_actsFor_notin h1t hno rt.id
    rw [hA1, hA2, List.nil_append]


/-! ## Concrete scenario inputs shared by counterexamples and witnesses -/

def cxEni1 : ENI := ⟨"eni-1", "10.0.0.1"⟩

def cxEni2 : ENI := ⟨"eni-2", "10.0.0.2"⟩

def cxInst1 : Instance := ⟨"i-1", [cxEni1]⟩

def cxInst2 : Instance := ⟨"i-2", [cxEni2]⟩

def cxRouteKeep : Route := ⟨"10.1.0.0/24", some "i-1", "eni-1"⟩

def cxTableKeep : RouteTable := ⟨"rt-1", [cxRouteKeep]⟩

def cxVpcKeep : VpcInfo := ⟨[cxTableKeep], [cxInst1, cxInst2]⟩

def cxSpec : RouteSpec := [("10.1.0.0/24", ["10.0.0.1", "10.0.0.2"])]

def cxVpcEmpty : VpcInfo := ⟨[⟨"rt-1", []⟩], [cxInst1, cxInst2]⟩

def cxRouteUn : Route := ⟨"10.1.0.0/24", none, "eni-x"⟩

def cxTableUn : RouteTable := ⟨"rt-1", [cxRouteUn]⟩

def cxVpcUn : VpcInfo := ⟨[cxTableUn], [cxInst1]⟩

/-! ## Claim C1 -/

/-- C1, counterexample.  The claim says the pass routes each spec CIDR to the
first candidate not in the failed-IP set (here 10.0.0.2, since 10.0.0.1 is
failed) and replaces a route whose current target differs from that chosen
candidate.  At this input the route currently targets the failed 10.0.0.1,
yet the pass reports the route as already existing and issues no mutation:
the failed-IP set (passed through the unused `daemon` slot) never influences
route selection. -/
theorem C1_counterexample :
    process_route_spec_config cxVpcKeep cxSpec ["10.0.0.1"] =
      .ok ([Msg.routeExists "rt-1" "10.1.0.0/24" (some "10.0.0.1") "i-1" "eni-1"],
           []) ∧
    specGet cxSpec "10.1.0.0/24" = some ["10.0.0.1", "10.0.0.2"] ∧
    specChosenCandidate ["10.0.0.1", "10.0.0.2"] ["10.0.0.1"] =
      some "10.0.0.2" ∧
    ("10.0.0.1" : String) ≠ "10.0.0.2" :=
  ⟨by decide, by decide, by decide, by decide⟩

/-- C1 (amended).  For every successful reconciliation pass over a
well-formed snapshot (pairwise-distinct route-table ids, pairwise-distinct
CIDRs within the table, pairwise-distinct spec keys), every route table, and
every existing route attached to a tracked instance whose destination CIDR
is a key of the route spec: the pass does not depend on the failed-IP set
(which reaches it only through the unused `daemon` parameter); if the
route's current target IP is any member of that CIDR's candidate list, the
pass records a route-exists message and issues no mutation for that (table,
CIDR) pair; otherwise, it issues exactly one replaceRoute pointing the CIDR
at the first candidate's instance/interface when that candidate resolves,
and records a failure message with no mutation when it does not. -/
theorem C1_theorem {vpc : VpcInfo} {spec : RouteSpec} {daemon : List String}
    {msgs : List Msg} {acts : List Action}
    (h : process_route_spec_config vpc spec daemon = .ok (msgs, acts))
    (hndt : (vpc.route_tables.map RouteTable.id).Nodup)
    (hndk : (spec.map Prod.fst).Nodup)
    {rt : RouteTable} (hrt : rt ∈ vpc.route_tables)
    (hndc : (rt.routes.map Route.destination_cidr_block).Nodup)
    {r : Route} (hr : r ∈ rt.routes)
    {iid : String} (hins : r.instance_id = some iid)
    {inst : Instance} (hib : instanceById vpc iid = some inst)
    {ip : Option String} {eni : ENI}
    (hgi : get_instance_private_ip_from_route inst r = .ok (ip, eni))
    {h0 : String} {hs : List String}
    (hsg : specGet spec r.destination_cidr_block = some (h0 :: hs)) :
    (∀ d2, process_route_spec_config vpc spec d2 = .ok (msgs, acts)) ∧
    (optMem ip (h0 :: hs) = true →
      Msg.routeExists rt.id r.destination_cidr_block ip inst.id eni.id ∈ msgs ∧
      actsFor acts rt.id r.destination_cidr_block = []) ∧
    (optMem ip (h0 :: hs) = false →
      (∀ ni ne, find_instance_and_emi_by_ip vpc h0 = some (ni, ne) →
        actsFor acts rt.id r.destination_cidr_block =
          [Action.replaceRoute rt.id r.destination_cidr_block ni.id ne.id] ∧
        Msg.routeUpdated rt.id r.destination_cidr_block h0 ni.id ne.id ∈ msgs) ∧
      (find_instance_and_emi_by_ip vpc h0 = none →
        Msg.updateFailed rt.id r.destination_cidr_block h0 ∈ msgs ∧
        actsFor acts rt.id r.destination_cidr_block = [])) := by
  refine ⟨fun d2 => h, ?_, ?_⟩
  · intro hm
    have heq := @processRoute_eq_exists spec vpc rt.id r _ _ _ _ _ _ hins hib hgi hsg hm
    obtain ⟨hmem, hacts⟩ := process_actsFor_route h hndt hndk hrt hndc hr heq
    exact ⟨hmem _ (List.mem_singleton.mpr rfl), hacts⟩
  · intro hm
    constructor
    · intro ni ne hfi
      have heq := @processRoute_eq_replace spec vpc rt.id r _ _ _ _ _ _ ni ne hins hib hgi hsg hm hfi
      obtain ⟨hmem, hacts⟩ := process_actsFor_route h hndt hndk hrt hndc hr heq
      exact ⟨hacts, hmem _ (List.mem_singleton.mpr rfl)⟩
    · intro hfi
      have heq := @processRoute_eq_updateFailed spec vpc rt.id r _ _ _ _ _ _ hins hib hgi hsg hm hfi
      obtain ⟨hmem, hacts⟩ := process_actsFor_route h hndt hndk hrt hndc hr heq
      exact ⟨hmem _ (List.mem_singleton.mpr rfl), hacts⟩

/-- C1, witness: the amended claim applied to a concrete snapshot whose one
route already targets a candidate IP. -/
theorem C1_witness :
    (process_route_spec_config cxVpcKeep cxSpec [] =
      .ok ([Msg.routeExists "rt-1" "10.1.0.0/24" (some "10.0.0.1") "i-1" "eni-1"],
           [])) ∧
    (cxVpcKeep.route_tables.map RouteTable.id).Nodup ∧
    (cxSpec.map Prod.fst).Nodup ∧
    cxTableKeep ∈ cxVpcKeep.route_tables ∧
    (cxTableKeep.routes.map Route.destination_cidr_block).Nodup ∧
    cxRouteKeep ∈ cxTableKeep.routes ∧
    cxRouteKeep.instance_id = some "i-1" ∧
    instanceById cxVpcKeep "i-1" = some cxInst1 ∧
    get_instance_private_ip_from_route cxInst1 cxRouteKeep =
      .ok (some "10.0.0.1", cxEni1) ∧
    specGet cxSpec cxRouteKeep.destination_cidr_block =
      some ("10.0.0.1" :: ["10.0.0.2"]) ∧
    optMem (some "10.0.0.1") ("10.0.0.1" :: ["10.0.0.2"]) = true ∧
    (Msg.routeExists cxTableKeep.id cxRouteKeep.destination_cidr_block
        (some "10.0.0.1") cxInst1.id cxEni1.id ∈
      [Msg.routeExists "rt-1" "10.1.0.0/24" (some "10.0.0.1") "i-1" "eni-1"] ∧
     actsFor [] cxTableKeep.id cxRouteKeep.destination_cidr_block = []) := by
  have hpass : process_route_spec_config cxVpcKeep cxSpec [] =
      .ok ([Msg.routeExists "rt-1" "10.1.0.0/24" (some "10.0.0.1") "i-1" "eni-1"],
           []) := by decide
  have hndt : (cxVpcKeep.route_tables.map RouteTable.id).Nodup := by decide
  have hndk : (cxSpec.map Prod.fst).Nodup := by decide
  have hrt : cxTableKeep ∈ cxVpcKeep.route_tables := by decide
  have hndc : (cxTableKeep.routes.map Route.destination_cidr_block).Nodup := by
    decide
  have hr : cxRouteKeep ∈ cxTableKeep.routes := by decide
  have hins : cxRouteKeep.instance_id = some "i-1" := by decide
  have hib : instanceById cxVpcKeep "i-1" = some cxInst1 := by decide
  have hgi : get_instance_private_ip_from_route cxInst1 cxRouteKeep =
      .ok (some "10.0.0.1", cxEni1) := by decide
  have hsg : specGet cxSpec cxRouteKeep.destination_cidr_block =
      some ("10.0.0.1" :: ["10.0.0.2"]) := by decide
  have hm : optMem (some "10.0.0.1") ("10.0.0.1" :: ["10.0.0.2"]) = true := by
    decide
  exact ⟨hpass, hndt, hndk, hrt, hndc, hr, hins, hib, hgi, hsg, hm,
    (C1_theorem hpass hndt hndk hrt hndc hr hins hib hgi hsg).2.1 hm⟩

/-! ## Claim C4 -/

/-- C4.  For every successful reconciliation pass, every route spec and every
failed-IP set (the latter reaches the pass only through the unused `daemon`
argument), a route not attached to any tracked instance is never touched: no
createRoute, replaceRoute or deleteRoute issued by the pass addresses its
(table, CIDR) pair.  Well-formedness: distinct table ids, distinct CIDRs
within the table, distinct spec keys. -/
theorem C4_theorem {vpc : VpcInfo} {spec : RouteSpec} {daemon : List String}
    {msgs : List Msg} {acts : List Action}
    (h : process_route_spec_config vpc spec daemon = .ok (msgs, acts))
    (hndt : (vpc.route_tables.map RouteTable.id).Nodup)
    (hndk : (spec.map Prod.fst).Nodup)
    {rt : RouteTable} (hrt : rt ∈ vpc.route_tables)
    (hndc : (rt.routes.map Route.destination_cidr_block).Nodup)
    {r : Route} (hr : r ∈ rt.routes) (hnone : r.instance_id = none) :
    actsFor acts rt.id r.destination_cidr_block = [] := by
  have heq := @processRoute_eq_untracked spec vpc rt.id r hnone
  exact (process_actsFor_route h hndt hndk hrt hndc hr heq).2

/-- C4, witness: an untracked route whose CIDR is a spec key survives a pass
untouched. -/
theorem C4_witness :
    (process_route_spec_config cxVpcUn cxSpec ["10.0.0.1"] = .ok ([], [])) ∧
    (cxVpcUn.route_tables.map RouteTable.id).Nodup ∧
    (cxSpec.map Prod.fst).Nodup ∧
    cxTableUn ∈ cxVpcUn.route_tables ∧
    (cxTableUn.routes.map Route.destination_cidr_block).Nodup ∧
    cxRouteUn ∈ cxTableUn.routes ∧
    cxRouteUn.instance_id = none ∧
    actsFor [] cxTableUn.id cxRouteUn.destination_cidr_block = [] := by
  have hpass : process_route_spec_config cxVpcUn cxSpec ["10.0.0.1"] =
      .ok ([], []) := by decide
  have hndt : (cxVpcUn.route_tables.map RouteTable.id).Nodup := by decide
  have hndk : (cxSpec.map Prod.fst).Nodup := by decide
  have hrt : cxTableUn ∈ cxVpcUn.route_tables := by decide
  have hndc : (cxTableUn.routes.map Route.destination_cidr_block).Nodup := by
    decide
  have hr : cxRouteUn ∈ cxTableUn.routes := by decide
  have hnone : cxRouteUn.instance_id = none := by decide
  exact ⟨hpass, hndt, hndk, hrt, hndc, hr, hnone,
    C4_theorem hpass hndt hndk hrt hndc hr hnone⟩

/-! ## Claim C3 -/

/-- C3.  In every successful reconciliation pass over a route spec with
non-empty candidate lists: every existing route attached to a tracked
instance whose destination CIDR is not a spec key gets a deleteRoute in its
table; and conversely every deleteRoute the pass issues addresses a
non-spec CIDR carried by some tracked route of the named table — no route
whose CIDR is a spec key is ever deleted. -/
theorem C3_theorem {vpc : VpcInfo} {spec : RouteSpec} {daemon : List String}
    {msgs : List Msg} {acts : List Action}
    (h : process_route_spec_config vpc spec daemon = .ok (msgs, acts))
    (hne : ∀ p ∈ spec, p.2 ≠ ([] : List String)) :
    (∀ rt ∈ vpc.route_tables, ∀ r ∈ rt.routes, r.instance_id ≠ none →
       specGet spec r.destination_cidr_block = none →
       Action.deleteRoute rt.id r.destination_cidr_block ∈ acts) ∧
    (∀ t c, Action.deleteRoute t c ∈ acts →
       specGet spec c = none ∧
       ∃ rt ∈ vpc.route_tables, rt.id = t ∧
         ∃ r ∈ rt.routes, r.destination_cidr_block = c ∧
           r.instance_id ≠ none) := by
  obtain ⟨m1, a1, d, m2, a2, hT, hE, hout⟩ := process_ok_iff.mp h
  simp only [Prod.mk.injEq] at hout
  obtain ⟨rfl, rfl⟩ := hout
  constructor
  · intro rt hrt r hr htr hsg
    obtain ⟨mm, aa, seen, h1t⟩ := processTables_ok_of_mem hT hrt
    obtain ⟨mr, ar, h1⟩ := processRoutes_ok_of_mem h1t hr
    rcases processRoute_cases h1 with ⟨hnone2, -, -⟩ |
      ⟨iid, inst, ip, eni, hins2, hib, hgi, hbr⟩
    · exact absurd hnone2 htr
    · rcases hbr with ⟨h0, hs, hsg2, -⟩ | ⟨-, -, ha⟩
      · rw [hsg] at hsg2; cases hsg2
      · subst ha
        have hd : Action.deleteRoute rt.id r.destination_cidr_block ∈
            [Action.deleteRoute rt.id r.destination_cidr_block] :=
          List.mem_singleton.mpr rfl
        have hm1 := (processRoutes_mem h1t hr h1).2 _ hd
        have hm2 := (processTables_mem hT hrt h1t).2 _ hm1
        exact List.mem_append.mpr (Or.inl hm2)
  · intro t c hx
    rcases List.mem_append.mp hx with hx1 | hx2
    · obtain ⟨rt, hrt, r, hr, mr, ar, h1, hxx⟩ := processTables_acts_mem hT _ hx1
      rcases processRoute_cases h1 with ⟨-, -, rfl⟩ |
        ⟨iid, inst, ip, eni, hins2, hib, hgi, hbr⟩
      · cases hxx
      · rcases hbr with ⟨h0, hs, hsg2, hbr2⟩ | ⟨hsgd, -, ha⟩
        · rcases hbr2 with ⟨-, -, rfl⟩ | ⟨-, ⟨ni, ne, -, -, rfl⟩ | ⟨-, -, rfl⟩⟩
          · cases hxx
          · have := List.mem_singleton.mp hxx
            cases this
          · cases hxx
        · subst ha
          have hxe := List.mem_singleton.mp hxx
          have ht : t = rt.id := by cases hxe; rfl
          have hc : c = r.destination_cidr_block := by cases hxe; rfl
          subst ht; subst hc
          refine ⟨?_, rt, hrt, rfl, r, hr, rfl, by simp [hins2]⟩
          rcases hsgd with hsgd | hsgd
          · exact hsgd
          · exact absurd rfl (hne _ (specGet_mem hsgd))
    · obtain ⟨q, hq, p, hp, mc, ac, hcs, hxx⟩ := processSpecEntries_acts_mem hE _ hx2
      obtain ⟨-, -, i, e2, hxeq⟩ := createStep_acts_tags hcs _ hxx
      cases hxeq

/-- C3, witness: a tracked route whose CIDR left the spec is deleted. -/
theorem C3_witness :
    (process_route_spec_config cxVpcKeep [] [] =
      .ok ([Msg.routeDeleted "rt-1" "10.1.0.0/24" "i-1" "eni-1"],
           [Action.deleteRoute "rt-1" "10.1.0.0/24"])) ∧
    (∀ p ∈ ([] : RouteSpec), p.2 ≠ ([] : List String)) ∧
    ((∀ rt ∈ cxVpcKeep.route_tables, ∀ r ∈ rt.routes, r.instance_id ≠ none →
        specGet [] r.destination_cidr_block = none →
        Action.deleteRoute rt.id r.destination_cidr_block ∈
          [Action.deleteRoute "rt-1" "10.1.0.0/24"]) ∧
     (∀ t c, Action.deleteRoute t c ∈ [Action.deleteRoute "rt-1" "10.1.0.0/24"] →
        specGet [] c = none ∧
        ∃ rt ∈ cxVpcKeep.route_tables, rt.id = t ∧
          ∃ r ∈ rt.routes, r.destination_cidr_block = c ∧
            r.instance_id ≠ none)) := by
  have hpass : process_route_spec_config cxVpcKeep [] [] =
      .ok ([Msg.routeDeleted "rt-1" "10.1.0.0/24" "i-1" "eni-1"],
           [Action.deleteRoute "rt-1" "10.1.0.0/24"]) := by decide
  have hne : ∀ p ∈ ([] : RouteSpec), p.2 ≠ ([] : List String) := by decide
  exact ⟨hpass, hne, C3_theorem hpass hne⟩


/-! ## Claim C5: totality and per-CIDR failure isolation -/

theorem getIp_total {inst : Instance} {r : Route}
    (hint : inst.interfaces ≠ []) :
    ∃ ip eni, get_instance_private_ip_from_route inst r = .ok (ip, eni) := by
  unfold get_instance_private_ip_from_route
  cases hf : inst.interfaces.find? (fun e => e.id == r.interface_id) with
  | some e => exact ⟨some e.private_ip_address, e, rfl⟩
  | none =>
    cases hl : inst.interfaces.getLast? with
    | some e => exact ⟨none, e, rfl⟩
    | none => exact absurd (by simpa using hl) hint

/-- `processRoute` cannot abort when the snapshot resolves the route's
instance and that instance has at least one interface; a failing
`find_instance_and_emi_by_ip` is caught, not propagated. -/
theorem processRoute_total {spec : RouteSpec} {vpc : VpcInfo} {rtId : String}
    {r : Route}
    (hW : ∀ iid, r.instance_id = some iid →
      ∃ inst, instanceById vpc iid = some inst ∧ inst.interfaces ≠ []) :
    ∃ m a, processRoute spec vpc rtId r = .ok (m, a) := by
  cases hins : r.instance_id with
  | none => exact ⟨_, _, processRoute_eq_untracked hins⟩
  | some iid =>
    obtain ⟨inst, hib, hint⟩ := hW iid hins
    obtain ⟨ip, eni, hgi⟩ := @getIp_total inst r hint
    cases hsg : specGet spec r.destination_cidr_block with
    | none => exact ⟨_, _, processRoute_eq_delete hins hib hgi (Or.inl hsg)⟩
    | some hosts =>
      cases hosts with
      | nil => exact ⟨_, _, processRoute_eq_delete hins hib hgi (Or.inr hsg)⟩
      | cons h0 hs =>
        by_cases hm : optMem ip (h0 :: hs) = true
        · exact ⟨_, _, processRoute_eq_exists hins hib hgi hsg hm⟩
        · have hm2 : optMem ip (h0 :: hs) = false := by
            simpa using hm
          cases hfi : find_instance_and_emi_by_ip vpc h0 with
          | some p =>
            obtain ⟨ni, ne⟩ := p
            exact ⟨_, _, processRoute_eq_replace hins hib hgi hsg hm2 hfi⟩
          | none =>
            exact ⟨_, _, processRoute_eq_updateFailed hins hib hgi hsg hm2 hfi⟩

theorem processRoutes_total {spec : RouteSpec} {vpc : VpcInfo} {rtId : String}
    {rs : List Route}
    (hW : ∀ r ∈ rs, ∀ iid, r.instance_id = some iid →
      ∃ inst, instanceById vpc iid = some inst ∧ inst.interfaces ≠ []) :
    ∃ m a seen, processRoutes spec vpc rtId rs = .ok (m, a, seen) := by
  induction rs with
  | nil => exact ⟨[], [], [], rfl⟩
  | cons r rs ih =>
    obtain ⟨m1, a1, h1⟩ :=
      @processRoute_total spec vpc rtId r
        (fun iid hiid => hW r (List.mem_cons_self r rs) iid hiid)
    obtain ⟨ms, as2, seen, h2⟩ :=
      ih (fun r2 hr2 => hW r2 (List.mem_cons_of_mem r hr2))
    exact ⟨_, _, _, processRoutes_cons_ok.mpr ⟨m1, a1, ms, as2, seen, h1, h2, rfl⟩⟩

theorem processTables_total {spec : RouteSpec} {vpc : VpcInfo}
    {rts : List RouteTable} {d : List (String × List String)}
    (hW : ∀ rt ∈ rts, ∀ r ∈ rt.routes, ∀ iid, r.instance_id = some iid →
      ∃ inst, instanceById vpc iid = some inst ∧ inst.interfaces ≠ []) :
    ∃ m a d2, processTables spec vpc rts d = .ok (m, a, d2) := by
  induction rts generalizing d with
  | nil => exact ⟨[], [], d, rfl⟩
  | cons rt rts ih =>
    obtain ⟨m1, a1, seen, h1⟩ :=
      @processRoutes_total spec vpc rt.id rt.routes
        (fun r hr => hW rt (List.mem_cons_self rt rts) r hr)
    obtain ⟨ms, as2, d2, h2⟩ :=
      @ih (dictInsert d rt.id seen)
        (fun rt2 hrt2 => hW rt2 (List.mem_cons_of_mem rt hrt2))
    exact ⟨_, _, _, processTables_cons_ok.mpr ⟨m1, a1, seen, ms, as2, d2, h1, h2, rfl⟩⟩

theorem createStep_total {vpc : VpcInfo} {dcidr : String} {hosts : List String}
    {lastRtId rtId : String} {rd : List String} (hne : hosts ≠ []) :
    ∃ m a, createStep vpc dcidr hosts lastRtId rtId rd = .ok (m, a) := by
  by_cases hmem : rd.contains dcidr = true
  · exact ⟨_, _, createStep_eq_skip hmem⟩
  · have hmem2 : rd.contains dcidr = false := by simpa using hmem
    cases hosts with
    | nil => exact absurd rfl hne
    | cons h0 hs =>
      cases hfi : find_instance_and_emi_by_ip vpc h0 with
      | some p =>
        obtain ⟨inst, eni⟩ := p
        exact ⟨_, _, createStep_eq_create hmem2 hfi⟩
      | none => exact ⟨_, _, createStep_eq_fail hmem2 hfi⟩

theorem processSpecEntryTables_total {vpc : VpcInfo} {dcidr : String}
    {hosts : List String} {lastRtId : String}
    {d : List (String × List String)} (hne : hosts ≠ []) :
    ∃ m a, processSpecEntryTables vpc dcidr hosts lastRtId d = .ok (m, a) := by
  induction d with
  | nil => exact ⟨[], [], rfl⟩
  | cons p d ih =>
    obtain ⟨pa, pb⟩ := p
    obtain ⟨m1, a1, h1⟩ :=
      @createStep_total vpc dcidr hosts lastRtId pa pb hne
    obtain ⟨ms, as2, h2⟩ := ih
    exact ⟨_, _, processSpecEntryTables_cons_ok.mpr ⟨m1, a1, ms, as2, h1, h2, rfl⟩⟩

theorem processSpecEntries_total {vpc : VpcInfo} {lastRtId : String}
    {d : List (String × List String)} {spec : RouteSpec}
    (hne : ∀ p ∈ spec, p.2 ≠ ([] : List String)) :
    ∃ m a, processSpecEntries vpc lastRtId d spec = .ok (m, a) := by
  induction spec with
  | nil => exact ⟨[], [], rfl⟩
  | cons q spec ih =>
    obtain ⟨qa, qb⟩ := q
    obtain ⟨m1, a1, h1⟩ :=
      @processSpecEntryTables_total vpc qa qb lastRtId d
        (hne _ (List.mem_cons_self _ _))
    obtain ⟨ms, as2, h2⟩ := ih (fun p hp => hne p (List.mem_cons_of_mem _ hp))
    exact ⟨_, _, processSpecEntries_cons_ok.mpr ⟨m1, a1, ms, as2, h1, h2, rfl⟩⟩

/-- The whole pass cannot abort over a well-formed snapshot and a route spec
with non-empty candidate lists, whatever lookups fail. -/
theorem process_total {vpc : VpcInfo} {spec : RouteSpec} {daemon : List String}
    (hW : ∀ rt ∈ vpc.route_tables, ∀ r ∈ rt.routes, ∀ iid,
      r.instance_id = some iid →
      ∃ inst, instanceById vpc iid = some inst ∧ inst.interfaces ≠ [])
    (hne : ∀ p ∈ spec, p.2 ≠ ([] : List String)) :
    ∃ msgs acts, process_route_spec_config vpc spec daemon = .ok (msgs, acts) := by
  obtain ⟨m1, a1, d, h1⟩ := @processTables_total spec vpc vpc.route_tables [] hW
  obtain ⟨m2, a2, h2⟩ :=
    @processSpecEntries_total vpc (lastRtIdOf vpc) d spec hne
  exact ⟨_, _, process_ok_iff.mpr ⟨m1, a1, d, m2, a2, h1, h2, rfl⟩⟩

/-- C5.  Over a well-formed snapshot (every tracked route's instance exists
and has interfaces; non-empty candidate lists; distinct table ids), the pass
always returns normally — a chosen candidate IP with no owning instance is
caught per CIDR, not propagated.  Each such per-CIDR resolution failure is
recorded as a failure message (`updateFailed` in the first sweep, `addFailed`
in the create sweep), and independently every other route and spec entry is
still processed: routes already on a candidate are still reported, and
creates for other (table, CIDR) pairs are still issued. -/
theorem C5_theorem {vpc : VpcInfo} {spec : RouteSpec} {daemon : List String}
    (hW : ∀ rt ∈ vpc.route_tables, ∀ r ∈ rt.routes, ∀ iid,
      r.instance_id = some iid →
      ∃ inst, instanceById vpc iid = some inst ∧ inst.interfaces ≠ [])
    (hne : ∀ p ∈ spec, p.2 ≠ ([] : List String))
    (hndt : (vpc.route_tables.map RouteTable.id).Nodup) :
    ∃ msgs acts, process_route_spec_config vpc spec daemon = .ok (msgs, acts) ∧
    (∀ rt ∈ vpc.route_tables, ∀ r ∈ rt.routes,
      ∀ iid inst ip eni h0 hs,
      r.instance_id = some iid → instanceById vpc iid = some inst →
      get_instance_private_ip_from_route inst r = .ok (ip, eni) →
      specGet spec r.destination_cidr_block = some (h0 :: hs) →
      optMem ip (h0 :: hs) = false →
      find_instance_and_emi_by_ip vpc h0 = none →
      Msg.updateFailed rt.id r.destination_cidr_block h0 ∈ msgs) ∧
    (∀ dcidr h0 hs, (dcidr, h0 :: hs) ∈ spec → ∀ rt ∈ vpc.route_tables,
      dcidr ∉ rt.routes.map Route.destination_cidr_block →
      find_instance_and_emi_by_ip vpc h0 = none →
      Msg.addFailed (lastRtIdOf vpc) dcidr h0 ∈ msgs) ∧
    (∀ rt ∈ vpc.route_tables, ∀ r ∈ rt.routes,
      ∀ iid inst ip eni h0 hs,
      r.instance_id = some iid → instanceById vpc iid = some inst →
      get_instance_private_ip_from_route inst r = .ok (ip, eni) →
      specGet spec r.destination_cidr_block = some (h0 :: hs) →
      optMem ip (h0 :: hs) = true →
      Msg.routeExists rt.id r.destination_cidr_block ip inst.id eni.id ∈ msgs) ∧
    (∀ dcidr h0 hs, (dcidr, h0 :: hs) ∈ spec → ∀ rt ∈ vpc.route_tables,
      dcidr ∉ rt.routes.map Route.destination_cidr_block →
      ∀ ni ne, find_instance_and_emi_by_ip vpc h0 = some (ni, ne) →
      Action.createRoute rt.id dcidr ni.id ne.id ∈ acts) := by
  obtain ⟨msgs, acts, h⟩ := @process_total vpc spec daemon hW hne
  obtain ⟨M1, A1, M2, A2, hT, hE, hmsgs, hacts⟩ := process_acts_split h hndt
  refine ⟨msgs, acts, h, ?_, ?_, ?_, ?_⟩
  · intro rt hrt r hr iid inst ip eni h0 hs hins hib hgi hsg hm hfi
    have heq := @processRoute_eq_updateFailed spec vpc rt.id r _ _ _ _ _ _ hins hib hgi hsg hm hfi
    obtain ⟨mm, aa, seen, h1t⟩ := processTables_ok_of_mem hT hrt
    have hx := (processRoutes_mem h1t hr heq).1 _ (List.mem_singleton.mpr rfl)
    have hx2 := (processTables_mem hT hrt h1t).1 _ hx
    rw [hmsgs]
    exact List.mem_append.mpr (Or.inl hx2)
  · intro dcidr h0 hs hq rt hrt hno hfi
    have hcont : (rt.routes.map Route.destination_cidr_block).contains dcidr
        = false := by
      simpa using hno
    have heqf := @createStep_eq_fail vpc dcidr h0 hs (lastRtIdOf vpc) rt.id
      (rt.routes.map Route.destination_cidr_block) hcont hfi
    obtain ⟨mi, ai, hIT⟩ := processSpecEntries_ok_of_mem hE hq
    have hdictmem :
        (rt.id, rt.routes.map Route.destination_cidr_block) ∈ routeDictOf vpc :=
      List.mem_map_of_mem _ hrt
    have hx := (processSpecEntryTables_mem hIT hdictmem heqf).1 _
      (List.mem_singleton.mpr rfl)
    have hx2 := (processSpecEntries_mem hE hq hIT).1 _ hx
    rw [hmsgs]
    exact List.mem_append.mpr (Or.inr hx2)
  · intro rt hrt r hr iid inst ip eni h0 hs hins hib hgi hsg hm
    have heq := @processRoute_eq_exists spec vpc rt.id r _ _ _ _ _ _ hins hib hgi hsg hm
    obtain ⟨mm, aa, seen, h1t⟩ := processTables_ok_of_mem hT hrt
    have hx := (processRoutes_mem h1t hr heq).1 _ (List.mem_singleton.mpr rfl)
    have hx2 := (processTables_mem hT hrt h1t).1 _ hx
    rw [hmsgs]
    exact List.mem_append.mpr (Or.inl hx2)
  · intro dcidr h0 hs hq rt hrt hno ni ne hfi
    have hcont : (rt.routes.map Route.destination_cidr_block).contains dcidr
        = false := by
      simpa using hno
    have heq := @createStep_eq_create vpc dcidr h0 hs (lastRtIdOf vpc) rt.id
      (rt.routes.map Route.destination_cidr_block) ni ne hcont hfi
    obtain ⟨mi, ai, hIT⟩ := processSpecEntries_ok_of_mem hE hq
    have hdictmem :
        (rt.id, rt.routes.map Route.destination_cidr_block) ∈ routeDictOf vpc :=
      List.mem_map_of_mem _ hrt
    have hx := (processSpecEntryTables_mem hIT hdictmem heq).2 _
      (List.mem_singleton.mpr rfl)
    have hx2 := (processSpecEntries_mem hE hq hIT).2 _ hx
    rw [hacts]
    exact List.mem_append.mpr (Or.inr hx2)

/-- C5, witness: a spec whose only candidate 10.0.0.9 belongs to no instance;
the pass completes, records the per-CIDR failure, and nothing else. -/
theorem C5_witness :
    (∀ rt ∈ cxVpcKeep.route_tables, ∀ r ∈ rt.routes, ∀ iid,
      r.instance_id = some iid →
      ∃ inst, instanceById cxVpcKeep iid = some inst ∧ inst.interfaces ≠ []) ∧
    (∀ p ∈ [(("10.1.0.0/24" : String), ["10.0.0.9"])], p.2 ≠ ([] : List String)) ∧
    (cxVpcKeep.route_tables.map RouteTable.id).Nodup ∧
    (∃ msgs acts,
      process_route_spec_config cxVpcKeep [("10.1.0.0/24", ["10.0.0.9"])] [] =
        .ok (msgs, acts) ∧
      (∀ rt ∈ cxVpcKeep.route_tables, ∀ r ∈ rt.routes,
        ∀ iid inst ip eni h0 hs,
        r.instance_id = some iid → instanceById cxVpcKeep iid = some inst →
        get_instance_private_ip_from_route inst r = .ok (ip, eni) →
        specGet [("10.1.0.0/24", ["10.0.0.9"])] r.destination_cidr_block =
          some (h0 :: hs) →
        optMem ip (h0 :: hs) = false →
        find_instance_and_emi_by_ip cxVpcKeep h0 = none →
        Msg.updateFailed rt.id r.destination_cidr_block h0 ∈ msgs) ∧
      (∀ dcidr h0 hs, (dcidr, h0 :: hs) ∈ [(("10.1.0.0/24" : String), ["10.0.0.9"])] →
        ∀ rt ∈ cxVpcKeep.route_tables,
        dcidr ∉ rt.routes.map Route.destination_cidr_block →
        find_instance_and_emi_by_ip cxVpcKeep h0 = none →
        Msg.addFailed (lastRtIdOf cxVpcKeep) dcidr h0 ∈ msgs) ∧
      (∀ rt ∈ cxVpcKeep.route_tables, ∀ r ∈ rt.routes,
        ∀ iid inst ip eni h0 hs,
        r.instance_id = some iid → instanceById cxVpcKeep iid = some inst →
        get_instance_private_ip_from_route inst r = .ok (ip, eni) →
        specGet [("10.1.0.0/24", ["10.0.0.9"])] r.destination_cidr_block =
          some (h0 :: hs) →
        optMem ip (h0 :: hs) = true →
        Msg.routeExists rt.id r.destination_cidr_block ip inst.id eni.id ∈ msgs) ∧
      (∀ dcidr h0 hs, (dcidr, h0 :: hs) ∈ [(("10.1.0.0/24" : String), ["10.0.0.9"])] →
        ∀ rt ∈ cxVpcKeep.route_tables,
        dcidr ∉ rt.routes.map Route.destination_cidr_block →
        ∀ ni ne, find_instance_and_emi_by_ip cxVpcKeep h0 = some (ni, ne) →
        Action.createRoute rt.id dcidr ni.id ne.id ∈ acts)) := by
  have hW : ∀ rt ∈ cxVpcKeep.route_tables, ∀ r ∈ rt.routes, ∀ iid,
      r.instance_id = some iid →
      ∃ inst, instanceById cxVpcKeep iid = some inst ∧ inst.interfaces ≠ [] := by
    intro rt hrt r hr iid hiid
    have hrt2 : rt = cxTableKeep := List.mem_singleton.mp hrt
    subst hrt2
    have hr2 : r = cxRouteKeep := List.mem_singleton.mp hr
    subst hr2
    have hiid2 : "i-1" = iid := Option.some.inj hiid
    subst hiid2
    exact ⟨cxInst1, by decide, by decide⟩
  have hne : ∀ p ∈ [(("10.1.0.0/24" : String), ["10.0.0.9"])],
      p.2 ≠ ([] : List String) := by decide
  have hndt : (cxVpcKeep.route_tables.map RouteTable.id).Nodup := by decide
  exact ⟨hW, hne, hndt, C5_theorem hW hne hndt⟩


/-! ## The queue drain and the coordinator tick -/

theorem readLastAux_cons {α : Type} :
    ∀ (xs : List α) (x : α) (acc : Option α),
      readLastAux acc (x :: xs) = ((x :: xs).getLast?, []) := by
  intro xs
  induction xs with
  | nil => intro x acc; simp [readLastAux]
  | cons y ys ih =>
    intro x acc
    show readLastAux (some x) (y :: ys) = _
    rw [ih y (some x), List.getLast?_cons_cons]

/-- C7 core: draining returns the most recently enqueued message (`None` on
an empty queue) and leaves the queue empty. -/
theorem read_last_msg_from_queue_eq {α : Type} (q : List α) :
    read_last_msg_from_queue q = (q.getLast?, []) := by
  cases q with
  | nil => rfl
  | cons x xs => exact readLastAux_cons xs x none

/-- C7.  Draining a channel with `_read_last_msg_from_queue` returns the last
pending message and discards the earlier ones (`None`, non-blocking, when
none is pending); consequently, when three route-spec snapshots are pending
at a tick, the coordinator stores and reconciles against only the third. -/
theorem C7_theorem {α : Type} (q : List α) (s : CoordState)
    (qf qm : List (List String)) (s1 s2 s3 : RouteSpec) (h3 : s3 ≠ []) :
    read_last_msg_from_queue q = (q.getLast?, []) ∧
    (eventMonitorTick s qf [s1, s2, s3] qm).state.route_spec = s3 ∧
    (eventMonitorTick s qf [s1, s2, s3] qm).state.current_route_spec = s3 ∧
    (eventMonitorTick s qf [s1, s2, s3] qm).reconcile =
      some (s3, (qf.getLast?).getD []) := by
  refine ⟨read_last_msg_from_queue_eq q, ?_⟩
  obtain ⟨c3, s3', rfl⟩ : ∃ c3 s3', s3 = c3 :: s3' := by
    cases s3 with
    | nil => exact absurd rfl h3
    | cons c3 s3' => exact ⟨c3, s3', rfl⟩
  unfold eventMonitorTick
  rw [read_last_msg_from_queue_eq, read_last_msg_from_queue_eq]
  show _ ∧ _ ∧ _
  cases hqf : qf.getLast? with
  | none => simp [listTruthy]
  | some f =>
    cases f with
    | nil => simp [listTruthy]
    | cons f0 fs => simp [listTruthy]

/-- C6, counterexample.  The claim says an empty failed-IP snapshot (meaning
"all healthy") overwrites the stored set.  Here an empty snapshot is drained
from the failed-IP channel, yet the stored set keeps its old value
`["10.0.0.9"]`: `if failed_ips:` is false for the empty Python list. -/
theorem C6_counterexample :
    read_last_msg_from_queue [([] : List String)] = (some [], []) ∧
    (eventMonitorTick ⟨["10.0.0.9"], [], [], []⟩ [[]] [] []).state.failed_ips =
      ["10.0.0.9"] ∧
    (["10.0.0.9"] : List String) ≠ [] :=
  ⟨by decide, by decide, by decide⟩

/-- C6 (amended).  On a coordinator tick the stored FailedIPSet is
overwritten exactly when the drained snapshot is a non-empty list; an empty
snapshot (and an empty channel) leaves the stored set unchanged, because the
Python guard `if failed_ips:` is false for both `None` and `[]`. -/
theorem C6_theorem (s : CoordState) (qf : List (List String))
    (qs : List RouteSpec) (qm : List (List String)) :
    (eventMonitorTick s qf qs qm).state.failed_ips =
      (match qf.getLast? with
       | some (x :: xs) => x :: xs
       | _ => s.failed_ips) := by
  unfold eventMonitorTick
  rw [read_last_msg_from_queue_eq, read_last_msg_from_queue_eq]
  cases hqf : qf.getLast? with
  | none =>
    cases hqs : (qs.getLast? : Option RouteSpec) with
    | none => simp [listTruthy]
    | some sp =>
      cases sp with
      | nil => simp [listTruthy]
      | cons c cs => simp [listTruthy]
  | some f =>
    cases f with
    | nil =>
      cases hqs : (qs.getLast? : Option RouteSpec) with
      | none => simp [listTruthy]
      | some sp =>
        cases sp with
        | nil => simp [listTruthy]
        | cons c cs => simp [listTruthy]
    | cons f0 fs =>
      cases hqs : (qs.getLast? : Option RouteSpec) with
      | none => simp [listTruthy]
      | some sp =>
        cases sp with
        | nil => simp [listTruthy]
        | cons c cs => simp [listTruthy]

/-- C10.  A tick whose drained route-spec message is the empty mapping is
indistinguishable from a tick with no route-spec message at all: the full
tick result coincides, and with no failed-IP message either, the state, the
monitor channel and the reconcile decision are all untouched. -/
theorem C10_theorem (s : CoordState) (qf qm : List (List String))
    (qs : List RouteSpec) :
    eventMonitorTick s qf (qs ++ [[]]) qm = eventMonitorTick s qf [] qm ∧
    (eventMonitorTick s [] (qs ++ [[]]) qm).state = s ∧
    (eventMonitorTick s [] (qs ++ [[]]) qm).q_monitor_ips = qm ∧
    (eventMonitorTick s [] (qs ++ [[]]) qm).reconcile = none := by
  have hlast : (qs ++ [[]]).getLast? = some ([] : RouteSpec) :=
    List.getLast?_concat qs
  refine ⟨?_, ?_, ?_, ?_⟩ <;>
    simp [eventMonitorTick, read_last_msg_from_queue_eq, hlast, listTruthy]

/-- C7, witness. -/
theorem C7_witness :
    (cxSpec ≠ []) ∧
    (read_last_msg_from_queue [(1 : Nat), 2, 3] =
      (([(1 : Nat), 2, 3]).getLast?, []) ∧
     (eventMonitorTick ⟨[], [], [], []⟩ [["10.0.0.7"]]
        [[], [("10.2.0.0/16", ["10.0.0.3"])], cxSpec] []).state.route_spec =
       cxSpec ∧
     (eventMonitorTick ⟨[], [], [], []⟩ [["10.0.0.7"]]
        [[], [("10.2.0.0/16", ["10.0.0.3"])], cxSpec] []).state.current_route_spec =
       cxSpec ∧
     (eventMonitorTick ⟨[], [], [], []⟩ [["10.0.0.7"]]
        [[], [("10.2.0.0/16", ["10.0.0.3"])], cxSpec] []).reconcile =
       some (cxSpec, (([["10.0.0.7"]] : List (List String)).getLast?).getD [])) :=
  ⟨by decide,
   C7_theorem [(1 : Nat), 2, 3] ⟨[], [], [], []⟩ [["10.0.0.7"]] []
     [] [("10.2.0.0/16", ["10.0.0.3"])] cxSpec (by decide)⟩

/-! ## Claim C8: the AllIPs recomputation -/

theorem allIpsOf_sorted (spec : RouteSpec) : (allIpsOf spec).Sorted strLe :=
  List.sorted_insertionSort strLe _

theorem allIpsOf_nodup (spec : RouteSpec) : (allIpsOf spec).Nodup :=
  (List.perm_insertionSort strLe _).nodup_iff.mpr (List.nodup_dedup _)

theorem mem_allIpsOf {spec : RouteSpec} {ip : String} :
    ip ∈ allIpsOf spec ↔ ∃ p ∈ spec, ip ∈ p.2 := by
  unfold allIpsOf
  rw [(List.perm_insertionSort strLe _).mem_iff, List.mem_dedup,
    List.mem_flatMap]

/-- Sorted duplicate-free lists over the string order are determined by their
members. -/
theorem canonical_unique {l1 l2 : List String}
    (hs1 : l1.Sorted strLe) (hn1 : l1.Nodup)
    (hs2 : l2.Sorted strLe) (hn2 : l2.Nodup)
    (hmem : ∀ x, x ∈ l1 ↔ x ∈ l2) : l1 = l2 :=
  List.eq_of_perm_of_sorted ((List.perm_ext_iff_of_nodup hn1 hn2).mpr hmem)
    hs1 hs2

/-- C8.  On a tick that receives a (non-empty, per C10 semantics) route-spec
update: the coordinator recomputes AllIPs as the ascending, deduplicated
list of every IP appearing in any candidate list of the new spec and stores
it; it pushes that list on the health monitor's control channel exactly when
it differs from the previous AllIPs; and, the previous AllIPs being itself
sorted and duplicate-free, that list comparison coincides with set equality,
so two different specs referencing the same IP set cause no push. -/
theorem C8_theorem (s : CoordState) (qf qm : List (List String))
    (qs : List RouteSpec) (spec : RouteSpec)
    (hlast : qs.getLast? = some spec) (hne : spec ≠ [])
    (hsorted : s.all_ips.Sorted strLe) (hnodup : s.all_ips.Nodup) :
    (eventMonitorTick s qf qs qm).state.all_ips = allIpsOf spec ∧
    (allIpsOf spec).Sorted strLe ∧
    (allIpsOf spec).Nodup ∧
    (∀ ip, ip ∈ allIpsOf spec ↔ ∃ p ∈ spec, ip ∈ p.2) ∧
    ((eventMonitorTick s qf qs qm).q_monitor_ips =
      if allIpsOf spec = s.all_ips then qm else qm ++ [allIpsOf spec]) ∧
    (allIpsOf spec = s.all_ips ↔
      ∀ ip, (∃ p ∈ spec, ip ∈ p.2) ↔ ip ∈ s.all_ips) := by
  obtain ⟨c0, spec', rfl⟩ : ∃ c0 spec', spec = c0 :: spec' := by
    cases spec with
    | nil => exact absurd rfl hne
    | cons c0 spec' => exact ⟨c0, spec', rfl⟩
  have hiff : allIpsOf (c0 :: spec') = s.all_ips ↔
      ∀ ip, (∃ p ∈ c0 :: spec', ip ∈ p.2) ↔ ip ∈ s.all_ips := by
    constructor
    · intro heq ip
      rw [← mem_allIpsOf, heq]
    · intro hmem
      exact canonical_unique (allIpsOf_sorted _) (allIpsOf_nodup _)
        hsorted hnodup (fun x => (mem_allIpsOf).trans (hmem x))
  refine ⟨?_, allIpsOf_sorted _, allIpsOf_nodup _, fun ip => mem_allIpsOf,
    ?_, hiff⟩ <;>
  · unfold eventMonitorTick
    rw [read_last_msg_from_queue_eq, read_last_msg_from_queue_eq, hlast]
    by_cases heq : allIpsOf (c0 :: spec') = s.all_ips
    · cases hqf : qf.getLast? with
      | none =>
        simp [listTruthy, update_health_monitor_with_new_ips, heq]
      | some f =>
        cases f with
        | nil => simp [listTruthy, update_health_monitor_with_new_ips, heq]
        | cons f0 fs =>
          simp [listTruthy, update_health_monitor_with_new_ips, heq]
    · cases hqf : qf.getLast? with
      | none =>
        simp [listTruthy, update_health_monitor_with_new_ips, heq]
      | some f =>
        cases f with
        | nil => simp [listTruthy, update_health_monitor_with_new_ips, heq]
        | cons f0 fs =>
          simp [listTruthy, update_health_monitor_with_new_ips, heq]

/-- C8, witness: a first spec arriving over an empty AllIPs cache pushes the
sorted deduplicated IP list. -/
theorem C8_witness :
    ([cxSpec] : List RouteSpec).getLast? = some cxSpec ∧
    cxSpec ≠ [] ∧
    (([] : List String).Sorted strLe) ∧
    (([] : List String).Nodup) ∧
    ((eventMonitorTick ⟨[], [], [], []⟩ [] [cxSpec] []).state.all_ips =
      allIpsOf cxSpec ∧
     (allIpsOf cxSpec).Sorted strLe ∧
     (allIpsOf cxSpec).Nodup ∧
     (∀ ip, ip ∈ allIpsOf cxSpec ↔ ∃ p ∈ cxSpec, ip ∈ p.2) ∧
     ((eventMonitorTick ⟨[], [], [], []⟩ [] [cxSpec] []).q_monitor_ips =
       if allIpsOf cxSpec = ([] : List String) then ([] : List (List String))
       else [] ++ [allIpsOf cxSpec]) ∧
     (allIpsOf cxSpec = ([] : List String) ↔
       ∀ ip, (∃ p ∈ cxSpec, ip ∈ p.2) ↔ ip ∈ ([] : List String))) := by
  have h1 : ([cxSpec] : List RouteSpec).getLast? = some cxSpec := by decide
  have h2 : cxSpec ≠ [] := by decide
  have h3 : (([] : List String)).Sorted strLe := by decide
  have h4 : (([] : List String)).Nodup := by decide
  exact ⟨h1, h2, h3, h4, C8_theorem ⟨[], [], [], []⟩ [] [] [cxSpec] cxSpec h1 h2 h3 h4⟩


/-! ## Applying issued mutations, table by table -/

/-- Per-table form of one `applyAction`. -/
def applyTable (rt : RouteTable) : Action → RouteTable
  | .createRoute t c i e =>
    if rt.id = t then { rt with routes := rt.routes ++ [⟨c, some i, e⟩] } else rt
  | .replaceRoute t c i e =>
    if rt.id = t then
      { rt with routes := rt.routes.map (fun r =>
          if r.destination_cidr_block = c then ⟨c, some i, e⟩ else r) }
    else rt
  | .deleteRoute t c =>
    if rt.id = t then
      { rt with routes :=
          rt.routes.filter (fun r => r.destination_cidr_block ≠ c) }
    else rt

/-- The route a `createRoute` call adds. -/
def createdRoute : Action → Option Route
  | .createRoute _ c i e => some ⟨c, some i, e⟩
  | _ => none

theorem applyAction_route_tables (vpc : VpcInfo) (x : Action) :
    (applyAction vpc x).route_tables =
      vpc.route_tables.map (fun rt => applyTable rt x) := by
  cases x <;> rfl

theorem applyAction_instances (vpc : VpcInfo) (x : Action) :
    (applyAction vpc x).instances = vpc.instances := by
  cases x <;> rfl

theorem applyActions_instances (vpc : VpcInfo) (acts : List Action) :
    (applyActions vpc acts).instances = vpc.instances := by
  induction acts generalizing vpc with
  | nil => rfl
  | cons x acts ih =>
    show (applyActions (applyAction vpc x) acts).instances = _
    rw [ih (applyAction vpc x), applyAction_instances]

theorem applyActions_route_tables (vpc : VpcInfo) (acts : List Action) :
    (applyActions vpc acts).route_tables =
      vpc.route_tables.map (fun rt => acts.foldl applyTable rt) := by
  induction acts generalizing vpc with
  | nil => simp [applyActions]
  | cons x acts ih =>
    show (applyActions (applyAction vpc x) acts).route_tables = _
    rw [ih (applyAction vpc x), applyAction_route_tables, List.map_map]
    rfl

theorem applyTable_id (rt : RouteTable) (x : Action) :
    (applyTable rt x).id = rt.id := by
  cases x <;> simp only [applyTable] <;> split <;> rfl

theorem applyTable_alien {rt : RouteTable} {x : Action}
    (h : actTable x ≠ rt.id) : applyTable rt x = rt := by
  cases x <;> simp only [applyTable] <;>
    exact if_neg (fun hc => h (by rw [actTable, hc]))

theorem foldl_applyTable_id (rt : RouteTable) (acts : List Action) :
    (acts.foldl applyTable rt).id = rt.id := by
  induction acts generalizing rt with
  | nil => rfl
  | cons x acts ih =>
    show (acts.foldl applyTable (applyTable rt x)).id = rt.id
    rw [ih (applyTable rt x), applyTable_id]

theorem foldl_applyTable_alien {rt : RouteTable} {acts : List Action}
    (h : ∀ x ∈ acts, actTable x ≠ rt.id) : acts.foldl applyTable rt = rt := by
  induction acts with
  | nil => rfl
  | cons x acts ih =>
    show acts.foldl applyTable (applyTable rt x) = rt
    rw [applyTable_alien (h x (List.mem_cons_self x acts))]
    exact ih (fun y hy => h y (List.mem_cons_of_mem x hy))

/-- Applying a list of pure `createRoute` calls appends the matching routes
at the end of the table, in call order. -/
theorem foldl_applyTable_creates {acts : List Action}
    (h : ∀ x ∈ acts, ∃ t c i e, x = .createRoute t c i e) :
    ∀ rt : RouteTable,
      acts.foldl applyTable rt =
        { rt with routes := rt.routes ++
            ((acts.filter (fun x => actTable x == rt.id)).filterMap
              createdRoute) } := by
  induction acts with
  | nil => intro rt; simp
  | cons x acts ih =>
    intro rt
    obtain ⟨t, c, i, e, rfl⟩ := h x (List.mem_cons_self x acts)
    have htail := ih (fun y hy => h y (List.mem_cons_of_mem _ hy))
    show acts.foldl applyTable (applyTable rt (.createRoute t c i e)) = _
    by_cases hid : rt.id = t
    · have happ : applyTable rt (.createRoute t c i e) =
          { rt with routes := rt.routes ++ [⟨c, some i, e⟩] } := by
        show (if rt.id = t then
            { rt with routes := rt.routes ++ [⟨c, some i, e⟩] } else rt) = _
        rw [if_pos hid]
      rw [happ, htail]
      have hfil : (Action.createRoute t c i e ::
            acts).filter (fun x => actTable x == rt.id) =
          Action.createRoute t c i e ::
            acts.filter (fun x => actTable x == rt.id) := by
        rw [List.filter_cons_of_pos]
        simp [actTable, hid]
      rw [hfil]
      simp [createdRoute]
    · have happ : applyTable rt (.createRoute t c i e) = rt := by
        show (if rt.id = t then
            { rt with routes := rt.routes ++ [⟨c, some i, e⟩] } else rt) = _
        rw [if_neg hid]
      rw [happ, htail]
      have hfil : (Action.createRoute t c i e ::
            acts).filter (fun x => actTable x == rt.id) =
          acts.filter (fun x => actTable x == rt.id) := by
        rw [List.filter_cons_of_neg]
        simp [actTable]
        exact fun hc => hid hc.symm
      rw [hfil]


/-! ## Claim C2 -/

/-- The `createRoute` calls the second loop issues for one table, one per
spec entry whose CIDR is unobserved there and whose first candidate
resolves. -/
def createActsFor (vpc : VpcInfo) (t : String) (spec : RouteSpec) :
    List Action :=
  spec.filterMap (fun q => match q.2 with
    | [] => none
    | h0 :: _ => (find_instance_and_emi_by_ip vpc h0).map
        (fun pr => Action.createRoute t q.1 pr.1.id pr.2.id))

/-- The routes those calls add: one per spec entry, at the first candidate's
instance/interface. -/
def createdRoutesFor (vpc : VpcInfo) (spec : RouteSpec) : List Route :=
  spec.filterMap (fun q => match q.2 with
    | [] => none
    | h0 :: _ => (find_instance_and_emi_by_ip vpc h0).map
        (fun pr => ⟨q.1, some pr.1.id, pr.2.id⟩))

theorem createActsFor_routes (vpc : VpcInfo) (t : String) (spec : RouteSpec) :
    (createActsFor vpc t spec).filterMap createdRoute =
      createdRoutesFor vpc spec := by
  unfold createActsFor createdRoutesFor
  rw [List.filterMap_filterMap]
  congr 1
  funext q
  obtain ⟨qa, qb⟩ := q
  cases qb with
  | nil => rfl
  | cons h0 hs =>
    show ((find_instance_and_emi_by_ip vpc h0).map
        (fun pr => Action.createRoute t qa pr.1.id pr.2.id)).bind createdRoute =
      (find_instance_and_emi_by_ip vpc h0).map
        (fun pr => (⟨qa, some pr.1.id, pr.2.id⟩ : Route))
    cases find_instance_and_emi_by_ip vpc h0 <;> rfl

theorem createdRoutesFor_cidrs {vpc : VpcInfo} {spec : RouteSpec}
    (hres : ∀ q ∈ spec, ∃ h0 hs pr, q.2 = h0 :: hs ∧
      find_instance_and_emi_by_ip vpc h0 = some pr) :
    (createdRoutesFor vpc spec).map Route.destination_cidr_block =
      spec.map Prod.fst := by
  induction spec with
  | nil => rfl
  | cons q spec ih =>
    obtain ⟨qa, qb⟩ := q
    obtain ⟨h0, hs, pr, hqb, hfi⟩ := hres _ (List.mem_cons_self _ _)
    simp only at hqb
    subst hqb
    unfold createdRoutesFor
    rw [List.filterMap_cons]
    simp only [hfi, Option.map_some']
    rw [List.map_cons]
    have := ih (fun q2 hq2 => hres q2 (List.mem_cons_of_mem _ hq2))
    unfold createdRoutesFor at this
    rw [this]
    rfl

theorem createdRoutesFor_mem {vpc : VpcInfo} {spec : RouteSpec}
    {q : String × List String} (hq : q ∈ spec) {h0 : String} {hs : List String}
    (hh : q.2 = h0 :: hs) {pr : Instance × ENI}
    (hf : find_instance_and_emi_by_ip vpc h0 = some pr) :
    (⟨q.1, some pr.1.id, pr.2.id⟩ : Route) ∈ createdRoutesFor vpc spec := by
  apply List.mem_filterMap.mpr
  refine ⟨q, hq, ?_⟩
  rw [hh]
  simp [hf]

/-- Inside one spec entry's inner loop every action carries the entry's
CIDR, so filtering its actions by table alone is `actsFor`. -/
theorem processSpecEntryTables_filter_table {vpc : VpcInfo} {dcidr : String}
    {hosts : List String} {lastRtId : String}
    {d : List (String × List String)} {m : List Msg} {a : List Action}
    (h : processSpecEntryTables vpc dcidr hosts lastRtId d = .ok (m, a))
    (rtId : String) :
    a.filter (fun x => actTable x == rtId) = actsFor a rtId dcidr := by
  unfold actsFor
  apply List.filter_congr
  intro x hx
  have hc := processSpecEntryTables_acts_cidr h x hx
  simp [hc]

/-- Over a `route_dict` whose entry for `rtId` recorded no CIDRs, the second
loop's actions for that table are exactly one create per spec entry whose
first candidate resolves, in spec order. -/
theorem processSpecEntries_filter_table {vpc : VpcInfo} {lastRtId : String}
    {d : List (String × List String)} {spec : RouteSpec}
    {m : List Msg} {a : List Action} {rtId : String}
    (h : processSpecEntries vpc lastRtId d spec = .ok (m, a))
    (hnd : (d.map Prod.fst).Nodup)
    (hp : (rtId, ([] : List String)) ∈ d) :
    a.filter (fun x => actTable x == rtId) = createActsFor vpc rtId spec := by
  induction spec generalizing m a with
  | nil =>
    have h2 := processSpecEntries_nil_ok.mp h
    simp only [Prod.mk.injEq] at h2
    obtain ⟨-, rfl⟩ := h2
    rfl
  | cons q spec ih =>
    obtain ⟨qa, qb⟩ := q
    obtain ⟨m0, a0, ms, as2, h0, h2, hout⟩ := processSpecEntries_cons_ok.mp h
    simp only [Prod.mk.injEq] at hout
    obtain ⟨-, rfl⟩ := hout
    rw [List.filter_append, processSpecEntryTables_filter_table h0 rtId,
      ih h2]
    obtain ⟨mc, ac, hcs⟩ := processSpecEntryTables_ok_of_mem h0 hp
    rw [processSpecEntryTables_actsFor h0 hnd hp hcs qa]
    have hacs : actsFor ac rtId qa = ac := by
      apply actsFor_eq_self
      intro x hx
      obtain ⟨ht, hc, -⟩ := createStep_acts_tags hcs x hx
      exact ⟨ht, hc⟩
    rw [hacs]
    rcases createStep_cases hcs with ⟨hcont, -, -⟩ | ⟨-, h0c, hsc, hqb, hbr⟩
    · exact absurd hcont (by simp)
    · subst hqb
      unfold createActsFor
      rw [List.filterMap_cons]
      rcases hbr with ⟨inst, eni, hfi, -, rfl⟩ | ⟨hfi, -, rfl⟩
      · simp only [hfi, Option.map_some']
        rfl
      · simp only [hfi, Option.map_none']
        rfl

/-- C2, counterexample.  The claim says a createRoute for a CIDR absent from
a table targets the first candidate not in the failed-IP set (here
10.0.0.2).  At this input the first candidate 10.0.0.1 is failed, yet the
issued createRoute targets 10.0.0.1's instance i-1: the failed set is never
consulted. -/
theorem C2_counterexample :
    process_route_spec_config cxVpcEmpty cxSpec ["10.0.0.1"] =
      .ok ([Msg.routeAdded "rt-1" "10.1.0.0/24" "10.0.0.1" "i-1" "eni-1"],
           [Action.createRoute "rt-1" "10.1.0.0/24" "i-1" "eni-1"]) ∧
    specChosenCandidate ["10.0.0.1", "10.0.0.2"] ["10.0.0.1"] =
      some "10.0.0.2" ∧
    find_instance_and_emi_by_ip cxVpcEmpty "10.0.0.2" =
      some (cxInst2, cxEni2) ∧
    ("i-1" : String) ≠ "i-2" :=
  ⟨by decide, by decide, by decide, by decide⟩

/-- C2 (amended).  In every successful pass over a well-formed snapshot: the
pass ignores the failed-IP set (unused `daemon` slot); for every spec entry
whose CIDR was not observed in a route table during the first sweep and
whose first candidate resolves, the pass issues exactly one createRoute in
that table pointing at the first candidate's instance/interface; and
starting from empty route tables, applying the issued calls leaves every
table holding exactly the created routes — one per spec CIDR (when every
first candidate resolves), each at its first candidate's
instance/interface. -/
theorem C2_theorem {vpc : VpcInfo} {spec : RouteSpec} {daemon : List String}
    {msgs : List Msg} {acts : List Action}
    (h : process_route_spec_config vpc spec daemon = .ok (msgs, acts))
    (hndt : (vpc.route_tables.map RouteTable.id).Nodup)
    (hndk : (spec.map Prod.fst).Nodup) :
    (∀ d2, process_route_spec_config vpc spec d2 = .ok (msgs, acts)) ∧
    (∀ dcidr h0 hs, (dcidr, h0 :: hs) ∈ spec → ∀ rt ∈ vpc.route_tables,
      dcidr ∉ rt.routes.map Route.destination_cidr_block →
      ∀ ni ne, find_instance_and_emi_by_ip vpc h0 = some (ni, ne) →
      actsFor acts rt.id dcidr =
        [Action.createRoute rt.id dcidr ni.id ne.id]) ∧
    ((∀ rt ∈ vpc.route_tables, rt.routes = []) →
      (∀ rt2 ∈ (applyActions vpc acts).route_tables,
        rt2.routes = createdRoutesFor vpc spec) ∧
      ((∀ q ∈ spec, ∃ h0 hs pr, q.2 = h0 :: hs ∧
          find_instance_and_emi_by_ip vpc h0 = some pr) →
        (createdRoutesFor vpc spec).map Route.destination_cidr_block =
          spec.map Prod.fst) ∧
      (∀ q ∈ spec, ∀ h0 hs, q.2 = h0 :: hs → ∀ pr,
        find_instance_and_emi_by_ip vpc h0 = some pr →
        (⟨q.1, some pr.1.id, pr.2.id⟩ : Route) ∈ createdRoutesFor vpc spec)) := by
  refine ⟨fun d2 => h, ?_, ?_⟩
  · intro dcidr h0 hs hq rt hrt hno ni ne hfi
    have hcont : (rt.routes.map Route.destination_cidr_block).contains dcidr
        = false := by simpa using hno
    have heq := @createStep_eq_create vpc dcidr h0 hs (lastRtIdOf vpc) rt.id
      (rt.routes.map Route.destination_cidr_block) ni ne hcont hfi
    exact (process_actsFor_create h hndt hndk hq hrt hno heq).2
  · intro hempty
    obtain ⟨M1, A1, M2, A2, hT, hE, hmsgs, hacts⟩ := process_acts_split h hndt
    have hA1 : A1 = [] := by
      rw [List.eq_nil_iff_forall_not_mem]
      intro x hx
      obtain ⟨rt, hrt, r, hr, -, -, -, -⟩ := processTables_acts_mem hT x hx
      rw [hempty rt hrt] at hr
      cases hr
    subst hA1
    have hcreates : ∀ x ∈ A2, ∃ t c i e, x = .createRoute t c i e := by
      intro x hx
      obtain ⟨q, hq, p, hp, mc, ac, hcs, hxx⟩ :=
        processSpecEntries_acts_mem hE x hx
      obtain ⟨-, -, i, e, rfl⟩ := createStep_acts_tags hcs x hxx
      exact ⟨p.1, q.1, i, e, rfl⟩
    refine ⟨?_, fun hres => createdRoutesFor_cidrs hres,
      fun q hq h0 hs hh pr hf => createdRoutesFor_mem hq hh hf⟩
    intro rt2 hrt2
    rw [applyActions_route_tables] at hrt2
    obtain ⟨rt, hrt, rfl⟩ := List.mem_map.mp hrt2
    rw [hacts, List.nil_append]
    rw [foldl_applyTable_creates hcreates rt]
    have hdmem : (rt.id, ([] : List String)) ∈ routeDictOf vpc := by
      have h2 : (rt.id, rt.routes.map Route.destination_cidr_block) ∈
          routeDictOf vpc := List.mem_map_of_mem _ hrt
      rw [hempty rt hrt] at h2
      simpa using h2
    rw [processSpecEntries_filter_table hE
      (by rw [routeDictOf_keys]; exact hndt) hdmem]
    rw [createActsFor_routes, hempty rt hrt, List.nil_append]

/-- C2, witness: one empty table, two candidates, no failed IPs — one create
targeting the first candidate, and the applied snapshot holds exactly that
route. -/
theorem C2_witness :
    (process_route_spec_config cxVpcEmpty cxSpec [] =
      .ok ([Msg.routeAdded "rt-1" "10.1.0.0/24" "10.0.0.1" "i-1" "eni-1"],
           [Action.createRoute "rt-1" "10.1.0.0/24" "i-1" "eni-1"])) ∧
    (cxVpcEmpty.route_tables.map RouteTable.id).Nodup ∧
    (cxSpec.map Prod.fst).Nodup ∧
    (∀ rt ∈ cxVpcEmpty.route_tables, rt.routes = []) ∧
    (∀ rt2 ∈ (applyActions cxVpcEmpty
        [Action.createRoute "rt-1" "10.1.0.0/24" "i-1" "eni-1"]).route_tables,
      rt2.routes = createdRoutesFor cxVpcEmpty cxSpec) := by
  have hpass : process_route_spec_config cxVpcEmpty cxSpec [] =
      .ok ([Msg.routeAdded "rt-1" "10.1.0.0/24" "10.0.0.1" "i-1" "eni-1"],
           [Action.createRoute "rt-1" "10.1.0.0/24" "i-1" "eni-1"]) := by decide
  have hndt : (cxVpcEmpty.route_tables.map RouteTable.id).Nodup := by decide
  have hndk : (cxSpec.map Prod.fst).Nodup := by decide
  have hempty : ∀ rt ∈ cxVpcEmpty.route_tables, rt.routes = [] := by decide
  exact ⟨hpass, hndt, hndk, hempty,
    ((C2_theorem hpass hndt hndk).2.2 hempty).1⟩


/-! ## Claim C9: idempotence machinery -/

/-- Whether a report line is one of the two failure messages of the pass. -/
def isFailMsg : Msg → Bool
  | .updateFailed _ _ _ => true
  | .addFailed _ _ _ => true
  | _ => false

/-- A route the first loop leaves alone with a route-exists report: either
untracked, or its current target IP is among its CIDR's candidates. -/
def StableRoute (spec : RouteSpec) (vpc : VpcInfo) (r : Route) : Prop :=
  ∀ iid, r.instance_id = some iid →
    ∃ inst ip eni h0 hs,
      instanceById vpc iid = some inst ∧
      get_instance_private_ip_from_route inst r = .ok (some ip, eni) ∧
      specGet spec r.destination_cidr_block = some (h0 :: hs) ∧
      optMem (some ip) (h0 :: hs) = true

/-- A cloud snapshot on which a reconciliation pass issues no mutation:
every route is stable and every spec CIDR is present in every table. -/
def Stable (spec : RouteSpec) (vpc : VpcInfo) : Prop :=
  (∀ rt ∈ vpc.route_tables, ∀ r ∈ rt.routes, StableRoute spec vpc r) ∧
  (∀ q ∈ spec, ∀ rt ∈ vpc.route_tables,
    (rt.routes.map Route.destination_cidr_block).contains q.1 = true)

/-- The net effect of the first loop's mutation (if any) on the route it was
produced for: kept unchanged, repointed at the first candidate, or deleted. -/
def routeOutcome (spec : RouteSpec) (vpc : VpcInfo) (r : Route) : Option Route :=
  match r.instance_id with
  | none => some r
  | some iid =>
    match instanceById vpc iid with
    | none => some r
    | some inst =>
      match get_instance_private_ip_from_route inst r with
      | .error _ => some r
      | .ok (ipaddr, _) =>
        match specGet spec r.destination_cidr_block with
        | some (h0 :: hs) =>
          if optMem ipaddr (h0 :: hs) then some r
          else
            match find_instance_and_emi_by_ip vpc h0 with
            | some (ni, ne) =>
              some ⟨r.destination_cidr_block, some ni.id, ne.id⟩
            | none => some r
        | _ => none

/-- The `createRoute` calls the second loop issues for one table whose
first sweep observed the CIDRs `rd`. -/
def createActsForRd (vpc : VpcInfo) (t : String) (rd : List String)
    (spec : RouteSpec) : List Action :=
  spec.filterMap (fun q =>
    if rd.contains q.1 then none
    else
      match q.2 with
      | [] => none
      | h0 :: _ => (find_instance_and_emi_by_ip vpc h0).map
          (fun pr => Action.createRoute t q.1 pr.1.id pr.2.id))

/-- The routes those calls add. -/
def createdRoutesForRd (vpc : VpcInfo) (rd : List String)
    (spec : RouteSpec) : List Route :=
  spec.filterMap (fun q =>
    if rd.contains q.1 then none
    else
      match q.2 with
      | [] => none
      | h0 :: _ => (find_instance_and_emi_by_ip vpc h0).map
          (fun pr => (⟨q.1, some pr.1.id, pr.2.id⟩ : Route)))

theorem createActsForRd_routes (vpc : VpcInfo) (t : String) (rd : List String)
    (spec : RouteSpec) :
    (createActsForRd vpc t rd spec).filterMap createdRoute =
      createdRoutesForRd vpc rd spec := by
  unfold createActsForRd createdRoutesForRd
  rw [List.filterMap_filterMap]
  congr 1
  funext q
  obtain ⟨qa, qb⟩ := q
  show ((if rd.contains qa then none
      else match qb with
        | [] => none
        | h0 :: _ => (find_instance_and_emi_by_ip vpc h0).map
            (fun pr => Action.createRoute t qa pr.1.id pr.2.id)).bind
      createdRoute) =
    (if rd.contains qa then none
      else match qb with
        | [] => none
        | h0 :: _ => (find_instance_and_emi_by_ip vpc h0).map
            (fun pr => (⟨qa, some pr.1.id, pr.2.id⟩ : Route)))
  cases hrd : rd.contains qa with
  | true => rfl
  | false =>
    simp only [Bool.false_eq_true, if_false]
    cases qb with
    | nil => rfl
    | cons h0 hs =>
      show ((find_instance_and_emi_by_ip vpc h0).map
          (fun pr => Action.createRoute t qa pr.1.id pr.2.id)).bind
            createdRoute =
        (find_instance_and_emi_by_ip vpc h0).map
          (fun pr => (⟨qa, some pr.1.id, pr.2.id⟩ : Route))
      cases find_instance_and_emi_by_ip vpc h0 <;> rfl

theorem createActsForRd_shape {vpc : VpcInfo} {t : String} {rd : List String}
    {spec : RouteSpec} {x : Action} (hx : x ∈ createActsForRd vpc t rd spec) :
    ∃ c i e, x = Action.createRoute t c i e := by
  obtain ⟨q, hq, hfq⟩ := List.mem_filterMap.mp hx
  obtain ⟨qa, qb⟩ := q
  cases hrd : rd.contains qa with
  | true => simp only [hrd, if_true] at hfq; cases hfq
  | false =>
    simp only [hrd, Bool.false_eq_true, if_false] at hfq
    cases qb with
    | nil => cases hfq
    | cons h0 hs =>
      obtain ⟨pr, -, heq⟩ := Option.map_eq_some'.mp hfq
      exact ⟨qa, pr.1.id, pr.2.id, heq.symm⟩

theorem createdRoutesForRd_mem {vpc : VpcInfo} {rd : List String}
    {spec : RouteSpec} {q : String × List String} (hq : q ∈ spec)
    (hrd : rd.contains q.1 = false) {h0 : String} {hs : List String}
    (hh : q.2 = h0 :: hs) {pr : Instance × ENI}
    (hf : find_instance_and_emi_by_ip vpc h0 = some pr) :
    (⟨q.1, some pr.1.id, pr.2.id⟩ : Route) ∈ createdRoutesForRd vpc rd spec := by
  apply List.mem_filterMap.mpr
  refine ⟨q, hq, ?_⟩
  have hrd2 : q.1 ∉ rd := by simpa using hrd
  simp [hrd2, hh, hf]

theorem createdRoutesForRd_mem_cases {vpc : VpcInfo} {rd : List String}
    {spec : RouteSpec} {r2 : Route}
    (h : r2 ∈ createdRoutesForRd vpc rd spec) :
    ∃ q ∈ spec, ∃ h0 hs pr,
      rd.contains q.1 = false ∧ q.2 = h0 :: hs ∧
      find_instance_and_emi_by_ip vpc h0 = some pr ∧
      r2 = ⟨q.1, some pr.1.id, pr.2.id⟩ := by
  obtain ⟨q, hq, hfq⟩ := List.mem_filterMap.mp h
  refine ⟨q, hq, ?_⟩
  cases hrd : rd.contains q.1 with
  | true => simp only [hrd, if_true] at hfq; cases hfq
  | false =>
    simp only [hrd, Bool.false_eq_true, if_false] at hfq
    cases hqb : q.2 with
    | nil => rw [hqb] at hfq; cases hfq
    | cons h0 hs =>
      rw [hqb] at hfq
      obtain ⟨pr, hfind, heq⟩ := Option.map_eq_some'.mp hfq
      exact ⟨h0, hs, pr, rfl, rfl, hfind, heq.symm⟩

/-- `find_instance_and_emi_by_ip` returns a known instance, one of its own
interfaces, and that interface carries the looked-up IP. -/
theorem findInstEniAux_mem : ∀ {insts : List Instance} {ip : String}
    {pr : Instance × ENI}, findInstEniAux insts ip = some pr →
    pr.1 ∈ insts ∧ pr.2 ∈ pr.1.interfaces ∧ pr.2.private_ip_address = ip := by
  intro insts
  induction insts with
  | nil => intro ip pr h; cases h
  | cons inst rest ih =>
    intro ip pr h
    unfold findInstEniAux at h
    cases hf : inst.interfaces.find? (fun e => e.private_ip_address == ip) with
    | some e =>
      rw [hf] at h
      obtain rfl := (Option.some.inj h).symm
      refine ⟨List.mem_cons_self _ _, List.mem_of_find?_eq_some hf, ?_⟩
      have := List.find?_some hf
      exact eq_of_beq this
    | none =>
      rw [hf] at h
      obtain ⟨h1, h2, h3⟩ := ih h
      exact ⟨List.mem_cons_of_mem _ h1, h2, h3⟩

theorem findInstEni_mem {vpc : VpcInfo} {ip : String} {pr : Instance × ENI}
    (h : find_instance_and_emi_by_ip vpc ip = some pr) :
    pr.1 ∈ vpc.instances ∧ pr.2 ∈ pr.1.interfaces ∧
      pr.2.private_ip_address = ip :=
  findInstEniAux_mem h

/-- `find?` by a key that does not repeat in the list returns exactly the
member carrying it. -/
theorem find_by_key_of_mem_nodup {α : Type} (key : α → String) :
    ∀ {l : List α}, ((l.map key).Nodup) → ∀ {x : α}, x ∈ l →
      l.find? (fun y => key y == key x) = some x := by
  intro l
  induction l with
  | nil => intro _ x hx; cases hx
  | cons a l ih =>
    intro hnd x hx
    simp only [List.map_cons, List.nodup_cons] at hnd
    rcases List.mem_cons.mp hx with rfl | hx2
    · rw [List.find?_cons_of_pos]
      simp
    · have hne : (key a == key x) = false := by
        simp only [beq_eq_false_iff_ne, ne_eq]
        intro he
        apply hnd.1
        rw [he]
        exact List.mem_map_of_mem key hx2
      rw [List.find?_cons_of_neg]
      · exact ih hnd.2 hx2
      · simp [hne]

/-- With pairwise-distinct instance ids, `instance_by_id` maps a known
instance's id back to that instance. -/
theorem instanceById_of_mem_nodup {vpc : VpcInfo}
    (hnd : (vpc.instances.map Instance.id).Nodup) {inst : Instance}
    (hmem : inst ∈ vpc.instances) : instanceById vpc inst.id = some inst := by
  unfold instanceById
  apply find_by_key_of_mem_nodup Instance.id
  · rw [List.map_reverse]
    exact List.nodup_reverse.mpr hnd
  · exact List.mem_reverse.mpr hmem

/-- With pairwise-distinct interface ids, resolving a route that names one of
the instance's interfaces returns that interface's private IP. -/
theorem getIp_of_eni {ni : Instance} {ne : ENI} {r2 : Route}
    (hnd : (ni.interfaces.map ENI.id).Nodup) (hne : ne ∈ ni.interfaces)
    (hid : r2.interface_id = ne.id) :
    get_instance_private_ip_from_route ni r2 =
      .ok (some ne.private_ip_address, ne) := by
  unfold get_instance_private_ip_from_route
  rw [hid, find_by_key_of_mem_nodup ENI.id hnd hne]

theorem instanceById_eq_of_instances {vpc vpc2 : VpcInfo}
    (h : vpc2.instances = vpc.instances) (iid : String) :
    instanceById vpc2 iid = instanceById vpc iid := by
  unfold instanceById
  rw [h]

theorem findInstEni_eq_of_instances {vpc vpc2 : VpcInfo}
    (h : vpc2.instances = vpc.instances) (ip : String) :
    find_instance_and_emi_by_ip vpc2 ip = find_instance_and_emi_by_ip vpc ip := by
  unfold find_instance_and_emi_by_ip
  rw [h]

/-- Actions addressed to other tables are no-ops on this one, so a fold can
first discard them. -/
theorem foldl_applyTable_filter (rt : RouteTable) (A : List Action) :
    A.foldl applyTable rt =
      (A.filter (fun x => actTable x == rt.id)).foldl applyTable rt := by
  induction A generalizing rt with
  | nil => rfl
  | cons x A ih =>
    show A.foldl applyTable (applyTable rt x) = _
    by_cases hx : actTable x = rt.id
    · rw [List.filter_cons_of_pos (by simp [hx])]
      show _ = (A.filter (fun y => actTable y == rt.id)).foldl applyTable
        (applyTable rt x)
      have hi := ih (applyTable rt x)
      rw [applyTable_id] at hi
      exact hi
    · rw [List.filter_cons_of_neg (by simp [hx]), applyTable_alien hx]
      exact ih rt

theorem filterMap_of_filter {α β : Type} (p : α → Bool) (f : α → Option β)
    (l : List α) :
    (l.filter p).filterMap f = l.filterMap (fun x => if p x then f x else none) := by
  induction l with
  | nil => rfl
  | cons x l ih =>
    cases hp : p x <;>
      simp [List.filter_cons, hp, List.filterMap_cons, ih]

/-- Outcome-annotated inversion of a successful `processRoute`: the issued
mutation, its net effect on the route, and (on the no-mutation branches)
either a stability certificate or a failure report. -/
theorem routeOutcome_of_processRoute {spec : RouteSpec} {vpc : VpcInfo}
    {t : String} {r : Route} {m : List Msg} {a : List Action}
    (h : processRoute spec vpc t r = .ok (m, a)) :
    (a = [] ∧ routeOutcome spec vpc r = some r ∧
      (∀ x ∈ m, isFailMsg x = false) ∧
      (r.instance_id = none ∨
        ∃ iid inst ip eni h0 hs,
          r.instance_id = some iid ∧
          instanceById vpc iid = some inst ∧
          get_instance_private_ip_from_route inst r = .ok (some ip, eni) ∧
          specGet spec r.destination_cidr_block = some (h0 :: hs) ∧
          optMem (some ip) (h0 :: hs) = true)) ∨
    (a = [] ∧ routeOutcome spec vpc r = some r ∧
      ∃ x ∈ m, isFailMsg x = true) ∨
    (∃ ni ne h0 hs,
      a = [.replaceRoute t r.destination_cidr_block ni.id ne.id] ∧
      find_instance_and_emi_by_ip vpc h0 = some (ni, ne) ∧
      specGet spec r.destination_cidr_block = some (h0 :: hs) ∧
      routeOutcome spec vpc r =
        some ⟨r.destination_cidr_block, some ni.id, ne.id⟩) ∨
    (a = [.deleteRoute t r.destination_cidr_block] ∧
      (specGet spec r.destination_cidr_block = none ∨
        specGet spec r.destination_cidr_block = some []) ∧
      routeOutcome spec vpc r = none) := by
  rcases processRoute_cases h with ⟨hins, rfl, rfl⟩ |
    ⟨iid, inst, ip, eni, hins, hib, hgi, hbr⟩
  · refine Or.inl ⟨rfl, ?_, fun x hx => absurd hx (List.not_mem_nil x), Or.inl hins⟩
    unfold routeOutcome
    rw [hins]
  · rcases hbr with ⟨h0, hs, hsg, ⟨hm, rfl, rfl⟩ |
      ⟨hm, ⟨ni, ne, hfi, rfl, rfl⟩ | ⟨hfi, rfl, rfl⟩⟩⟩ | ⟨hsgf, rfl, rfl⟩
    · -- exists branch
      cases ip with
      | none => exact absurd hm (by simp [optMem])
      | some ip0 =>
        refine Or.inl ⟨rfl, ?_, ?_, Or.inr
          ⟨iid, inst, ip0, eni, h0, hs, hins, hib, hgi, hsg, hm⟩⟩
        · simp only [routeOutcome, hins, hib, hgi, hsg, hm, if_true]
        · intro x hx
          rcases List.mem_singleton.mp hx with rfl
          rfl
    · -- replace branch
      refine Or.inr (Or.inr (Or.inl ⟨ni, ne, h0, hs, rfl, hfi, hsg, ?_⟩))
      simp only [routeOutcome, hins, hib, hgi, hsg, hm, Bool.false_eq_true,
        if_false, hfi]
    · -- update-failed branch
      refine Or.inr (Or.inl ⟨rfl, ?_, ⟨_, List.mem_singleton_self _, rfl⟩⟩)
      simp only [routeOutcome, hins, hib, hgi, hsg, hm, Bool.false_eq_true,
        if_false, hfi]
    · -- delete branch
      refine Or.inr (Or.inr (Or.inr ⟨rfl, hsgf, ?_⟩))
      rcases hsgf with hsgf | hsgf <;>
        simp only [routeOutcome, hins, hib, hgi, hsgf]

/-- With pairwise-distinct table ids, the first-loop actions addressing
table `rt` are exactly the ones the sweep of `rt` produced, in order. -/
theorem processTables_filter_table {spec : RouteSpec} {vpc : VpcInfo}
    {rts : List RouteTable} {d : List (String × List String)}
    {m : List Msg} {a : List Action} {d2 : List (String × List String)}
    (h : processTables spec vpc rts d = .ok (m, a, d2))
    (hnd : (rts.map RouteTable.id).Nodup)
    {rt : RouteTable} (hrt : rt ∈ rts) {m1 : List Msg} {a1 : List Action}
    {seen : List String}
    (h1 : processRoutes spec vpc rt.id rt.routes = .ok (m1, a1, seen)) :
    a.filter (fun x => actTable x == rt.id) = a1 := by
  induction rts generalizing d m a d2 with
  | nil => cases hrt
  | cons rt0 rts ih =>
    obtain ⟨m0, a0, seen0, ms, as2, dd, h0, h2, hout⟩ := processTables_cons_ok.mp h
    simp only [Prod.mk.injEq] at hout
    obtain ⟨-, rfl, -⟩ := hout
    simp only [List.map_cons, List.nodup_cons] at hnd
    rw [List.filter_append]
    rcases List.mem_cons.mp hrt with rfl | hrt2
    · rw [h0] at h1
      have h1e := Except.ok.inj h1
      simp only [Prod.mk.injEq] at h1e
      obtain ⟨-, rfl, -⟩ := h1e
      have htail : as2.filter (fun x => actTable x == rt.id) = [] := by
        rw [List.filter_eq_nil_iff]
        intro x hx
        simp only [beq_eq_false_iff_ne, ne_eq, beq_iff_eq]
        intro ht
        obtain ⟨rt2, hrt2, r2, hr2, m2, a2, hh2, hxx⟩ :=
          processTables_acts_mem h2 x hx
        have ht2 := (processRoute_acts_tags hh2 x hxx).1
        apply hnd.1
        rw [← ht, ht2]
        exact List.mem_map_of_mem RouteTable.id hrt2
      have hhead : a0.filter (fun x => actTable x == rt.id) = a0 := by
        rw [List.filter_eq_self]
        intro x hx
        simp [processRoutes_acts_table h0 x hx]
      rw [htail, hhead, List.append_nil]
    · have hhead : a0.filter (fun x => actTable x == rt.id) = [] := by
        rw [List.filter_eq_nil_iff]
        intro x hx
        simp only [beq_eq_false_iff_ne, ne_eq, beq_iff_eq]
        intro ht
        have ht0 := processRoutes_acts_table h0 x hx
        apply hnd.1
        rw [← ht0, ht]
        exact List.mem_map_of_mem RouteTable.id hrt2
      rw [hhead, List.nil_append]
      exact ih h2 hnd.2 hrt2

/-- Over a `route_dict` with pairwise-distinct keys, the second loop's
actions addressing table `rtId` (whose sweep observed `rd`) are exactly one
create per spec entry whose CIDR was unobserved and whose first candidate
resolves, in spec order. -/
theorem processSpecEntries_filter_table_rd {vpc : VpcInfo} {lastRtId : String}
    {d : List (String × List String)} {spec : RouteSpec}
    {m : List Msg} {a : List Action} {rtId : String} {rd : List String}
    (h : processSpecEntries vpc lastRtId d spec = .ok (m, a))
    (hnd : (d.map Prod.fst).Nodup)
    (hp : (rtId, rd) ∈ d) :
    a.filter (fun x => actTable x == rtId) = createActsForRd vpc rtId rd spec := by
  induction spec generalizing m a with
  | nil =>
    have h2 := processSpecEntries_nil_ok.mp h
    simp only [Prod.mk.injEq] at h2
    obtain ⟨-, rfl⟩ := h2
    rfl
  | cons q spec ih =>
    obtain ⟨qa, qb⟩ := q
    obtain ⟨m0, a0, ms, as2, h0, h2, hout⟩ := processSpecEntries_cons_ok.mp h
    simp only [Prod.mk.injEq] at hout
    obtain ⟨-, rfl⟩ := hout
    rw [List.filter_append, processSpecEntryTables_filter_table h0 rtId, ih h2]
    obtain ⟨mc, ac, hcs⟩ := processSpecEntryTables_ok_of_mem h0 hp
    rw [processSpecEntryTables_actsFor h0 hnd hp hcs qa]
    have hacs : actsFor ac rtId qa = ac := by
      apply actsFor_eq_self
      intro x hx
      obtain ⟨ht, hc, -⟩ := createStep_acts_tags hcs x hx
      exact ⟨ht, hc⟩
    rw [hacs]
    rcases createStep_cases hcs with ⟨hcont, -, rfl⟩ | ⟨hcont, h0c, hsc, hqb, hbr⟩
    · unfold createActsForRd
      rw [List.filterMap_cons]
      simp only [hcont, if_true]
      rfl
    · subst hqb
      unfold createActsForRd
      rw [List.filterMap_cons]
      simp only [hcont, Bool.false_eq_true, if_false]
      rcases hbr with ⟨inst, eni, hfi, -, rfl⟩ | ⟨hfi, -, rfl⟩
      · simp only [hfi, Option.map_some']
        rfl
      · simp only [hfi, Option.map_none']
        rfl


theorem routes_mk (i : String) (X : List Route) :
    (RouteTable.mk i X).routes = X := rfl

/-- Net effect on a table of the mutations the first loop derived from a
route list with pairwise-distinct CIDRs, each identifying at most one route
of the table. -/
theorem foldl_loop1_effect {spec : RouteSpec} {vpc : VpcInfo} {t : String}
    {rs : List Route} {m : List Msg} {a : List Action} {seen : List String}
    (h : processRoutes spec vpc t rs = .ok (m, a, seen))
    {T : RouteTable} (hid : T.id = t)
    (hinj : ∀ r ∈ rs, ∀ r2 ∈ T.routes,
      r2.destination_cidr_block = r.destination_cidr_block → r2 = r)
    (hnd : (rs.map Route.destination_cidr_block).Nodup) :
    (a.foldl applyTable T).routes =
      T.routes.filterMap (fun r2 =>
        if r2.destination_cidr_block ∈ rs.map Route.destination_cidr_block
        then routeOutcome spec vpc r2 else some r2) := by
  induction rs generalizing m a seen T with
  | nil =>
    have h2 := processRoutes_nil_ok.mp h
    simp only [Prod.mk.injEq] at h2
    obtain ⟨-, rfl, -⟩ := h2
    simp
  | cons r rs0 ih =>
    obtain ⟨m1, a1, ms, as2, seen0, h1, h2, hout⟩ := processRoutes_cons_ok.mp h
    simp only [Prod.mk.injEq] at hout
    obtain ⟨-, rfl, -⟩ := hout
    simp only [List.map_cons, List.nodup_cons] at hnd
    rw [List.foldl_append]
    have hsplit : (a1 = [] ∧ routeOutcome spec vpc r = some r) ∨
        (∃ (ni : Instance) (ne : ENI),
          a1 = [.replaceRoute t r.destination_cidr_block ni.id ne.id] ∧
          routeOutcome spec vpc r =
            some ⟨r.destination_cidr_block, some ni.id, ne.id⟩) ∨
        (a1 = [.deleteRoute t r.destination_cidr_block] ∧
          routeOutcome spec vpc r = none) := by
      rcases routeOutcome_of_processRoute h1 with ⟨ha1, ho, -, -⟩ |
        ⟨ha1, ho, -⟩ | ⟨ni, ne, h0, hs, ha1, -, -, ho⟩ | ⟨ha1, -, ho⟩
      · exact Or.inl ⟨ha1, ho⟩
      · exact Or.inl ⟨ha1, ho⟩
      · exact Or.inr (Or.inl ⟨ni, ne, ha1, ho⟩)
      · exact Or.inr (Or.inr ⟨ha1, ho⟩)
    rcases hsplit with ⟨rfl, hout1⟩ | ⟨ni, ne, rfl, hout1⟩ | ⟨rfl, hout1⟩
    · -- no mutation for this route
      rw [List.foldl_nil,
        ih h2 hid
          (fun q hq r2 hr2 hcc => hinj q (List.mem_cons_of_mem _ hq) r2 hr2 hcc)
          hnd.2]
      apply List.filterMap_congr
      intro r2 hr2
      by_cases hc0 : r2.destination_cidr_block ∈
          rs0.map Route.destination_cidr_block
      · have hma : r2.destination_cidr_block ∈
            (r :: rs0).map Route.destination_cidr_block := by
          rw [List.map_cons]
          exact List.mem_cons_of_mem _ hc0
        rw [if_pos hc0, if_pos hma]
      · by_cases hcr : r2.destination_cidr_block = r.destination_cidr_block
        · have hr2r : r2 = r := hinj r (List.mem_cons_self _ _) r2 hr2 hcr
          have hma : r2.destination_cidr_block ∈
              (r :: rs0).map Route.destination_cidr_block := by
            rw [List.map_cons, hcr]
            exact List.mem_cons_self _ _
          rw [if_neg hc0, if_pos hma, hr2r, hout1]
        · have hma : r2.destination_cidr_block ∉
              (r :: rs0).map Route.destination_cidr_block := by
            rw [List.map_cons]
            intro hm
            rcases List.mem_cons.mp hm with hm | hm
            · exact hcr hm
            · exact hc0 hm
          rw [if_neg hc0, if_neg hma]
    · -- this route was replaced
      have happ : List.foldl applyTable T
          [Action.replaceRoute t r.destination_cidr_block ni.id ne.id] =
          { T with routes := T.routes.map (fun r2 =>
              if r2.destination_cidr_block = r.destination_cidr_block
              then ⟨r.destination_cidr_block, some ni.id, ne.id⟩ else r2) } := by
        show (if T.id = t then
            { T with routes := T.routes.map (fun r2 =>
                if r2.destination_cidr_block = r.destination_cidr_block
                then ⟨r.destination_cidr_block, some ni.id, ne.id⟩ else r2) }
          else T) = _
        rw [if_pos hid]
      rw [happ]
      have hinjT : ∀ q ∈ rs0,
          ∀ r2 ∈ ({ T with routes := T.routes.map (fun r2 =>
              if r2.destination_cidr_block = r.destination_cidr_block
              then ⟨r.destination_cidr_block, some ni.id, ne.id⟩
              else r2) } : RouteTable).routes,
          r2.destination_cidr_block = q.destination_cidr_block → r2 = q := by
        intro q hq r2x hr2x hcc
        obtain ⟨r2, hr2, rfl⟩ := List.mem_map.mp hr2x
        by_cases hc : r2.destination_cidr_block = r.destination_cidr_block
        · exfalso
          rw [if_pos hc] at hcc
          have hcc2 : r.destination_cidr_block = q.destination_cidr_block := hcc
          apply hnd.1
          rw [hcc2]
          exact List.mem_map_of_mem _ hq
        · rw [if_neg hc] at hcc ⊢
          exact hinj q (List.mem_cons_of_mem _ hq) r2 hr2 hcc
      have hidT : ({ T with routes := T.routes.map (fun r2 =>
          if r2.destination_cidr_block = r.destination_cidr_block
          then ⟨r.destination_cidr_block, some ni.id, ne.id⟩ else r2) } :
            RouteTable).id = t := hid
      rw [ih h2 hidT hinjT hnd.2, routes_mk, List.filterMap_map]
      apply List.filterMap_congr
      intro r2 hr2
      simp only [Function.comp_apply]
      by_cases hc : r2.destination_cidr_block = r.destination_cidr_block
      · have hr2r : r2 = r := hinj r (List.mem_cons_self _ _) r2 hr2 hc
        rw [if_pos hc]
        have hnc : ¬((⟨r.destination_cidr_block, some ni.id, ne.id⟩ :
            Route).destination_cidr_block ∈
              rs0.map Route.destination_cidr_block) := fun hm => hnd.1 hm
        rw [if_neg hnc]
        have hma : r2.destination_cidr_block ∈
            (r :: rs0).map Route.destination_cidr_block := by
          rw [List.map_cons, hc]
          exact List.mem_cons_self _ _
        rw [if_pos hma, hr2r, hout1]
      · rw [if_neg hc]
        by_cases hc0 : r2.destination_cidr_block ∈
            rs0.map Route.destination_cidr_block
        · have hma : r2.destination_cidr_block ∈
              (r :: rs0).map Route.destination_cidr_block := by
            rw [List.map_cons]
            exact List.mem_cons_of_mem _ hc0
          rw [if_pos hc0, if_pos hma]
        · have hma : r2.destination_cidr_block ∉
              (r :: rs0).map Route.destination_cidr_block := by
            rw [List.map_cons]
            intro hm
            rcases List.mem_cons.mp hm with hm | hm
            · exact hc hm
            · exact hc0 hm
          rw [if_neg hc0, if_neg hma]
    · -- this route was deleted
      have happ : List.foldl applyTable T
          [Action.deleteRoute t r.destination_cidr_block] =
          { T with routes := T.routes.filter (fun r2 =>
              r2.destination_cidr_block ≠ r.destination_cidr_block) } := by
        show (if T.id = t then
            { T with routes := T.routes.filter (fun r2 =>
                r2.destination_cidr_block ≠ r.destination_cidr_block) }
          else T) = _
        rw [if_pos hid]
      rw [happ]
      have hinjT : ∀ q ∈ rs0,
          ∀ r2 ∈ ({ T with routes := T.routes.filter (fun r2 =>
              r2.destination_cidr_block ≠ r.destination_cidr_block) } :
                RouteTable).routes,
          r2.destination_cidr_block = q.destination_cidr_block → r2 = q := by
        intro q hq r2 hr2 hcc
        exact hinj q (List.mem_cons_of_mem _ hq) r2
          (List.mem_of_mem_filter hr2) hcc
      have hidT : ({ T with routes := T.routes.filter (fun r2 =>
          r2.destination_cidr_block ≠ r.destination_cidr_block) } :
            RouteTable).id = t := hid
      rw [ih h2 hidT hinjT hnd.2, routes_mk, filterMap_of_filter]
      apply List.filterMap_congr
      intro r2 hr2
      by_cases hc : r2.destination_cidr_block = r.destination_cidr_block
      · have hr2r : r2 = r := hinj r (List.mem_cons_self _ _) r2 hr2 hc
        have hp : (decide (r2.destination_cidr_block ≠
            r.destination_cidr_block)) = false := by simp [hc]
        simp only [hp, Bool.false_eq_true, if_false]
        have hma : r2.destination_cidr_block ∈
            (r :: rs0).map Route.destination_cidr_block := by
          rw [List.map_cons, hc]
          exact List.mem_cons_self _ _
        rw [if_pos hma, hr2r, hout1]
      · have hp : (decide (r2.destination_cidr_block ≠
            r.destination_cidr_block)) = true := by simp [hc]
        simp only [hp, if_true]
        by_cases hc0 : r2.destination_cidr_block ∈
            rs0.map Route.destination_cidr_block
        · have hma : r2.destination_cidr_block ∈
              (r :: rs0).map Route.destination_cidr_block := by
            rw [List.map_cons]
            exact List.mem_cons_of_mem _ hc0
          rw [if_pos hc0, if_pos hma]
        · have hma : r2.destination_cidr_block ∉
              (r :: rs0).map Route.destination_cidr_block := by
            rw [List.map_cons]
            intro hm
            rcases List.mem_cons.mp hm with hm | hm
            · exact hc hm
            · exact hc0 hm
          rw [if_neg hc0, if_neg hma]

/-- A table of the snapshot after applying the pass's calls: loop-1 outcomes
of its own routes, then its created routes, in order. -/
theorem tableAfter_routes {vpc : VpcInfo} {spec : RouteSpec}
    {daemon : List String} {msgs : List Msg} {acts : List Action}
    (h : process_route_spec_config vpc spec daemon = .ok (msgs, acts))
    (hndt : (vpc.route_tables.map RouteTable.id).Nodup)
    (hndc : ∀ rt ∈ vpc.route_tables,
      (rt.routes.map Route.destination_cidr_block).Nodup)
    {rt : RouteTable} (hrt : rt ∈ vpc.route_tables) :
    (acts.foldl applyTable rt).routes =
      rt.routes.filterMap (routeOutcome spec vpc) ++
        createdRoutesForRd vpc
          (rt.routes.map Route.destination_cidr_block) spec := by
  obtain ⟨M1, A1, M2, A2, hT, hE, -, hacts⟩ := process_acts_split h hndt
  subst hacts
  obtain ⟨m1, a1, seen, h1⟩ := processTables_ok_of_mem hT hrt
  have hdmem : (rt.id, rt.routes.map Route.destination_cidr_block) ∈
      routeDictOf vpc := List.mem_map_of_mem _ hrt
  rw [foldl_applyTable_filter, List.filter_append,
    processTables_filter_table hT hndt hrt h1,
    processSpecEntries_filter_table_rd hE
      (by rw [routeDictOf_keys]; exact hndt) hdmem,
    List.foldl_append]
  have hcr : ∀ x ∈ createActsForRd vpc rt.id
      (rt.routes.map Route.destination_cidr_block) spec,
      ∃ t c i e, x = Action.createRoute t c i e := by
    intro x hx
    obtain ⟨c, i, e, rfl⟩ := createActsForRd_shape hx
    exact ⟨rt.id, c, i, e, rfl⟩
  rw [foldl_applyTable_creates hcr, routes_mk, foldl_applyTable_id]
  have hfs : (createActsForRd vpc rt.id
        (rt.routes.map Route.destination_cidr_block) spec).filter
      (fun x => actTable x == rt.id) =
      createActsForRd vpc rt.id
        (rt.routes.map Route.destination_cidr_block) spec := by
    rw [List.filter_eq_self]
    intro x hx
    obtain ⟨c, i, e, rfl⟩ := createActsForRd_shape hx
    simp [actTable]
  rw [hfs, createActsForRd_routes,
    foldl_loop1_effect h1 rfl
      (fun q hq r2 hr2 hcc =>
        List.inj_on_of_nodup_map (hndc rt hrt) hr2 hq hcc)
      (hndc rt hrt)]
  congr 1
  apply List.filterMap_congr
  intro r2 hr2
  rw [if_pos (List.mem_map_of_mem _ hr2)]

/-- Applying the pass's calls does not change the table ids. -/
theorem applyActions_table_ids (vpc : VpcInfo) (acts : List Action) :
    (applyActions vpc acts).route_tables.map RouteTable.id =
      vpc.route_tables.map RouteTable.id := by
  rw [applyActions_route_tables, List.map_map]
  apply List.map_congr_left
  intro rt hrt
  simp only [Function.comp_apply]
  exact foldl_applyTable_id rt acts

/-- After a successful, failure-free pass over a well-formed snapshot, the
updated snapshot is stable: every surviving or created route is already
correct, and every spec CIDR is present in every table. -/
theorem stable_after_pass {vpc : VpcInfo} {spec : RouteSpec}
    {daemon : List String} {msgs : List Msg} {acts : List Action}
    (h : process_route_spec_config vpc spec daemon = .ok (msgs, acts))
    (hndt : (vpc.route_tables.map RouteTable.id).Nodup)
    (hndc : ∀ rt ∈ vpc.route_tables,
      (rt.routes.map Route.destination_cidr_block).Nodup)
    (hndk : (spec.map Prod.fst).Nodup)
    (hnv : ∀ q ∈ spec, q.2 ≠ [])
    (hndi : (vpc.instances.map Instance.id).Nodup)
    (hnde : ∀ inst ∈ vpc.instances, (inst.interfaces.map ENI.id).Nodup)
    (hnf : ∀ x ∈ msgs, isFailMsg x = false) :
    Stable spec (applyActions vpc acts) := by
  obtain ⟨M1, A1, M2, A2, hT, hE, hmsgs, -⟩ := process_acts_split h hndt
  have hinst : (applyActions vpc acts).instances = vpc.instances :=
    applyActions_instances vpc acts
  constructor
  · intro rt2 hrt2 r2 hr2
    rw [applyActions_route_tables] at hrt2
    obtain ⟨rt, hrt, rfl⟩ := List.mem_map.mp hrt2
    rw [tableAfter_routes h hndt hndc hrt] at hr2
    rcases List.mem_append.mp hr2 with hmid | hcrt
    · obtain ⟨r, hr, hout⟩ := List.mem_filterMap.mp hmid
      obtain ⟨m1t, a1t, seent, h1⟩ := processTables_ok_of_mem hT hrt
      obtain ⟨m1, a1, hpr⟩ := processRoutes_ok_of_mem h1 hr
      rcases routeOutcome_of_processRoute hpr with
        ⟨-, ho, -, hdet⟩ | ⟨-, ho, x, hxm, hxf⟩ |
        ⟨ni, ne, h0, hs, -, hfi, hsg, ho⟩ | ⟨-, -, ho⟩
      · rw [ho] at hout
        obtain rfl := Option.some.inj hout
        intro iid hiid
        rcases hdet with hun | ⟨iid2, inst, ip, eni, h0, hs, hins, hib, hgi,
          hsg, hm⟩
        · rw [hun] at hiid
          cases hiid
        · rw [hins] at hiid
          obtain rfl := Option.some.inj hiid
          refine ⟨inst, ip, eni, h0, hs, ?_, hgi, hsg, hm⟩
          rw [instanceById_eq_of_instances hinst]
          exact hib
      · exfalso
        have hx1 := (processRoutes_mem h1 hr hpr).1 x hxm
        have hx2 := (processTables_mem hT hrt h1).1 x hx1
        have hx3 : x ∈ msgs := by
          rw [hmsgs]
          exact List.mem_append.mpr (Or.inl hx2)
        rw [hnf x hx3] at hxf
        cases hxf
      · rw [ho] at hout
        obtain rfl := Option.some.inj hout
        obtain ⟨hnim, hnem, hneip⟩ := findInstEni_mem hfi
        intro iid hiid
        have hiid2 : some ni.id = some iid := hiid
        obtain rfl := Option.some.inj hiid2
        refine ⟨ni, ne.private_ip_address, ne, h0, hs, ?_, ?_, hsg, ?_⟩
        · rw [instanceById_eq_of_instances hinst]
          exact instanceById_of_mem_nodup hndi hnim
        · exact getIp_of_eni (hnde ni hnim) hnem rfl
        · have hneip2 : ne.private_ip_address = h0 := hneip
          show (h0 :: hs).contains ne.private_ip_address = true
          rw [hneip2]
          simp
      · rw [ho] at hout
        cases hout
    · obtain ⟨q, hq, h0, hs, pr, hrdf, hqb, hfind, rfl⟩ :=
        createdRoutesForRd_mem_cases hcrt
      obtain ⟨hnim, hnem, hneip⟩ := findInstEni_mem hfind
      intro iid hiid
      have hiid2 : some pr.1.id = some iid := hiid
      obtain rfl := Option.some.inj hiid2
      have hsg : specGet spec q.1 = some (h0 :: hs) := by
        rw [← hqb]
        apply specGet_eq_of_mem_nodup hndk
        rw [Prod.mk.eta]
        exact hq
      refine ⟨pr.1, pr.2.private_ip_address, pr.2, h0, hs, ?_, ?_, hsg, ?_⟩
      · rw [instanceById_eq_of_instances hinst]
        exact instanceById_of_mem_nodup hndi hnim
      · exact getIp_of_eni (hnde pr.1 hnim) hnem rfl
      · show (h0 :: hs).contains pr.2.private_ip_address = true
        rw [hneip]
        simp
  · intro q hq rt2 hrt2
    rw [applyActions_route_tables] at hrt2
    obtain ⟨rt, hrt, rfl⟩ := List.mem_map.mp hrt2
    have hsgq : specGet spec q.1 = some q.2 := by
      apply specGet_eq_of_mem_nodup hndk
      rw [Prod.mk.eta]
      exact hq
    have hmem : q.1 ∈ (acts.foldl applyTable rt).routes.map
        Route.destination_cidr_block := by
      rw [tableAfter_routes h hndt hndc hrt, List.map_append]
      cases hrd : (rt.routes.map Route.destination_cidr_block).contains q.1 with
      | true =>
        have hq1 : q.1 ∈ rt.routes.map Route.destination_cidr_block := by
          simpa using hrd
        obtain ⟨r, hr, hrc⟩ := List.mem_map.mp hq1
        obtain ⟨m1t, a1t, seent, h1⟩ := processTables_ok_of_mem hT hrt
        obtain ⟨m1, a1, hpr⟩ := processRoutes_ok_of_mem h1 hr
        apply List.mem_append.mpr
        left
        rcases routeOutcome_of_processRoute hpr with
          ⟨-, ho, -, -⟩ | ⟨-, ho, -⟩ |
          ⟨ni, ne, h0, hs, -, -, -, ho⟩ | ⟨-, hsgf, -⟩
        · rw [← hrc]
          exact List.mem_map_of_mem _ (List.mem_filterMap.mpr ⟨r, hr, ho⟩)
        · rw [← hrc]
          exact List.mem_map_of_mem _ (List.mem_filterMap.mpr ⟨r, hr, ho⟩)
        · rw [← hrc]
          have hmm : (⟨r.destination_cidr_block, some ni.id, ne.id⟩ : Route) ∈
              rt.routes.filterMap (routeOutcome spec vpc) :=
            List.mem_filterMap.mpr ⟨r, hr, ho⟩
          have hmm2 := List.mem_map_of_mem Route.destination_cidr_block hmm
          exact hmm2
        · exfalso
          rw [hrc] at hsgf
          rcases hsgf with hsgf | hsgf
          · rw [hsgq] at hsgf
            cases hsgf
          · rw [hsgq] at hsgf
            exact hnv q hq (Option.some.inj hsgf)
      | false =>
        obtain ⟨mi, ai, hIT⟩ := processSpecEntries_ok_of_mem hE hq
        have hdmem : (rt.id, rt.routes.map Route.destination_cidr_block) ∈
            routeDictOf vpc := List.mem_map_of_mem _ hrt
        obtain ⟨mc, ac, hcs⟩ := processSpecEntryTables_ok_of_mem hIT hdmem
        rcases createStep_cases hcs with ⟨hcont, -, -⟩ |
          ⟨hcont, h0, hs, hqb, hbr⟩
        · rw [hcont] at hrd
          cases hrd
        · rcases hbr with ⟨inst, eni, hfi, -, -⟩ | ⟨hfi, rfl, -⟩
          · have hmem2 := createdRoutesForRd_mem hq hrd hqb hfi
            apply List.mem_append.mpr
            right
            exact List.mem_map_of_mem Route.destination_cidr_block hmem2
          · exfalso
            have hx1 := (processSpecEntryTables_mem hIT hdmem hcs).1 _
              (List.mem_singleton_self _)
            have hx2 := (processSpecEntries_mem hE hq hIT).1 _ hx1
            have hx3 : Msg.addFailed (lastRtIdOf vpc) q.1 h0 ∈ msgs := by
              rw [hmsgs]
              exact List.mem_append.mpr (Or.inr hx2)
            have hff := hnf _ hx3
            simp [isFailMsg] at hff
    simpa using hmem


/-- On a stable route the first loop either skips (untracked) or reports
route-exists, with no mutation. -/
theorem stableRoute_processRoute {spec : RouteSpec} {vpc : VpcInfo}
    (t : String) {r : Route} (hst : StableRoute spec vpc r) :
    (r.instance_id = none ∧ processRoute spec vpc t r = .ok ([], [])) ∨
    (∃ (inst : Instance) (ip : String) (eni : ENI),
      processRoute spec vpc t r =
        .ok ([.routeExists t r.destination_cidr_block (some ip) inst.id eni.id],
             [])) := by
  cases hins : r.instance_id with
  | none => exact Or.inl ⟨rfl, processRoute_eq_untracked hins⟩
  | some iid =>
    obtain ⟨inst, ip, eni, h0, hs, hib, hgi, hsg, hm⟩ := hst iid hins
    exact Or.inr ⟨inst, ip, eni,
      @processRoute_eq_exists spec vpc t r iid inst (some ip) eni h0 hs
        hins hib hgi hsg hm⟩

/-- The first loop over a table of stable routes: only route-exists reports,
no mutation, and every tracked route is reported. -/
theorem stable_processRoutes {spec : RouteSpec} {vpc : VpcInfo} (t : String)
    (rs : List Route) (hst : ∀ r ∈ rs, StableRoute spec vpc r) :
    ∃ ms, processRoutes spec vpc t rs =
        .ok (ms, [], rs.map Route.destination_cidr_block) ∧
      (∀ x ∈ ms, ∃ c ip i e, x = Msg.routeExists t c ip i e) ∧
      (∀ r ∈ rs, ∀ iid, r.instance_id = some iid →
        ∃ (inst : Instance) (ip : String) (eni : ENI),
          Msg.routeExists t r.destination_cidr_block (some ip) inst.id eni.id
            ∈ ms) := by
  induction rs with
  | nil =>
    refine ⟨[], rfl, ?_, ?_⟩
    · intro x hx
      cases hx
    · intro r hr
      cases hr
  | cons r rs0 ih =>
    obtain ⟨ms, hrec, hchar, hmem⟩ :=
      ih (fun r2 h2 => hst r2 (List.mem_cons_of_mem _ h2))
    rcases stableRoute_processRoute t (hst r (List.mem_cons_self _ _)) with
      ⟨hins, hpr⟩ | ⟨inst, ip, eni, hpr⟩
    · refine ⟨ms, processRoutes_cons_ok.mpr ⟨[], [], ms, [], _, hpr, hrec, rfl⟩,
        hchar, ?_⟩
      intro r2 hr2 iid hiid
      rcases List.mem_cons.mp hr2 with rfl | hr2b
      · rw [hins] at hiid
        cases hiid
      · exact hmem r2 hr2b iid hiid
    · refine ⟨Msg.routeExists t r.destination_cidr_block (some ip) inst.id
          eni.id :: ms,
        processRoutes_cons_ok.mpr ⟨_, _, ms, [], _, hpr, hrec, rfl⟩, ?_, ?_⟩
      · intro x hx
        rcases List.mem_cons.mp hx with rfl | hx2
        · exact ⟨r.destination_cidr_block, some ip, inst.id, eni.id, rfl⟩
        · exact hchar x hx2
      · intro r2 hr2 iid hiid
        rcases List.mem_cons.mp hr2 with rfl | hr2b
        · exact ⟨inst, ip, eni, List.mem_cons_self _ _⟩
        · obtain ⟨inst2, ip2, eni2, hm2⟩ := hmem r2 hr2b iid hiid
          exact ⟨inst2, ip2, eni2, List.mem_cons_of_mem _ hm2⟩

/-- The first loop over tables of stable routes. -/
theorem stable_processTables {spec : RouteSpec} {vpc : VpcInfo}
    (rts : List RouteTable) (d : List (String × List String))
    (hst : ∀ rt ∈ rts, ∀ r ∈ rt.routes, StableRoute spec vpc r) :
    ∃ ms d2, processTables spec vpc rts d = .ok (ms, [], d2) ∧
      (∀ x ∈ ms, ∃ t c ip i e, x = Msg.routeExists t c ip i e) ∧
      (∀ rt ∈ rts, ∀ r ∈ rt.routes, ∀ iid, r.instance_id = some iid →
        ∃ (inst : Instance) (ip : String) (eni : ENI),
          Msg.routeExists rt.id r.destination_cidr_block (some ip) inst.id
            eni.id ∈ ms) := by
  induction rts generalizing d with
  | nil =>
    refine ⟨[], d, rfl, ?_, ?_⟩
    · intro x hx
      cases hx
    · intro rt hrt
      cases hrt
  | cons rt0 rts ih =>
    obtain ⟨m1, h1, hchar1, hmem1⟩ :=
      stable_processRoutes rt0.id rt0.routes
        (fun r hr => hst rt0 (List.mem_cons_self _ _) r hr)
    obtain ⟨ms, d2, h2, hchar2, hmem2⟩ :=
      ih (dictInsert d rt0.id (rt0.routes.map Route.destination_cidr_block))
        (fun rt hrt r hr => hst rt (List.mem_cons_of_mem _ hrt) r hr)
    refine ⟨m1 ++ ms, d2,
      processTables_cons_ok.mpr ⟨m1, [], _, ms, [], d2, h1, h2, rfl⟩, ?_, ?_⟩
    · intro x hx
      rcases List.mem_append.mp hx with hx | hx
      · obtain ⟨c, ip, i, e, rfl⟩ := hchar1 x hx
        exact ⟨rt0.id, c, ip, i, e, rfl⟩
      · exact hchar2 x hx
    · intro rt hrt r hr iid hiid
      rcases List.mem_cons.mp hrt with rfl | hrt2
      · obtain ⟨inst, ip, eni, hm⟩ := hmem1 r hr iid hiid
        exact ⟨inst, ip, eni, List.mem_append.mpr (Or.inl hm)⟩
      · obtain ⟨inst, ip, eni, hm⟩ := hmem2 rt hrt2 r hr iid hiid
        exact ⟨inst, ip, eni, List.mem_append.mpr (Or.inr hm)⟩

/-- The inner create loop skips every `route_dict` entry that already
observed the CIDR. -/
theorem skip_processSpecEntryTables {vpc : VpcInfo} {dcidr : String}
    {hosts : List String} {lastRtId : String}
    (d : List (String × List String))
    (hall : ∀ p ∈ d, p.2.contains dcidr = true) :
    processSpecEntryTables vpc dcidr hosts lastRtId d = .ok ([], []) := by
  induction d with
  | nil => rfl
  | cons p d ih =>
    obtain ⟨pa, pb⟩ := p
    unfold processSpecEntryTables
    rw [createStep_eq_skip (hall (pa, pb) (List.mem_cons_self _ _)),
      ih (fun p hp => hall p (List.mem_cons_of_mem _ hp))]
    rfl

/-- The second loop issues nothing when every spec CIDR was observed in
every table. -/
theorem skip_processSpecEntries {vpc : VpcInfo} {lastRtId : String}
    {d : List (String × List String)} (spec : RouteSpec)
    (hall : ∀ q ∈ spec, ∀ p ∈ d, p.2.contains q.1 = true) :
    processSpecEntries vpc lastRtId d spec = .ok ([], []) := by
  induction spec with
  | nil => rfl
  | cons q spec ih =>
    obtain ⟨qa, qb⟩ := q
    unfold processSpecEntries
    rw [skip_processSpecEntryTables d
        (fun p hp => hall (qa, qb) (List.mem_cons_self _ _) p hp),
      ih (fun q2 hq2 p hp => hall q2 (List.mem_cons_of_mem _ hq2) p hp)]
    rfl

/-- A pass over a stable snapshot issues no mutation, reports only
route-exists lines, and reports one for every tracked route. -/
theorem stable_pass {vpc2 : VpcInfo} {spec : RouteSpec} (d2 : List String)
    (hst : Stable spec vpc2)
    (hndt2 : (vpc2.route_tables.map RouteTable.id).Nodup) :
    ∃ msgs2, process_route_spec_config vpc2 spec d2 = .ok (msgs2, []) ∧
      (∀ x ∈ msgs2, ∃ t c ip i e, x = Msg.routeExists t c ip i e) ∧
      (∀ rt ∈ vpc2.route_tables, ∀ r ∈ rt.routes, ∀ iid,
        r.instance_id = some iid →
        ∃ (inst : Instance) (ip : String) (eni : ENI),
          Msg.routeExists rt.id r.destination_cidr_block (some ip) inst.id
            eni.id ∈ msgs2) := by
  obtain ⟨ms, dv, hPT, hchar, hmem⟩ :=
    stable_processTables vpc2.route_tables [] hst.1
  have hdveq := processTables_dict hPT hndt2
    (fun p hp => absurd hp (List.not_mem_nil p))
  have hdv : dv = routeDictOf vpc2 := by
    simpa [routeDictOf] using hdveq
  subst hdv
  have hskip : processSpecEntries vpc2 (lastRtIdOf vpc2) (routeDictOf vpc2)
      spec = .ok ([], []) := by
    apply skip_processSpecEntries
    intro q hq p hp
    obtain ⟨rt, hrt, rfl⟩ := List.mem_map.mp hp
    exact hst.2 q hq rt hrt
  refine ⟨ms, ?_, hchar, hmem⟩
  exact process_ok_iff.mpr
    ⟨ms, [], routeDictOf vpc2, [], [], hPT, hskip, by simp⟩

/-- C9, counterexample.  One reconciliation pass over a snapshot whose only
route covers the spec CIDR but is not attached to a tracked instance: the
pass succeeds with no calls and no messages, so a second identical pass also
issues zero calls — but it reports nothing at all, in particular no
"already correct" line for the spec CIDR, because untracked routes are
silently skipped.  This refutes the claim that the second run reports every
spec CIDR's route as already existing/correct. -/
theorem C9_counterexample :
    process_route_spec_config cxVpcUn cxSpec [] = .ok ([], []) ∧
    applyActions cxVpcUn [] = cxVpcUn ∧
    specGet cxSpec "10.1.0.0/24" = some ["10.0.0.1", "10.0.0.2"] ∧
    "10.1.0.0/24" ∈ cxTableUn.routes.map Route.destination_cidr_block :=
  ⟨by decide, by decide, by decide, by decide⟩

/-- C9 (amended).  If one pass over a well-formed snapshot (distinct table
ids, per-table route CIDRs, spec keys, instance ids and per-instance
interface ids; non-empty candidate lists) succeeds without failure reports,
then a second pass over the snapshot with the pass's calls applied — the
route tables not otherwise mutated — succeeds with the same spec and any
failed-IP set while issuing zero createRoute, replaceRoute and deleteRoute
calls; every line it reports says a route already exists, every route
attached to a tracked instance is reported as already existing, and every
spec CIDR has a route in every table.  (Per the counterexample, routes not
attached to a tracked instance are skipped without a report, so "reports
every spec CIDR's route" holds only for tracked routes.) -/
theorem C9_theorem {vpc : VpcInfo} {spec : RouteSpec} {daemon : List String}
    {msgs : List Msg} {acts : List Action}
    (h : process_route_spec_config vpc spec daemon = .ok (msgs, acts))
    (hndt : (vpc.route_tables.map RouteTable.id).Nodup)
    (hndc : ∀ rt ∈ vpc.route_tables,
      (rt.routes.map Route.destination_cidr_block).Nodup)
    (hndk : (spec.map Prod.fst).Nodup)
    (hnv : ∀ q ∈ spec, q.2 ≠ [])
    (hndi : (vpc.instances.map Instance.id).Nodup)
    (hnde : ∀ inst ∈ vpc.instances, (inst.interfaces.map ENI.id).Nodup)
    (hnf : ∀ x ∈ msgs, isFailMsg x = false) :
    ∃ msgs2,
      (∀ daemon2, process_route_spec_config (applyActions vpc acts) spec
        daemon2 = .ok (msgs2, [])) ∧
      (∀ x ∈ msgs2, ∃ t c ip i e, x = Msg.routeExists t c ip i e) ∧
      (∀ rt2 ∈ (applyActions vpc acts).route_tables, ∀ r2 ∈ rt2.routes,
        ∀ iid, r2.instance_id = some iid →
        ∃ (inst : Instance) (ip : String) (eni : ENI),
          Msg.routeExists rt2.id r2.destination_cidr_block (some ip) inst.id
            eni.id ∈ msgs2) ∧
      (∀ q ∈ spec, ∀ rt2 ∈ (applyActions vpc acts).route_tables,
        q.1 ∈ rt2.routes.map Route.destination_cidr_block) := by
  have hst := stable_after_pass h hndt hndc hndk hnv hndi hnde hnf
  have hndt2 : ((applyActions vpc acts).route_tables.map RouteTable.id).Nodup := by
    rw [applyActions_table_ids]
    exact hndt
  obtain ⟨msgs2, hpass, hchar, hmem⟩ := stable_pass [] hst hndt2
  refine ⟨msgs2, fun d2 => hpass, hchar, hmem, ?_⟩
  intro q hq rt2 hrt2
  have hc := hst.2 q hq rt2 hrt2
  simpa using hc

def c9Vpc : VpcInfo :=
  ⟨[⟨"rt-9", [⟨"10.9.0.0/24", some "i-9", "eni-9"⟩]⟩],
   [⟨"i-9", [⟨"eni-9", "10.9.0.1"⟩]⟩, ⟨"i-8", [⟨"eni-8", "10.9.0.2"⟩]⟩]⟩

def c9Spec : RouteSpec :=
  [("10.9.0.0/24", ["10.9.0.1"]), ("10.8.0.0/24", ["10.9.0.2"])]

/-- C9, witness: a pass that keeps one correct route and creates one missing
route; the second pass over the updated snapshot issues nothing and reports
both routes as already existing. -/
theorem C9_witness :
    (process_route_spec_config c9Vpc c9Spec [] =
      .ok ([Msg.routeExists "rt-9" "10.9.0.0/24" (some "10.9.0.1") "i-9"
              "eni-9",
            Msg.routeAdded "rt-9" "10.8.0.0/24" "10.9.0.2" "i-8" "eni-8"],
           [Action.createRoute "rt-9" "10.8.0.0/24" "i-8" "eni-8"])) ∧
    (c9Vpc.route_tables.map RouteTable.id).Nodup ∧
    (∀ rt ∈ c9Vpc.route_tables,
      (rt.routes.map Route.destination_cidr_block).Nodup) ∧
    (c9Spec.map Prod.fst).Nodup ∧
    (∀ q ∈ c9Spec, q.2 ≠ []) ∧
    (c9Vpc.instances.map Instance.id).Nodup ∧
    (∀ inst ∈ c9Vpc.instances, (inst.interfaces.map ENI.id).Nodup) ∧
    (∀ x ∈ [Msg.routeExists "rt-9" "10.9.0.0/24" (some "10.9.0.1") "i-9"
              "eni-9",
            Msg.routeAdded "rt-9" "10.8.0.0/24" "10.9.0.2" "i-8" "eni-8"],
       isFailMsg x = false) ∧
    (∃ msgs2,
      (∀ daemon2, process_route_spec_config
          (applyActions c9Vpc
            [Action.createRoute "rt-9" "10.8.0.0/24" "i-8" "eni-8"])
          c9Spec daemon2 = .ok (msgs2, [])) ∧
      (∀ x ∈ msgs2, ∃ t c ip i e, x = Msg.routeExists t c ip i e) ∧
      (∀ rt2 ∈ (applyActions c9Vpc
          [Action.createRoute "rt-9" "10.8.0.0/24" "i-8" "eni-8"]).route_tables,
        ∀ r2 ∈ rt2.routes, ∀ iid, r2.instance_id = some iid →
        ∃ (inst : Instance) (ip : String) (eni : ENI),
          Msg.routeExists rt2.id r2.destination_cidr_block (some ip) inst.id
            eni.id ∈ msgs2) ∧
      (∀ q ∈ c9Spec, ∀ rt2 ∈ (applyActions c9Vpc
          [Action.createRoute "rt-9" "10.8.0.0/24" "i-8" "eni-8"]).route_tables,
        q.1 ∈ rt2.routes.map Route.destination_cidr_block)) := by
  have hpass : process_route_spec_config c9Vpc c9Spec [] =
      .ok ([Msg.routeExists "rt-9" "10.9.0.0/24" (some "10.9.0.1") "i-9"
              "eni-9",
            Msg.routeAdded "rt-9" "10.8.0.0/24" "10.9.0.2" "i-8" "eni-8"],
           [Action.createRoute "rt-9" "10.8.0.0/24" "i-8" "eni-8"]) := by
    decide
  have h1 : (c9Vpc.route_tables.map RouteTable.id).Nodup := by decide
  have h2 : ∀ rt ∈ c9Vpc.route_tables,
      (rt.routes.map Route.destination_cidr_block).Nodup := by decide
  have h3 : (c9Spec.map Prod.fst).Nodup := by decide
  have h4 : ∀ q ∈ c9Spec, q.2 ≠ [] := by decide
  have h5 : (c9Vpc.instances.map Instance.id).Nodup := by decide
  have h6 : ∀ inst ∈ c9Vpc.instances,
      (inst.interfaces.map ENI.id).Nodup := by decide
  have h7 : ∀ x ∈ [Msg.routeExists "rt-9" "10.9.0.0/24" (some "10.9.0.1")
        "i-9" "eni-9",
      Msg.routeAdded "rt-9" "10.8.0.0/24" "10.9.0.2" "i-8" "eni-8"],
      isFailMsg x = false := by decide
  exact ⟨hpass, h1, h2, h3, h4, h5, h6, h7,
    C9_theorem hpass h1 h2 h3 h4 h5 h6 h7⟩

end VpcRouter
